import Mathlib

/-!
Verification of the `sections.py` Markdown extension (Hyde / Python-Markdown).

The Python source mutates an ElementTree in place and keeps aliased
references to elements (`current_section`, the section stack), so the
embedding uses an explicit heap: elements are identified by natural-number
ids, the heap is a list of element records indexed by id, and every
mutation is an explicit heap update.  Python string primitives used by the
source (`str.split`, `str.replace`, `str.strip`, `str.startswith`, `int`,
`str` of an integer, `' '.join`) are modelled by executable recursive
functions with the same semantics on the inputs the source feeds them.
-/

namespace SectionsExt

/-- Python exception kinds that the modelled code can raise. -/
inductive PyErr where
  | valueError
  | keyError
  | indexError
  | typeError
  | fuelOut
deriving Repr, DecidableEq

/-- An ElementTree element: tag, ordered attribute list, ordered child ids. -/
structure Elem where
  tag : String
  attrs : List (String × String)
  children : List Nat
deriving Repr, DecidableEq

/-- The element heap: element with id `i` is entry `i` of the list. -/
abbrev Heap := List Elem

/-- Heap lookup (total, with a dummy element out of range). -/
def hget (h : Heap) (i : Nat) : Elem := h.getD i ⟨"", [], []⟩

/-- Heap update. -/
def hset (h : Heap) (i : Nat) (e : Elem) : Heap := h.set i e

/-- `element.get(key, default=None)`: first binding of `key` in the
attribute list. -/
def Elem.getAttr (e : Elem) (k : String) : Option String :=
  (e.attrs.find? (fun p => p.1 = k)).map (fun p => p.2)

/-- `element.set(key, value)`: replace the first binding of `key`, or
append a new binding. -/
def setAttrList : List (String × String) → String → String → List (String × String)
  | [], k, v => [(k, v)]
  | (k', v') :: rest, k, v =>
      if k' = k then (k, v) :: rest else (k', v') :: setAttrList rest k v

def Elem.setAttr (e : Elem) (k v : String) : Elem :=
  { e with attrs := setAttrList e.attrs k v }

/-! ## Python string primitives -/

/-- `s.split(sep)` for a one-character separator, Python semantics:
empty pieces are kept, and splitting the empty string yields `[""]`. -/
def splitChars (sep : Char) : List Char → List (List Char)
  | [] => [[]]
  | c :: cs =>
      match splitChars sep cs with
      | [] => [[]]
      | t :: ts => if c = sep then [] :: t :: ts else (c :: t) :: ts

def pySplit (s : String) (sep : Char) : List String :=
  (splitChars sep s.data).map String.mk

/-- `sep.join(pieces)` on character lists. -/
def joinChars (sep : Char) : List (List Char) → List Char
  | [] => []
  | [l] => l
  | l :: ls => l ++ sep :: joinChars sep ls

def pyJoin (sep : Char) (pieces : List String) : String :=
  String.mk (joinChars sep (pieces.map String.data))

/-- `s.strip()`: drop whitespace from both ends. -/
def stripChars (cs : List Char) : List Char :=
  ((cs.dropWhile Char.isWhitespace).reverse.dropWhile Char.isWhitespace).reverse

def pyStrip (s : String) : String := String.mk (stripChars s.data)

/-- `s.startswith('has')`. -/
def startsWithHas (s : String) : Bool := ['h', 'a', 's'].isPrefixOf s.data

/-- `s.replace('has', '')`: delete every (left-to-right, non-overlapping)
occurrence of `"has"`. -/
def replaceHasChars : List Char → List Char
  | 'h' :: 'a' :: 's' :: rest => replaceHasChars rest
  | c :: rest => c :: replaceHasChars rest
  | [] => []

def pyReplaceHas (s : String) : String := String.mk (replaceHasChars s.data)

/-- Decimal digit character for `d < 10`. -/
def digitChar (d : Nat) : Char := Char.ofNat (48 + d)

/-- Decimal digits of a natural number, most significant first
(structural recursion on a fuel argument; `natChars` supplies enough). -/
def natCharsAux : Nat → Nat → List Char
  | 0, _ => []
  | f + 1, n =>
      if n < 10 then [digitChar n]
      else natCharsAux f (n / 10) ++ [digitChar (n % 10)]

def natChars (n : Nat) : List Char := natCharsAux (n + 1) n

/-- `str(n)` for a natural number. -/
def pyStrNat (n : Nat) : String := String.mk (natChars n)

/-- `str(i)` / `'%d' % i` for an integer. -/
def pyStrInt : Int → String
  | .ofNat n => pyStrNat n
  | .negSucc m => String.mk ('-' :: natChars (m + 1))

/-- Value of a nonempty all-digit character list. -/
def digitsVal? (cs : List Char) : Option Nat :=
  if cs = [] then none
  else if cs.all Char.isDigit then
    some (cs.foldl (fun a c => 10 * a + (c.toNat - 48)) 0)
  else none

/-- `int(s)` after whitespace stripping: optional sign then digits. -/
def pyIntChars? : List Char → Option Int
  | [] => none
  | c :: rest =>
      if c = '-' then (digitsVal? rest).map (fun n => -(n : Int))
      else if c = '+' then (digitsVal? rest).map (fun n => (n : Int))
      else (digitsVal? (c :: rest)).map (fun n => (n : Int))

/-- `int(s)`: `none` models `ValueError`. -/
def pyInt? (s : String) : Option Int := pyIntChars? (stripChars s.data)

/-! ## Assembler state

`SectionsAssember.__init__` stores `md`, `config`, the section stack, the
current section pointer and level, `class_prefix`, `max_level` and the
computed heading tag lists.  The state below additionally carries the
element heap, which in Python lives implicitly in the ElementTree. -/

structure St where
  heap : Heap
  section_stack : List (Nat × Int)
  current_section : Option Nat
  current_level : Int
  classPfx : String
  max_level : Int
  allheaders : List String
  headers : List String
deriving Repr, DecidableEq

/-- `SectionsAssember._get_config_value`: document metadata first, then the
static configuration; a missing key in both is Python's uncaught
`KeyError`. -/
def get_config_value (meta config : List (String × String)) (key : String) : Option String :=
  match (meta.find? (fun p => p.1 = key)).map (fun p => p.2) with
  | some v => some v
  | none => (config.find? (fun p => p.1 = key)).map (fun p => p.2)

/-- `SectionsAssember.__init__` minus the heap: resolves `class_prefix`,
parses `max_level` with `int(...)` (a `ValueError` is the configuration
failure), and computes `allheaders = [h1..h6]` and
`headers = ['h%d' % level for level in range(1, max_level+1)]`. -/
def mkAssember (meta config : List (String × String)) (heap : Heap) : Except PyErr St := do
  let cp ← match get_config_value meta config "class_prefix" with
    | some v => Except.ok v
    | none => Except.error PyErr.keyError
  let mlStr ← match get_config_value meta config "max_level" with
    | some v => Except.ok v
    | none => Except.error PyErr.keyError
  let ml ← match pyInt? mlStr with
    | some v => Except.ok v
    | none => Except.error PyErr.valueError
  Except.ok
    { heap := heap
      section_stack := []
      current_section := none
      current_level := 0
      classPfx := cp
      max_level := ml
      allheaders := (List.range' 1 6).map (fun level => "h" ++ pyStrNat level)
      headers := (List.range' 1 ml.toNat).map (fun level => "h" ++ pyStrNat level) }

/-- `SectionsAssember.get_level`: `int(header.tag[-1])`.  Indexing an empty
tag raises `IndexError`; a non-digit last character raises `ValueError`. -/
def get_level (header : Elem) : Except PyErr Int :=
  match header.tag.data.getLast? with
  | none => Except.error PyErr.indexError
  | some c =>
      match pyInt? (String.mk [c]) with
      | some n => Except.ok n
      | none => Except.error PyErr.valueError

/-- The `css_class` string built by `make_section`:
`'%s%d' % (class_prefix, level)` when `class_prefix` is non-empty, then
`' ' + header_class` when the heading's own class is present and non-empty,
finally `.strip()`. -/
def sectionCss (cp : String) (level : Int) (headerCls : Option String) : String :=
  let css := if cp ≠ "" then cp ++ pyStrInt level else ""
  let css :=
    match headerCls with
    | some hc => if hc ≠ "" then css ++ " " ++ hc else css
    | none => css
  pyStrip css

/-- The attribute dict built at the top of `make_section`: a
`section_`-prefixed id when the heading's id is truthy (non-empty), then
the class string (`get_level` is only consulted when `class_prefix` is
truthy, exactly as in the source). -/
def sectionAtts (cp : String) (header : Elem) : Except PyErr (List (String × String)) := do
  let atts : List (String × String) :=
    match header.getAttr "id" with
    | some hid => if hid ≠ "" then [("id", "section_" ++ hid)] else []
    | none => []
  let css ←
    if cp ≠ "" then do
      let lvl ← get_level header
      Except.ok (sectionCss cp lvl (header.getAttr "class"))
    else
      Except.ok (sectionCss cp 0 (header.getAttr "class"))
  Except.ok (atts ++ [("class", css)])

/-- `etree.SubElement(parent, tag, atts)`: allocate a fresh element and
append its id to `parent`'s children.  Returns the updated heap and the
new id. -/
def subElement (h : Heap) (parent : Nat) (e : Elem) : Heap × Nat :=
  let newId := h.length
  let h1 := h ++ [e]
  let parentE := hget h1 parent
  (hset h1 parent { parentE with children := parentE.children ++ [newId] }, newId)

/-- `SectionsAssember.make_section(header, parent)`: build the attribute
dict and `etree.SubElement(parent, 'section', atts)`.  Returns the new
element's id. -/
def make_section (st : St) (header : Elem) (parent : Nat) : Except PyErr (St × Nat) := do
  let atts ← sectionAtts st.classPfx header
  let r := subElement st.heap parent ⟨"section", atts, []⟩
  Except.ok ({ st with heap := r.1 }, r.2)

/-- `SectionsAssember.end_section`. -/
def end_section (st : St) : St :=
  match st.current_section with
  | none => st
  | some _ =>
      match st.section_stack with
      | (s, l) :: rest =>
          { st with current_section := some s, current_level := l, section_stack := rest }
      | [] => { st with current_section := none, current_level := 0 }

/-- The `while` loop at the top of `begin_section`: close sections while
one is open at a level `>=` the new heading's level.  Fuel-indexed
structural recursion: each `end_section` either shortens the stack or
empties the current section (after which the loop guard is false), so
`stack length + 1` steps always suffice. -/
def popWhileAux : Nat → St → Int → St
  | 0, st, _ => st
  | f + 1, st, level =>
      match st.current_section with
      | none => st
      | some _ =>
          if st.current_level ≥ level then popWhileAux f (end_section st) level
          else st

def popWhile (st : St) (level : Int) : St :=
  popWhileAux (st.section_stack.length + 1) st level

/-- The `for css_class in css_classes` loop of `begin_section`: the last
`has`-prefixed token's numeral wins, and any `has`-prefixed token whose
remainder (after `replace('has', '')`) is not an integer raises
`ValueError`. -/
def scanHas : List String → Int → Except PyErr Int
  | [], count => Except.ok count
  | c :: rest, count =>
      if startsWithHas c then
        match pyInt? (pyReplaceHas c) with
        | some n => scanHas rest n
        | none => Except.error PyErr.valueError
      else scanHas rest count

/-- The sibling-count (`hasN`) update `begin_section` applies to the class
token list of the still-open section: read the last `hasN` value, remove
the stale token if literally present, append `has(N+1)`. -/
def bumpHas (css_classes : List String) : Except PyErr (List String) := do
  let count ← scanHas css_classes 0
  let has_class := "has" ++ pyStrInt count
  let css_classes :=
    if has_class ∈ css_classes then css_classes.erase has_class else css_classes
  let count := count + 1
  Except.ok (css_classes ++ ["has" ++ pyStrInt count])

/-- `SectionsAssember.begin_section(header, parent)`. -/
def begin_section (st : St) (header : Elem) (parent : Nat) : Except PyErr St := do
  let level ← get_level header
  let st := popWhile st level
  match st.current_section with
  | none => do
      let (st1, sid) ← make_section st header parent
      Except.ok { st1 with current_section := some sid, current_level := level }
  | some cs => do
      let st := { st with
        section_stack := (cs, st.current_level) :: st.section_stack }
      let csE := hget st.heap cs
      let css_classes := pySplit ((csE.getAttr "class").getD "has0") ' '
      let css_classes ← bumpHas css_classes
      let csE := csE.setAttr "class" (pyJoin ' ' css_classes)
      let st := { st with heap := hset st.heap cs csE }
      let (st1, sid) ← make_section st header cs
      Except.ok { st1 with current_section := some sid, current_level := level }

/-- `SectionsAssember.add_element(element, parent)`: ElementTree truthiness
of `parent` is "has at least one child"; `parent.remove(element)` removes
the first occurrence (raising `ValueError` when absent) and
`current_section.append(element)` appends (an absent current section would
be Python's `AttributeError` on `None`). -/
def add_element (st : St) (childId parentId : Nat) : Except PyErr St :=
  let parentE := hget st.heap parentId
  if parentE.children ≠ [] then
    if childId ∈ parentE.children then
      let heap1 := hset st.heap parentId { parentE with children := parentE.children.erase childId }
      match st.current_section with
      | none => Except.error PyErr.typeError
      | some cs =>
          let csE := hget heap1 cs
          Except.ok { st with heap := hset heap1 cs { csE with children := csE.children ++ [childId] } }
    else Except.error PyErr.valueError
  else Except.ok st

/-- `SectionsAssember.assemble(elem)`: iterate over a snapshot of the
children (`getchildren()` of the bundled C ElementTree returns a fresh
list), with the local `section` variable updated after each heading.
Recursion into non-empty children consumes fuel (structurally);
`fuelOut` never occurs for adequate fuel. -/
def assembleLoop (recurse : St → Nat → Except PyErr St) (elemId : Nat) :
    List Nat → Option Nat → St → Except PyErr St
  | [], _, st => Except.ok st
  | c :: cs, sectionVar, st => do
      let childE := hget st.heap c
      let (st, sectionVar) ←
        if childE.tag ∈ st.headers then do
          let st ← begin_section st childE elemId
          Except.ok (st, st.current_section)
        else Except.ok (st, sectionVar)
      let st ← if sectionVar.isSome then add_element st c elemId else Except.ok st
      let st ←
        if (hget st.heap c).children.length ≠ 0 then recurse st c
        else Except.ok st
      assembleLoop recurse elemId cs sectionVar st

def assembleF : Nat → St → Nat → Except PyErr St
  | 0, _, _ => Except.error PyErr.fuelOut
  | f + 1, st, elemId =>
      assembleLoop (fun st' c => assembleF f st' c) elemId
        ((hget st.heap elemId).children) none st

/-- `SectionsTreeprocessor.run(doc)`: construct the assembler (which is
where configuration parsing can fail) and only then walk the tree. -/
def runProcessor (meta config : List (String × String)) (heap : Heap)
    (docId : Nat) (fuel : Nat) : Except PyErr Heap := do
  let st ← mkAssember meta config heap
  let st ← assembleF fuel st docId
  Except.ok st.heap

/-- The default configuration dict of `SectionsExtension.__init__`. -/
def defaultConfig : List (String × String) :=
  [("max_level", "3"), ("class_prefix", "level")]

/-- `markdown.Extension.setConfig`: `self.config[key][0] = value` raises
`KeyError` for a key absent from the defaults. -/
def setConfig (cfg : List (String × String)) (key value : String) :
    Except PyErr (List (String × String)) :=
  if cfg.any (fun p => p.1 = key) then Except.ok (setAttrList cfg key value)
  else Except.error PyErr.keyError

/-- `SectionsExtension.__init__(configs)`: unconditionally executes
`for key, value in configs: self.setConfig(key, value)`; iterating `None`
raises `TypeError`. -/
def SectionsExtension_init (configs : Option (List (String × String))) :
    Except PyErr (List (String × String)) :=
  match configs with
  | none => Except.error PyErr.typeError
  | some l => l.foldlM (fun acc p => setConfig acc p.1 p.2) defaultConfig

/-- `makeExtension(configs=None)`: forwards `configs` to the extension
constructor; the Python default argument is `None`, so a bare
`makeExtension()` call is `SectionsExtension(configs=None)`. -/
def makeExtension (configs : Option (List (String × String))) :
    Except PyErr (List (String × String)) :=
  SectionsExtension_init configs

deriving instance DecidableEq for Except

/-! ## Derived notions used to state the claims -/

/-- The currently open sections, innermost first: the current section (with
its level) followed by the stack, top of stack first. -/
def openSecs (st : St) : List (Nat × Int) :=
  (match st.current_section with
   | some c => [(c, st.current_level)]
   | none => []) ++ st.section_stack

/-- The stack invariant: open-section levels are strictly decreasing from
the current section down the stack (equivalently, strictly increasing from
the bottom of the stack up to the current section), and no stack entry
survives without a current section. -/
def StackInv (st : St) : Prop :=
  List.Pairwise (fun a b : Nat × Int => a.2 > b.2) (openSecs st) ∧
  (st.current_section = none → st.section_stack = [])

instance (st : St) : Decidable (StackInv st) := by
  unfold StackInv; infer_instance

/-- Claim C4's wording for the generated section's `id` attribute:
`section_` + the heading's id whenever the heading has an id. -/
def claimSectionId (header : Elem) : Option String :=
  (header.getAttr "id").map (fun i => "section_" ++ i)

/-- Claim C4's wording for the generated section's `class` attribute:
`class_prefix` then the level, then (if the heading has a class) a space
and that class value, with surrounding whitespace stripped. -/
def claimSectionClass (cp : String) (level : Int) (header : Elem) : String :=
  pyStrip (cp ++ pyStrInt level ++
    (match header.getAttr "class" with
     | some hc => " " ++ hc
     | none => ""))

/-- Number of direct child `section` elements of element `j`. -/
def secCount (h : Heap) (j : Nat) : Nat :=
  ((hget h j).children.filter (fun k => (hget h k).tag = "section")).length

/-- The whitespace-separated `has`-prefixed tokens of element `j`'s class
attribute, read the way `begin_section` reads them. -/
def hasToks (h : Heap) (j : Nat) : List String :=
  (pySplit (((hget h j).getAttr "class").getD "has0") ' ').filter startsWithHas

/-- Total number of occurrences of id `i` in children lists across the
heap (used to state that no child is lost or duplicated). -/
def occTotal (h : Heap) (i : Nat) : Nat :=
  (h.map (fun e => e.children.count i)).sum

/-- The sibling-count well-formedness of one element's class attribute:
either it carries no `has`-prefixed token and has no direct child
sections, or it carries exactly the token `has<n>` where `n` is its
number of direct child `section` elements. -/
def HasProp (h : Heap) (j : Nat) : Prop :=
  (hasToks h j = [] ∧ secCount h j = 0) ∨
  (∃ n : Nat, hasToks h j = ["has" ++ pyStrNat n] ∧ secCount h j = n)

/-- A flat document over heap `h0`: the root is element 0, its children
are distinct leaf elements strictly between 0 and the heap size, and no
element of the input is tagged `section`. -/
def FlatDoc (h0 : Heap) : Prop :=
  0 < h0.length ∧
  (∀ i ∈ (hget h0 0).children, 0 < i ∧ i < h0.length) ∧
  (∀ k, k < h0.length → 0 < k → (hget h0 k).children = []) ∧
  (∀ k, k < h0.length → (hget h0 k).tag ≠ "section")

instance (h0 : Heap) : Decidable (FlatDoc h0) := by
  unfold FlatDoc; infer_instance

/-- The section class `make_section` would generate for `e` contains no
whitespace-separated token starting with `has` (checked for the level the
code actually uses, and for the empty-prefix path when relevant). -/
def cssHasFreeB (cp : String) (e : Elem) : Bool :=
  (match get_level e with
   | Except.ok L =>
       (pySplit (sectionCss cp L (e.getAttr "class")) ' ').all (fun t => !(startsWithHas t))
   | Except.error _ => true) &&
  (if cp = "" then
      (pySplit (sectionCss cp 0 (e.getAttr "class")) ' ').all (fun t => !(startsWithHas t))
    else true)

/-- The invariant maintained across one flat tree-walk: input elements
are untouched (the root keeps its tag and attributes), every element
allocated during assembly is a `section` satisfying `HasProp`, children
ids are in range, and the current section and stack refer to allocated
sections. -/
structure FlatInv (h0 : Heap) (st : St) : Prop where
  hlen : h0.length ≤ st.heap.length
  hroot_tag : (hget st.heap 0).tag = (hget h0 0).tag
  hroot_attrs : (hget st.heap 0).attrs = (hget h0 0).attrs
  hinputs : ∀ k, 0 < k → k < h0.length → hget st.heap k = hget h0 k
  hsecs : ∀ j, h0.length ≤ j → j < st.heap.length →
    (hget st.heap j).tag = "section" ∧ HasProp st.heap j
  hkids : ∀ j, j < st.heap.length → ∀ k ∈ (hget st.heap j).children, k < st.heap.length
  hcur : ∀ c, st.current_section = some c → h0.length ≤ c ∧ c < st.heap.length
  hstk : ∀ p ∈ st.section_stack, h0.length ≤ p.1 ∧ p.1 < st.heap.length

/-! ## Concrete inputs used by counterexamples and witnesses -/

/-- A document whose `h1` carries the class `hash` (a token starting with
`has` whose remainder is not a numeral), followed by an `h2`. -/
def cxDocHash : Heap :=
  [ ⟨"div", [], [1, 2]⟩,
    ⟨"h1", [("class", "hash")], []⟩,
    ⟨"h2", [], []⟩ ]

/-- A document whose `h1` carries the class `has7`, followed by an `h2`. -/
def cxDocHas7 : Heap :=
  [ ⟨"div", [], [1, 2]⟩,
    ⟨"h1", [("class", "has7")], []⟩,
    ⟨"h2", [], []⟩ ]

/-- A document that opens directly with an `h3`. -/
def cxDocH3 : Heap :=
  [ ⟨"div", [], [1, 2]⟩,
    ⟨"h3", [], []⟩,
    ⟨"p", [], []⟩ ]

/-- A two-heading flat document used as a generic witness input. -/
def cxDocTwo : Heap :=
  [ ⟨"div", [], [1, 2, 3, 4]⟩,
    ⟨"h1", [("id", "a")], []⟩,
    ⟨"p", [], []⟩,
    ⟨"h2", [("id", "b")], []⟩,
    ⟨"p", [], []⟩ ]

/-- The final heap of assembling `cxDocHas7` with the default
configuration. -/
def cxHeapHas7After : Heap :=
  [ ⟨"div", [], [3]⟩,
    ⟨"h1", [("class", "has7")], []⟩,
    ⟨"h2", [], []⟩,
    ⟨"section", [("class", "level1 has8")], [1, 4]⟩,
    ⟨"section", [("class", "level2")], [2]⟩ ]

/-- Assembler start state for the two-heading flat document. -/
def cxStTwo : St :=
  { heap := cxDocTwo
    section_stack := []
    current_section := none
    current_level := 0
    classPfx := "level"
    max_level := 3
    allheaders := ["h1", "h2", "h3", "h4", "h5", "h6"]
    headers := ["h1", "h2", "h3"] }

/-- The state after assembling `cxStTwo`. -/
def cxStTwoAfter : St :=
  { heap := [ ⟨"div", [], [5]⟩,
      ⟨"h1", [("id", "a")], []⟩,
      ⟨"p", [], []⟩,
      ⟨"h2", [("id", "b")], []⟩,
      ⟨"p", [], []⟩,
      ⟨"section", [("id", "section_a"), ("class", "level1 has1")], [1, 2, 6]⟩,
      ⟨"section", [("id", "section_b"), ("class", "level2")], [3, 4]⟩ ]
    section_stack := [(5, 1)]
    current_section := some 6
    current_level := 2
    classPfx := "level"
    max_level := 3
    allheaders := ["h1", "h2", "h3", "h4", "h5", "h6"]
    headers := ["h1", "h2", "h3"] }

/-- A heading with an empty (falsy, in Python) `id` attribute. -/
def cxHdrEmptyId : Elem := ⟨"h1", [("id", "")], []⟩

/-- A heading with a non-empty id and class. -/
def cxHdrFull : Elem := ⟨"h1", [("id", "x"), ("class", "t")], []⟩

/-- An assembler state with one element and no open section, used to probe
`make_section` directly. -/
def cxStBase : St :=
  { heap := [⟨"div", [], []⟩]
    section_stack := []
    current_section := none
    current_level := 0
    classPfx := "level"
    max_level := 3
    allheaders := []
    headers := [] }

/-- The same probe state with an empty class prefix. -/
def cxStNoPfx : St := { cxStBase with classPfx := "" }

/-- A state with one open level-1 section (id 1) over the document root,
and a pending `h2` child (id 2). -/
def cxStOpen : St :=
  { heap := [⟨"div", [], [2]⟩, ⟨"section", [("class", "level1")], []⟩, ⟨"h2", [], []⟩]
    section_stack := []
    current_section := some 1
    current_level := 1
    classPfx := "level"
    max_level := 3
    allheaders := []
    headers := ["h1", "h2", "h3"] }

/-- The state `begin_section` produces from `cxStOpen` on that `h2`. -/
def cxStOpenAfter : St :=
  { heap := [⟨"div", [], [2]⟩, ⟨"section", [("class", "level1 has1")], [3]⟩,
      ⟨"h2", [], []⟩, ⟨"section", [("class", "level2")], []⟩]
    section_stack := [(1, 1)]
    current_section := some 3
    current_level := 2
    classPfx := "level"
    max_level := 3
    allheaders := []
    headers := ["h1", "h2", "h3"] }

/-- The assembler state obtained from the default configuration on
`cxDocH3` (used by witnesses). -/
def cxStDefault : St :=
  { heap := cxDocH3
    section_stack := []
    current_section := none
    current_level := 0
    classPfx := "level"
    max_level := 3
    allheaders := (List.range' 1 6).map (fun level => "h" ++ pyStrNat level)
    headers := (List.range' 1 (3 : Int).toNat).map (fun level => "h" ++ pyStrNat level) }

/-- The loop invariant for the order/movement analysis of the flat
assemble loop (claim C3).  `processed ++ remaining` is the snapshot of the
root's original children; `keep` is the prefix of processed children kept
in the root (those seen before the first recognized heading) and `tops`
the top-level sections appended to the root so far. -/
def C3Inv (h0 : Heap) (cp : String) (hdrs : List String)
    (processed remaining : List Nat) (sv : Option Nat) (st : St) : Prop :=
  FlatInv h0 st ∧ st.classPfx = cp ∧ st.headers = hdrs ∧
  (∀ i ∈ (hget h0 0).children, occTotal st.heap i = occTotal h0 i) ∧
  (∀ j, h0.length ≤ j → j < st.heap.length →
    List.Sublist
      ((hget st.heap j).children.filter (fun k => decide (k ∈ (hget h0 0).children)))
      processed) ∧
  ∃ keep tops,
    (hget st.heap 0).children = keep ++ remaining ++ tops ∧
    (∀ t ∈ tops, h0.length ≤ t) ∧
    ((sv = none ∧ st.current_section = none ∧ keep = processed ∧ tops = [] ∧
        (∀ x ∈ processed, (hget h0 x).tag ∉ hdrs)) ∨
      (∃ hd post, processed = keep ++ hd :: post ∧
        (∀ x ∈ keep, (hget h0 x).tag ∉ hdrs) ∧
        (hget h0 hd).tag ∈ hdrs ∧
        sv = st.current_section ∧ st.current_section.isSome = true ∧
        (∀ i ∈ hd :: post, ∃ j, h0.length ≤ j ∧ j < st.heap.length ∧
          i ∈ (hget st.heap j).children)))

/-- Descendant-or-equal relation on element ids, read off the child lists
of a fixed heap: `Desc h0 k m` holds when `m` is reachable from `k` by
following `children` edges (including `k` itself). -/
inductive Desc (h0 : Heap) : Nat → Nat → Prop where
  | refl : ∀ k, Desc h0 k k
  | step : ∀ k j m, j ∈ (hget h0 k).children → Desc h0 j m → Desc h0 k m

/-- A well-formed document heap: non-empty, every child edge points
forward (`k < j`) and stays in range (so the heap is acyclic), every id
has at most one parent in total, and no input element is tagged
`section`. -/
def DocOK (h0 : Heap) : Prop :=
  0 < h0.length ∧
  (∀ k, k < h0.length → ∀ j ∈ (hget h0 k).children, k < j ∧ j < h0.length) ∧
  (∀ i, i < h0.length → occTotal h0 i ≤ 1) ∧
  (∀ k, k < h0.length → (hget h0 k).tag ≠ "section")

instance (h0 : Heap) : Decidable (DocOK h0) := by
  unfold DocOK
  infer_instance

instance (h : Heap) (j : Nat) : Decidable (HasProp h j) :=
  decidable_of_iff ((hasToks h j = [] ∧ secCount h j = 0) ∨
      hasToks h j = ["has" ++ pyStrNat (secCount h j)]) (by
    constructor
    · rintro (⟨h1, h2⟩ | h1)
      · exact Or.inl ⟨h1, h2⟩
      · exact Or.inr ⟨secCount h j, h1, rfl⟩
    · rintro (⟨h1, h2⟩ | ⟨n, h1, h2⟩)
      · exact Or.inl ⟨h1, h2⟩
      · right
        rw [h1, h2])

/-- The invariant maintained by every operation of one assembly run over
a document heap `h0`: the configuration fields are fixed, input elements
keep their tag and attributes (only their child lists evolve), every
element allocated during assembly is a `section` satisfying the
sibling-count property `HasProp`, child ids stay in range, and the
current section and stack refer to allocated sections. -/
def GenInv (h0 : Heap) (cp : String) (hdrs : List String) (st : St) : Prop :=
  h0.length ≤ st.heap.length ∧
  st.classPfx = cp ∧
  st.headers = hdrs ∧
  "section" ∉ hdrs ∧
  (∀ k, k < h0.length → (hget st.heap k).tag = (hget h0 k).tag) ∧
  (∀ k, k < h0.length → (hget st.heap k).attrs = (hget h0 k).attrs) ∧
  (∀ j, h0.length ≤ j → j < st.heap.length →
    (hget st.heap j).tag = "section" ∧ HasProp st.heap j) ∧
  (∀ j, j < st.heap.length → ∀ k ∈ (hget st.heap j).children, k < st.heap.length) ∧
  (∀ c, st.current_section = some c → h0.length ≤ c ∧ c < st.heap.length) ∧
  (∀ p ∈ st.section_stack, h0.length ≤ p.1 ∧ p.1 < st.heap.length)

instance (h0 : Heap) (cp : String) (hdrs : List String) (st : St) :
    Decidable (GenInv h0 cp hdrs st) := by
  unfold GenInv
  infer_instance

/-- What one assemble call on node `elemId` does to the heap, stated
relative to its pre-state: the heap only grows, elements outside
`elemId`'s subtree are untouched, the child lists of allocated sections
only grow — and only with new sections or proper descendants of
`elemId` — and occurrence counts of pre-existing ids are unchanged. -/
def StepRel (h0 : Heap) (elemId : Nat) (sin sout : St) : Prop :=
  sin.heap.length ≤ sout.heap.length ∧
  (∀ k, k < h0.length → ¬ Desc h0 elemId k → hget sout.heap k = hget sin.heap k) ∧
  (∀ j, h0.length ≤ j → j < sout.heap.length → ∃ extra,
    (hget sout.heap j).children = (hget sin.heap j).children ++ extra ∧
    ∀ i ∈ extra, h0.length ≤ i ∨ (Desc h0 elemId i ∧ i ≠ elemId)) ∧
  (∀ i, i < sin.heap.length → occTotal sout.heap i = occTotal sin.heap i)

/-- The loop invariant of one assemble call on `elemId`, over the split
of the snapshot into `processed ++ remaining`: `GenInv` holds, occurrence
counts agree with the original document, the children of every section
restricted to `elemId`'s original children form a sublist of the
processed prefix, the subtrees of the yet-unprocessed children are
untouched, and `elemId`'s current children decompose into the kept
prefix, the unprocessed children and the top-level sections. -/
def GLoopInv (h0 : Heap) (cp : String) (hdrs : List String) (elemId : Nat)
    (processed remaining : List Nat) (sv : Option Nat) (st : St) : Prop :=
  GenInv h0 cp hdrs st ∧
  (∀ i, i < h0.length → occTotal st.heap i = occTotal h0 i) ∧
  (∀ j, h0.length ≤ j → j < st.heap.length →
    List.Sublist
      ((hget st.heap j).children.filter
        (fun k => decide (k ∈ (hget h0 elemId).children)))
      processed) ∧
  (∀ k, k < h0.length → (∃ c ∈ remaining, Desc h0 c k) →
    hget st.heap k = hget h0 k) ∧
  remaining.Nodup ∧
  (∀ c ∈ remaining, c ∈ (hget h0 elemId).children) ∧
  ∃ keep tops,
    (hget st.heap elemId).children = keep ++ remaining ++ tops ∧
    (∀ t ∈ tops, h0.length ≤ t) ∧
    ((sv = none ∧ keep = processed ∧ tops = [] ∧
        (∀ x ∈ processed, (hget h0 x).tag ∉ hdrs)) ∨
      (∃ hd post, processed = keep ++ hd :: post ∧
        (∀ x ∈ keep, (hget h0 x).tag ∉ hdrs) ∧
        (hget h0 hd).tag ∈ hdrs ∧
        sv.isSome = true ∧
        (∀ i ∈ hd :: post, ∃ j, h0.length ≤ j ∧ j < st.heap.length ∧
          i ∈ (hget st.heap j).children)))

/-! ## Monad plumbing for `Except` -/

theorem except_bind_ok {ε α β : Type} (a : α) (f : α → Except ε β) :
    (Except.ok a >>= f : Except ε β) = f a := rfl

theorem except_bind_err {ε α β : Type} (e : ε) (f : α → Except ε β) :
    (Except.error e >>= f : Except ε β) = Except.error e := rfl

theorem except_map_ok {ε α β : Type} (a : α) (f : α → β) :
    (Except.ok a : Except ε α).map f = Except.ok (f a) := rfl

/-! ## Heap lemmas -/

theorem length_hset (h : Heap) (i : Nat) (e : Elem) : (hset h i e).length = h.length := by
  simp [hset]

theorem hget_hset_self (h : Heap) (i : Nat) (e : Elem) (hi : i < h.length) :
    hget (hset h i e) i = e := by
  simp [hget, hset, List.getD, List.getElem?_set_self, hi]

theorem hget_hset_ne (h : Heap) (i j : Nat) (e : Elem) (hij : i ≠ j) :
    hget (hset h i e) j = hget h j := by
  simp [hget, hset, List.getD, List.getElem?_set_ne, hij]

theorem hget_append_lt (h : Heap) (e : Elem) (i : Nat) (hi : i < h.length) :
    hget (h ++ [e]) i = hget h i := by
  simp [hget, List.getD, List.getElem?_append_left, hi]

theorem hget_append_self (h : Heap) (e : Elem) : hget (h ++ [e]) h.length = e := by
  simp [hget, List.getD]

theorem hget_oob (h : Heap) (i : Nat) (hi : h.length ≤ i) :
    hget h i = ⟨"", [], []⟩ := by
  simp [hget, List.getD, List.getElem?_eq_none, hi]

/-! ## Decimal numeral lemmas -/

theorem natCharsAux_congr : ∀ f g n : Nat, n < f → n < g → natCharsAux f n = natCharsAux g n := by
  intro f
  induction f with
  | zero => intro g n hf; omega
  | succ f ih =>
      intro g n hf hg
      cases g with
      | zero => omega
      | succ g =>
          show (if n < 10 then [digitChar n] else natCharsAux f (n / 10) ++ [digitChar (n % 10)]) =
            (if n < 10 then [digitChar n] else natCharsAux g (n / 10) ++ [digitChar (n % 10)])
          by_cases h10 : n < 10
          · simp [h10]
          · have hdiv : n / 10 < n := Nat.div_lt_self (by omega) (by omega)
            simp only [h10, if_false]
            rw [ih g (n / 10) (by omega) (by omega)]

theorem natChars_eq (n : Nat) :
    natChars n = if n < 10 then [digitChar n] else natChars (n / 10) ++ [digitChar (n % 10)] := by
  show (if n < 10 then [digitChar n] else natCharsAux n (n / 10) ++ [digitChar (n % 10)]) = _
  by_cases h10 : n < 10
  · simp [h10]
  · have hdiv : n / 10 < n := Nat.div_lt_self (by omega) (by omega)
    simp only [h10, if_false]
    unfold natChars
    rw [natCharsAux_congr n (n / 10 + 1) (n / 10) (by omega) (by omega)]

theorem natChars_ne_nil (n : Nat) : natChars n ≠ [] := by
  rw [natChars_eq]
  by_cases h10 : n < 10 <;> simp [h10]

theorem natChars_shape (n : Nat) : ∀ c ∈ natChars n, ∃ d, d < 10 ∧ c = digitChar d := by
  induction n using Nat.strong_induction_on with
  | _ n ih =>
      rw [natChars_eq]
      by_cases h10 : n < 10
      · simp only [h10, if_true, List.mem_singleton]
        intro c hc
        exact ⟨n, h10, hc⟩
      · have hdiv : n / 10 < n := Nat.div_lt_self (by omega) (by omega)
        simp only [h10, if_false, List.mem_append, List.mem_singleton]
        intro c hc
        rcases hc with hc | hc
        · exact ih (n / 10) hdiv c hc
        · exact ⟨n % 10, by omega, hc⟩

theorem digitChar_isDigit {d : Nat} (h : d < 10) : (digitChar d).isDigit = true := by
  interval_cases d <;> decide

theorem digitChar_props {d : Nat} (h : d < 10) :
    (digitChar d).isWhitespace = false ∧ digitChar d ≠ 'h' ∧ digitChar d ≠ '-' ∧
    digitChar d ≠ '+' ∧ digitChar d ≠ ' ' := by
  interval_cases d <;> exact ⟨by decide, by decide, by decide, by decide, by decide⟩

theorem digitChar_toNat {d : Nat} (h : d < 10) : (digitChar d).toNat = 48 + d := by
  interval_cases d <;> decide

theorem foldl_natChars (n : Nat) :
    ∀ a : Nat, (natChars n).foldl (fun a c => 10 * a + (c.toNat - 48)) a =
      a * 10 ^ (natChars n).length + n := by
  induction n using Nat.strong_induction_on with
  | _ n ih =>
      intro a
      rw [natChars_eq]
      by_cases h10 : n < 10
      · simp [h10, digitChar_toNat h10, Nat.pow_one]; omega
      · have hdiv : n / 10 < n := Nat.div_lt_self (by omega) (by omega)
        have hmod : n % 10 < 10 := Nat.mod_lt _ (by omega)
        simp only [h10, if_false, List.foldl_append, List.length_append,
          List.foldl_cons, List.foldl_nil, List.length_cons, List.length_nil]
        rw [ih (n / 10) hdiv a, digitChar_toNat hmod]
        have : 10 * (a * 10 ^ (natChars (n / 10)).length + n / 10) + (48 + n % 10 - 48) =
            a * (10 ^ (natChars (n / 10)).length * 10) + (10 * (n / 10) + n % 10) := by ring_nf; omega
        rw [this, Nat.div_add_mod]
        ring_nf

theorem digitsVal?_natChars (n : Nat) : digitsVal? (natChars n) = some n := by
  unfold digitsVal?
  have h1 : natChars n ≠ [] := natChars_ne_nil n
  have h2 : (natChars n).all Char.isDigit = true := by
    rw [List.all_eq_true]
    intro c hc
    obtain ⟨d, hd, rfl⟩ := natChars_shape n c hc
    exact digitChar_isDigit hd
  simp only [h1, if_false, h2, if_true]
  rw [foldl_natChars n 0]
  simp

theorem natChars_inj {a b : Nat} (h : natChars a = natChars b) : a = b := by
  have := digitsVal?_natChars a
  rw [h, digitsVal?_natChars b] at this
  exact (Option.some_inj.mp this).symm

theorem pyStrNat_inj {a b : Nat} (h : pyStrNat a = pyStrNat b) : a = b :=
  natChars_inj (congrArg String.data h)

/-! ## `int(str(n))` roundtrip -/

theorem dropWhile_all_neg {α : Type} (p : α → Bool) :
    ∀ l : List α, (∀ c ∈ l, p c = false) → l.dropWhile p = l := by
  intro l h
  cases l with
  | nil => rfl
  | cons c cs =>
      rw [List.dropWhile_cons_of_neg]
      simp [h c (by simp)]

theorem stripChars_all_neg (cs : List Char) (h : ∀ c ∈ cs, c.isWhitespace = false) :
    stripChars cs = cs := by
  unfold stripChars
  rw [dropWhile_all_neg _ cs h, dropWhile_all_neg]
  · simp
  · intro c hc
    exact h c (List.mem_reverse.mp hc)

theorem pyInt?_pyStrNat (n : Nat) : pyInt? (pyStrNat n) = some n := by
  unfold pyInt? pyStrNat
  have hshape := natChars_shape n
  have hnws : ∀ c ∈ natChars n, c.isWhitespace = false := by
    intro c hc
    obtain ⟨d, hd, rfl⟩ := hshape c hc
    exact (digitChar_props hd).1
  rw [show (String.mk (natChars n)).data = natChars n from rfl, stripChars_all_neg _ hnws]
  cases hn : natChars n with
  | nil => exact absurd hn (natChars_ne_nil n)
  | cons c cs =>
      have hc : c ∈ natChars n := by rw [hn]; simp
      obtain ⟨d, hd, rfl⟩ := hshape c hc
      show (if digitChar d = '-' then (digitsVal? cs).map (fun n => -(n : Int))
        else if digitChar d = '+' then (digitsVal? cs).map (fun n => (n : Int))
        else (digitsVal? (digitChar d :: cs)).map (fun n => (n : Int))) = some (n : Int)
      rw [if_neg (digitChar_props hd).2.2.1, if_neg (digitChar_props hd).2.2.2.1, ← hn,
        digitsVal?_natChars n]
      rfl

/-! ## `replace('has', '')` and `startswith('has')` -/

theorem replaceHasChars_cons_ne (c : Char) (rest : List Char) (h : c ≠ 'h') :
    replaceHasChars (c :: rest) = c :: replaceHasChars rest := by
  rw [replaceHasChars.eq_def]
  split <;> simp_all

theorem replaceHasChars_digits (l : List Char) (h : ∀ c ∈ l, ∃ d, d < 10 ∧ c = digitChar d) :
    replaceHasChars l = l := by
  induction l with
  | nil => rfl
  | cons c cs ih =>
      obtain ⟨d, hd, rfl⟩ := h c (by simp)
      rw [replaceHasChars_cons_ne _ _ (digitChar_props hd).2.1, ih]
      intro x hx
      exact h x (by simp [hx])

theorem pyReplaceHas_has_pyStrNat (n : Nat) : pyReplaceHas ("has" ++ pyStrNat n) = pyStrNat n := by
  unfold pyReplaceHas
  rw [show ("has" ++ pyStrNat n).data = 'h' :: 'a' :: 's' :: natChars n by
    rw [String.data_append]; rfl]
  rw [show replaceHasChars ('h' :: 'a' :: 's' :: natChars n) = replaceHasChars (natChars n) from rfl]
  rw [replaceHasChars_digits _ (natChars_shape n)]
  rfl

theorem startsWithHas_has_append (s : String) : startsWithHas ("has" ++ s) = true := by
  unfold startsWithHas
  rw [show ("has" ++ s).data = 'h' :: 'a' :: 's' :: s.data by rw [String.data_append]; rfl]
  simp [List.isPrefixOf]

/-! ## `scanHas` and `bumpHas` -/

theorem scanHas_no_has (l : List String) (acc : Int)
    (h : ∀ t ∈ l, startsWithHas t = false) : scanHas l acc = Except.ok acc := by
  induction l generalizing acc with
  | nil => rfl
  | cons t rest ih =>
      unfold scanHas
      rw [if_neg (by simp [h t (by simp)])]
      exact ih acc (fun t' ht' => h t' (by simp [ht']))

theorem filter_eq_nil_mem {α : Type} {p : α → Bool} {l : List α} (h : l.filter p = [])
    {t : α} (ht : t ∈ l) : p t = false := by
  by_contra hc
  have : t ∈ l.filter p := List.mem_filter.mpr ⟨ht, by simpa using hc⟩
  rw [h] at this
  simp at this

theorem scanHas_single (l : List String) (n : Nat) (acc : Int)
    (h : l.filter startsWithHas = ["has" ++ pyStrNat n]) :
    scanHas l acc = Except.ok n := by
  induction l generalizing acc with
  | nil => simp at h
  | cons t rest ih =>
      unfold scanHas
      by_cases hsw : startsWithHas t = true
      · rw [List.filter_cons_of_pos hsw] at h
        injection h with h1 h2
        subst h1
        rw [if_pos hsw, pyReplaceHas_has_pyStrNat n, pyInt?_pyStrNat n]
        exact scanHas_no_has rest _ (fun t' ht' => filter_eq_nil_mem h2 ht')
      · rw [List.filter_cons_of_neg (by simpa using hsw)] at h
        rw [if_neg hsw]
        exact ih acc h

theorem pyStrInt_ofNat (n : Nat) : pyStrInt (n : Int) = pyStrNat n := rfl

theorem bumpHas_empty (l : List String) (h : l.filter startsWithHas = []) :
    bumpHas l = Except.ok (l ++ ["has" ++ pyStrNat 1]) := by
  unfold bumpHas
  rw [scanHas_no_has l 0 (fun t ht => filter_eq_nil_mem h ht), except_bind_ok]
  have hmem : ("has" ++ pyStrInt 0) ∉ l := by
    intro hc
    have := filter_eq_nil_mem h hc
    rw [show pyStrInt 0 = pyStrNat 0 from rfl, startsWithHas_has_append] at this
    exact absurd this (by simp)
  show Except.ok ((if ("has" ++ pyStrInt 0) ∈ l then l.erase ("has" ++ pyStrInt 0) else l) ++
    ["has" ++ pyStrInt (0 + 1)]) = _
  rw [if_neg hmem]
  rfl

theorem bumpHas_single (l : List String) (n : Nat)
    (h : l.filter startsWithHas = ["has" ++ pyStrNat n]) :
    bumpHas l = Except.ok (l.erase ("has" ++ pyStrNat n) ++ ["has" ++ pyStrNat (n + 1)]) := by
  unfold bumpHas
  rw [scanHas_single l n 0 h, except_bind_ok]
  have hmem : ("has" ++ pyStrInt (n : Int)) ∈ l := by
    have : ("has" ++ pyStrNat n) ∈ l.filter startsWithHas := by rw [h]; simp
    rw [pyStrInt_ofNat]
    exact (List.mem_filter.mp this).1
  show Except.ok ((if ("has" ++ pyStrInt (n : Int)) ∈ l then l.erase ("has" ++ pyStrInt (n : Int))
    else l) ++ ["has" ++ pyStrInt ((n : Int) + 1)]) = _
  rw [if_pos hmem, pyStrInt_ofNat,
    show ((n : Int) + 1) = ((n + 1 : Nat) : Int) by omega, pyStrInt_ofNat]

/-! ## Split / join lemmas -/

theorem splitChars_ne_nil (sep : Char) (cs : List Char) : splitChars sep cs ≠ [] := by
  cases cs with
  | nil => simp [splitChars]
  | cons c cs =>
      unfold splitChars
      cases h : splitChars sep cs with
      | nil => simp
      | cons t ts => by_cases hc : c = sep <;> simp [hc]

theorem splitChars_cons_eq (sep c : Char) (cs u : List Char) (us : List (List Char))
    (h : splitChars sep cs = u :: us) :
    splitChars sep (c :: cs) = if c = sep then [] :: u :: us else (c :: u) :: us := by
  unfold splitChars
  rw [h]

theorem splitChars_dest (sep : Char) (cs : List Char) :
    ∃ u us, splitChars sep cs = u :: us := by
  cases h : splitChars sep cs with
  | nil => exact absurd h (splitChars_ne_nil sep cs)
  | cons u us => exact ⟨u, us, rfl⟩

theorem mem_splitChars_no_sep (sep : Char) :
    ∀ cs : List Char, ∀ t ∈ splitChars sep cs, sep ∉ t := by
  intro cs
  induction cs with
  | nil => intro t ht; simp [splitChars] at ht; simp [ht]
  | cons c cs ih =>
      intro t ht
      obtain ⟨u, us, h⟩ := splitChars_dest sep cs
      rw [splitChars_cons_eq sep c cs u us h] at ht
      by_cases hc : c = sep
      · rw [if_pos hc] at ht
        rcases List.mem_cons.mp ht with rfl | ht
        · simp
        · exact ih t (h ▸ ht)
      · rw [if_neg hc] at ht
        rcases List.mem_cons.mp ht with rfl | ht
        · intro hmem
          rcases List.mem_cons.mp hmem with rfl | hmem
          · exact hc rfl
          · exact ih u (h ▸ List.mem_cons_self u us) hmem
        · exact ih t (h ▸ List.mem_cons.mpr (Or.inr ht))

theorem splitChars_no_sep (sep : Char) (l : List Char) (h : sep ∉ l) :
    splitChars sep l = [l] := by
  induction l with
  | nil => rfl
  | cons c cs ih =>
      rw [splitChars_cons_eq sep c cs cs []
        (ih (fun hc => h (List.mem_cons.mpr (Or.inr hc))))]
      rw [if_neg (fun hc : c = sep => h (hc ▸ List.mem_cons_self c cs))]

theorem splitChars_append_sep (sep : Char) (l rest : List Char) (h : sep ∉ l) :
    splitChars sep (l ++ sep :: rest) = l :: splitChars sep rest := by
  induction l with
  | nil =>
      simp only [List.nil_append]
      obtain ⟨u, us, hr⟩ := splitChars_dest sep rest
      rw [splitChars_cons_eq sep sep rest u us hr, if_pos rfl, hr]
  | cons c cs ih =>
      simp only [List.cons_append]
      have ih' := ih (fun hc => h (List.mem_cons.mpr (Or.inr hc)))
      obtain ⟨u, us, hr⟩ := splitChars_dest sep (cs ++ sep :: rest)
      rw [splitChars_cons_eq sep c _ u us hr]
      rw [if_neg (fun hc : c = sep => h (hc ▸ List.mem_cons_self c cs))]
      rw [hr] at ih'
      injection ih' with ih1 ih2
      rw [ih1, ih2]

theorem splitChars_joinChars (sep : Char) :
    ∀ ls : List (List Char), ls ≠ [] → (∀ l ∈ ls, sep ∉ l) →
      splitChars sep (joinChars sep ls) = ls := by
  intro ls
  induction ls with
  | nil => intro h; exact absurd rfl h
  | cons l ls ih =>
      intro _ hmem
      cases ls with
      | nil =>
          show splitChars sep (joinChars sep [l]) = [l]
          unfold joinChars
          exact splitChars_no_sep sep l (hmem l (by simp))
      | cons l2 ls2 =>
          show splitChars sep (l ++ sep :: joinChars sep (l2 :: ls2)) = l :: l2 :: ls2
          rw [splitChars_append_sep sep l _ (hmem l (by simp))]
          rw [ih (by simp) (fun x hx => hmem x (List.mem_cons.mpr (Or.inr hx)))]

theorem mk_data (s : String) : String.mk s.data = s := rfl

theorem pySplit_pyJoin (pieces : List String) (hne : pieces ≠ [])
    (h : ∀ p ∈ pieces, ' ' ∉ p.data) :
    pySplit (pyJoin ' ' pieces) ' ' = pieces := by
  unfold pySplit pyJoin
  rw [show (String.mk (joinChars ' ' (pieces.map String.data))).data =
    joinChars ' ' (pieces.map String.data) from rfl]
  rw [splitChars_joinChars ' ' (pieces.map String.data) (by simpa using hne)
    (by intro l hl
        obtain ⟨p, hp, rfl⟩ := List.mem_map.mp hl
        exact h p hp)]
  rw [List.map_map]
  have : (String.mk ∘ String.data) = (id : String → String) := by
    funext s; exact mk_data s
  rw [this, List.map_id]

theorem mem_pySplit_no_space (s : String) (t : String) (ht : t ∈ pySplit s ' ') :
    ' ' ∉ t.data := by
  unfold pySplit at ht
  obtain ⟨l, hl, rfl⟩ := List.mem_map.mp ht
  exact mem_splitChars_no_sep ' ' s.data l hl

theorem pySplit_ne_nil (s : String) : pySplit s ' ' ≠ [] := by
  unfold pySplit
  simp [splitChars_ne_nil]

/-! ## `mkAssember` inversion -/

theorem mkAssember_ok (meta config : List (String × String)) (heap : Heap) (st : St)
    (h : mkAssember meta config heap = Except.ok st) :
    ∃ cp s ml, get_config_value meta config "class_prefix" = some cp ∧
      get_config_value meta config "max_level" = some s ∧ pyInt? s = some ml ∧
      st = { heap := heap, section_stack := [], current_section := none, current_level := 0,
             classPfx := cp, max_level := ml,
             allheaders := (List.range' 1 6).map (fun level => "h" ++ pyStrNat level),
             headers := (List.range' 1 ml.toNat).map (fun level => "h" ++ pyStrNat level) } := by
  unfold mkAssember at h
  cases h1 : get_config_value meta config "class_prefix" with
  | none => rw [h1] at h; simp [except_bind_ok, except_bind_err] at h
  | some cp =>
      rw [h1] at h
      simp only [except_bind_ok, except_bind_err] at h
      cases h2 : get_config_value meta config "max_level" with
      | none => rw [h2] at h; simp [except_bind_ok, except_bind_err] at h
      | some s =>
          rw [h2] at h
          simp only [except_bind_ok, except_bind_err] at h
          cases h3 : pyInt? s with
          | none => rw [h3] at h; simp [except_bind_ok, except_bind_err] at h
          | some ml =>
              rw [h3] at h
              simp only [except_bind_ok, except_bind_err] at h
              exact ⟨cp, s, ml, rfl, rfl, h3, ((Except.ok.injEq _ _).mp h).symm⟩

/-! ## Claim C2 -/

/-- C2: for every configured `max_level`, the tags recognized as
section-opening headings are exactly `h1 .. h<max_level>` (inclusive); a
heading tag whose level exceeds `max_level` is not recognized, and in the
tree walk an unrecognized childless child is skipped without any section
being created. -/
theorem C2_recognized_heading_set (meta config : List (String × String)) (heap : Heap)
    (st : St) (hmk : mkAssember meta config heap = Except.ok st) :
    (∀ t : String, t ∈ st.headers ↔
      ∃ l : Nat, 1 ≤ l ∧ (l : Int) ≤ st.max_level ∧ t = "h" ++ pyStrNat l) ∧
    (∀ l : Nat, (l : Int) > st.max_level → ("h" ++ pyStrNat l) ∉ st.headers) ∧
    (∀ (rec' : St → Nat → Except PyErr St) (e c : Nat) (cs : List Nat) (st1 : St),
      st1.headers = st.headers → (hget st1.heap c).tag ∉ st.headers →
      (hget st1.heap c).children = [] →
      assembleLoop rec' e (c :: cs) none st1 = assembleLoop rec' e cs none st1) := by
  obtain ⟨cp, s, ml, -, -, -, rfl⟩ := mkAssember_ok meta config heap st hmk
  dsimp only
  refine ⟨?_, ?_, ?_⟩
  · intro t
    simp only [List.mem_map, List.mem_range'_1]
    constructor
    · rintro ⟨l, ⟨h1, h2⟩, rfl⟩
      exact ⟨l, h1, by omega, rfl⟩
    · rintro ⟨l, h1, h2, rfl⟩
      exact ⟨l, ⟨h1, by omega⟩, rfl⟩
  · intro l hl hmem
    simp only [List.mem_map, List.mem_range'_1] at hmem
    obtain ⟨l', ⟨h1, h2⟩, heq⟩ := hmem
    have : l' = l := pyStrNat_inj (by
      have := congrArg String.data heq
      rw [String.data_append, String.data_append] at this
      exact congrArg String.mk (List.append_cancel_left this))
    omega
  · intro rec' e c cs st1 hh htag hch
    conv_lhs => rw [assembleLoop]
    rw [hh]
    rw [if_neg htag, except_bind_ok]
    simp [hch, except_bind_ok]

/-- Witness for C2 at the default configuration (`max_level = 3`): `h2` is
recognized, `h4` is not. -/
theorem C2_recognized_heading_set_witness :
    ("h2" ∈ cxStDefault.headers ↔
      ∃ l : Nat, 1 ≤ l ∧ (l : Int) ≤ cxStDefault.max_level ∧ "h2" = "h" ++ pyStrNat l) ∧
    (∀ l : Nat, (l : Int) > cxStDefault.max_level →
      ("h" ++ pyStrNat l) ∉ cxStDefault.headers) := by
  have h := C2_recognized_heading_set [] defaultConfig cxDocH3 cxStDefault (by decide)
  exact ⟨h.1 "h2", h.2.1⟩

/-! ## Claim C10 -/

/-- C10: constructing `SectionsExtension` with `configs = None` — the
default argument of `makeExtension` — always raises `TypeError`, because
`__init__` unconditionally iterates `configs` as key-value pairs; from an
iterable of pairs construction succeeds. -/
theorem C10_none_configs_always_error :
    SectionsExtension_init none = Except.error PyErr.typeError ∧
    makeExtension none = Except.error PyErr.typeError ∧
    SectionsExtension_init (some []) = Except.ok defaultConfig ∧
    SectionsExtension_init (some [("max_level", "2")]) =
      Except.ok [("max_level", "2"), ("class_prefix", "level")] := by
  decide

/-! ## Claim C9 -/

/-- C9: on a valid input tree whose `h1` heading carries the class
`hash` — a `has`-prefixed token whose remainder after removing every
occurrence of `has` is `h`, not a numeral — opening the nested `h2`
section raises `ValueError` inside the sibling-count update and the whole
assembly aborts with that error. -/
theorem C9_has_prefixed_class_token_aborts :
    sectionCss "level" 1 (some "hash") = "level1 hash" ∧
    pyReplaceHas "hash" = "h" ∧
    pyInt? "h" = none ∧
    bumpHas (pySplit "level1 hash" ' ') = Except.error PyErr.valueError ∧
    runProcessor [] defaultConfig cxDocHash 0 10 = Except.error PyErr.valueError := by
  decide

/-! ## Claim C6 -/

/-- C6: when the configured `max_level` string is not parseable as an
integer, assembler construction itself fails with the conversion error,
and the tree processor's `run` — which only calls `assemble` after a
successful construction — surfaces that error for every document and fuel,
so no traversal happens and the input tree is never modified. -/
theorem C6_bad_max_level_fails_fast (meta config : List (String × String))
    (heap : Heap) (docId fuel : Nat) (cp s : String)
    (hcp : get_config_value meta config "class_prefix" = some cp)
    (hml : get_config_value meta config "max_level" = some s)
    (hbad : pyInt? s = none) :
    mkAssember meta config heap = Except.error PyErr.valueError ∧
    runProcessor meta config heap docId fuel = Except.error PyErr.valueError := by
  have hmk : mkAssember meta config heap = Except.error PyErr.valueError := by
    simp [mkAssember, hcp, hml, hbad, except_bind_ok, except_bind_err]
  exact ⟨hmk, by simp [runProcessor, hmk, except_bind_ok, except_bind_err]⟩

/-- Witness for C6 at a concrete configuration with `max_level = "x"`. -/
theorem C6_bad_max_level_fails_fast_witness :
    mkAssember [] [("class_prefix", "level"), ("max_level", "x")] cxDocH3 =
      Except.error PyErr.valueError ∧
    runProcessor [] [("class_prefix", "level"), ("max_level", "x")] cxDocH3 0 5 =
      Except.error PyErr.valueError :=
  C6_bad_max_level_fails_fast [] [("class_prefix", "level"), ("max_level", "x")]
    cxDocH3 0 5 "level" "x" (by decide) (by decide) (by decide)

/-! ## `subElement` and `make_section` specification -/

theorem subElement_spec (h : Heap) (parent : Nat) (e : Elem) (hpar : parent < h.length) :
    (subElement h parent e).2 = h.length ∧
    (subElement h parent e).1.length = h.length + 1 ∧
    (∀ k, k < h.length → k ≠ parent → hget (subElement h parent e).1 k = hget h k) ∧
    (hget (subElement h parent e).1 parent).tag = (hget h parent).tag ∧
    (hget (subElement h parent e).1 parent).attrs = (hget h parent).attrs ∧
    (hget (subElement h parent e).1 parent).children =
      (hget h parent).children ++ [h.length] ∧
    hget (subElement h parent e).1 h.length = e := by
  unfold subElement
  have hlen1 : (h ++ [e]).length = h.length + 1 := by simp
  have hparlt : parent < (h ++ [e]).length := by simp; omega
  have hne : h.length ≠ parent := by omega
  refine ⟨rfl, ?_, ?_, ?_, ?_, ?_, ?_⟩
  · rw [length_hset, hlen1]
  · intro k hk hkp
    rw [hget_hset_ne _ _ _ _ (fun hh => hkp hh.symm), hget_append_lt _ _ _ hk]
  · rw [hget_hset_self _ _ _ hparlt, hget_append_lt _ _ _ hpar]
  · rw [hget_hset_self _ _ _ hparlt, hget_append_lt _ _ _ hpar]
  · rw [hget_hset_self _ _ _ hparlt, hget_append_lt _ _ _ hpar]
  · rw [hget_hset_ne _ _ _ _ (fun hh => hne hh.symm), hget_append_self]

theorem make_section_ok (st : St) (header : Elem) (parent : Nat) (st2 : St) (sid : Nat)
    (hok : make_section st header parent = Except.ok (st2, sid)) :
    ∃ atts, sectionAtts st.classPfx header = Except.ok atts ∧
      st2 = { st with heap := (subElement st.heap parent ⟨"section", atts, []⟩).1 } ∧
      sid = (subElement st.heap parent ⟨"section", atts, []⟩).2 := by
  unfold make_section at hok
  cases h1 : sectionAtts st.classPfx header with
  | error e => rw [h1] at hok; simp [except_bind_err] at hok
  | ok atts =>
      rw [h1] at hok
      simp only [except_bind_ok] at hok
      have h2 := (Except.ok.injEq _ _).mp hok
      exact ⟨atts, rfl, (congrArg Prod.fst h2).symm, (congrArg Prod.snd h2).symm⟩

theorem make_section_spec (st : St) (header : Elem) (parent : Nat) (st2 : St) (sid : Nat)
    (hpar : parent < st.heap.length)
    (hok : make_section st header parent = Except.ok (st2, sid)) :
    ∃ atts, sectionAtts st.classPfx header = Except.ok atts ∧
      sid = st.heap.length ∧
      st2.section_stack = st.section_stack ∧ st2.current_section = st.current_section ∧
      st2.current_level = st.current_level ∧ st2.classPfx = st.classPfx ∧
      st2.max_level = st.max_level ∧ st2.headers = st.headers ∧
      st2.allheaders = st.allheaders ∧
      st2.heap.length = st.heap.length + 1 ∧
      (∀ k, k < st.heap.length → k ≠ parent → hget st2.heap k = hget st.heap k) ∧
      (hget st2.heap parent).tag = (hget st.heap parent).tag ∧
      (hget st2.heap parent).attrs = (hget st.heap parent).attrs ∧
      (hget st2.heap parent).children = (hget st.heap parent).children ++ [sid] ∧
      hget st2.heap sid = ⟨"section", atts, []⟩ := by
  obtain ⟨atts, hatts, hst2, hsid⟩ := make_section_ok st header parent st2 sid hok
  obtain ⟨s1, s2, s3, s4, s5, s6, s7⟩ :=
    subElement_spec st.heap parent (⟨"section", atts, []⟩ : Elem) hpar
  subst hst2
  rw [hsid, s1]
  exact ⟨atts, hatts, rfl, rfl, rfl, rfl, rfl, rfl, rfl, rfl, s2, s3, s4, s5, s6, s1 ▸ s7⟩

/-! ## `sectionAtts` attribute lookups -/

theorem stripChars_append_space (xs : List Char) :
    stripChars (xs ++ [' ']) = stripChars xs := by
  unfold stripChars
  rw [List.dropWhile_append]
  by_cases h : (xs.dropWhile Char.isWhitespace).isEmpty
  · rw [if_pos h]
    have h2 : xs.dropWhile Char.isWhitespace = [] := by
      cases hx : xs.dropWhile Char.isWhitespace with
      | nil => rfl
      | cons a as => rw [hx] at h; simp [List.isEmpty] at h
    rw [h2]
    simp [List.dropWhile]
  · rw [if_neg h]
    rw [List.reverse_append]
    show (([' '].reverse ++ _).dropWhile _).reverse = _
    rw [List.dropWhile_append]
    simp [List.dropWhile]

theorem pyStrip_append_space (s : String) : pyStrip (s ++ " ") = pyStrip s := by
  unfold pyStrip
  rw [String.data_append, show (" " : String).data = [' '] from rfl, stripChars_append_space]

theorem sectionCss_claim (cp : String) (L : Int) (header : Elem) (hcp : cp ≠ "") :
    sectionCss cp L (header.getAttr "class") = claimSectionClass cp L header := by
  unfold sectionCss claimSectionClass
  rw [if_pos hcp]
  cases hcls : header.getAttr "class" with
  | none => simp [String.append_empty]
  | some hc =>
      by_cases hhc : hc = ""
      · subst hhc
        simp only [ne_eq, not_true_eq_false, if_false, reduceIte]
        rw [String.append_empty, ← pyStrip_append_space, String.append_assoc]
      · simp only [ne_eq, hhc, not_false_eq_true, if_true, reduceIte]
        rw [String.append_assoc]

theorem sectionAtts_of_pfx (cp : String) (header : Elem) (L : Int) (hcp : cp ≠ "")
    (hlvl : get_level header = Except.ok L) :
    sectionAtts cp header = Except.ok
      ((match header.getAttr "id" with
        | some hid => if hid ≠ "" then [("id", "section_" ++ hid)] else []
        | none => []) ++ [("class", sectionCss cp L (header.getAttr "class"))]) := by
  unfold sectionAtts
  rw [if_pos hcp, hlvl]
  rfl

theorem sectionAtts_no_pfx (cp : String) (header : Elem) (hcp : cp = "") :
    sectionAtts cp header = Except.ok
      ((match header.getAttr "id" with
        | some hid => if hid ≠ "" then [("id", "section_" ++ hid)] else []
        | none => []) ++ [("class", sectionCss cp 0 (header.getAttr "class"))]) := by
  unfold sectionAtts
  rw [if_neg (by simp [hcp])]
  rfl

theorem getAttr_id_of_atts (header : Elem) (css : String)
    (hid : header.getAttr "id" ≠ some "") :
    (Elem.mk "section"
      ((match header.getAttr "id" with
        | some hid => if hid ≠ "" then [("id", "section_" ++ hid)] else []
        | none => []) ++ [("class", css)]) []).getAttr "id" = claimSectionId header := by
  cases h : header.getAttr "id" with
  | none =>
      simp only [claimSectionId, h]
      simp [Elem.getAttr, List.find?]
  | some i =>
      have hi : i ≠ "" := fun hh => hid (hh ▸ h)
      simp only [claimSectionId, h]
      simp [Elem.getAttr, hi, List.find?]

theorem getAttr_class_of_atts (header : Elem) (css : String) :
    (Elem.mk "section"
      ((match header.getAttr "id" with
        | some hid => if hid ≠ "" then [("id", "section_" ++ hid)] else []
        | none => []) ++ [("class", css)]) []).getAttr "class" = some css := by
  cases h : header.getAttr "id" with
  | none =>
      simp [Elem.getAttr, List.find?]
  | some i =>
      by_cases hi : i = ""
      · simp [hi, Elem.getAttr, List.find?]
      · simp [hi, Elem.getAttr, List.find?]

/-! ## Claim C4 -/

/-- C4 counterexample: the claim's attribute formulas fail on Python-falsy
values.  A heading with the (present but empty) id `""` yields a section
with no id attribute at all, while the claim's formula demands
`section_`; and with an empty `class_prefix` the code yields class `""`
where the claim's formula (`class_prefix` then the level) yields `"1"`. -/
theorem C4_counterexample :
    (make_section cxStBase cxHdrEmptyId 0).map
        (fun p => (hget p.1.heap p.2).getAttr "id") = Except.ok none ∧
    claimSectionId cxHdrEmptyId = some "section_" ∧
    (make_section cxStNoPfx ⟨"h1", [], []⟩ 0).map
        (fun p => (hget p.1.heap p.2).getAttr "class") = Except.ok (some "") ∧
    claimSectionClass "" 1 ⟨"h1", [], []⟩ = "1" := by
  decide

/-- C4 (amended): provided `class_prefix` is non-empty and the heading's
id attribute, when present, is non-empty, `make_section` creates a section
whose id is `section_` + the heading's id (when present), whose class is
`class_prefix` ++ level ++ (a space and the heading's class, when
present), stripped of surrounding whitespace; the heading itself and every
other element (the parent's children list apart) are left unchanged. -/
theorem C4_amended_section_attrs (st : St) (header : Elem) (parent : Nat) (st2 : St)
    (sid : Nat) (L : Int)
    (hpar : parent < st.heap.length)
    (hcp : st.classPfx ≠ "")
    (hlvl : get_level header = Except.ok L)
    (hid : header.getAttr "id" ≠ some "")
    (hok : make_section st header parent = Except.ok (st2, sid)) :
    (hget st2.heap sid).getAttr "id" = claimSectionId header ∧
    (hget st2.heap sid).getAttr "class" = some (claimSectionClass st.classPfx L header) ∧
    (hget st2.heap sid).tag = "section" ∧
    (∀ k, k < st.heap.length → k ≠ parent → hget st2.heap k = hget st.heap k) ∧
    (hget st2.heap parent).attrs = (hget st.heap parent).attrs := by
  obtain ⟨atts, hatts, hsid, -, -, -, -, -, -, -, -, hframe, -, hpattrs, -, hsec⟩ :=
    make_section_spec st header parent st2 sid hpar hok
  rw [sectionAtts_of_pfx st.classPfx header L hcp hlvl] at hatts
  have hattseq := (Except.ok.injEq _ _).mp hatts
  subst hattseq
  rw [hsec]
  refine ⟨getAttr_id_of_atts header _ hid, ?_, rfl, hframe, hpattrs⟩
  rw [getAttr_class_of_atts header _, sectionCss_claim st.classPfx L header hcp]

/-- Witness for the amended C4 on a heading with id `x` and class `t`. -/
theorem C4_amended_section_attrs_witness :
    (hget ({ cxStBase with
      heap := [⟨"div", [], [1]⟩,
        ⟨"section", [("id", "section_x"), ("class", "level1 t")], []⟩] } : St).heap 1).getAttr
        "id" = claimSectionId cxHdrFull ∧
    (hget ({ cxStBase with
      heap := [⟨"div", [], [1]⟩,
        ⟨"section", [("id", "section_x"), ("class", "level1 t")], []⟩] } : St).heap 1).getAttr
        "class" = some (claimSectionClass cxStBase.classPfx 1 cxHdrFull) ∧
    (hget ({ cxStBase with
      heap := [⟨"div", [], [1]⟩,
        ⟨"section", [("id", "section_x"), ("class", "level1 t")], []⟩] } : St).heap 1).tag =
      "section" ∧
    (∀ k, k < cxStBase.heap.length → k ≠ 0 →
      hget ({ cxStBase with
        heap := [⟨"div", [], [1]⟩,
          ⟨"section", [("id", "section_x"), ("class", "level1 t")], []⟩] } : St).heap k =
        hget cxStBase.heap k) ∧
    (hget ({ cxStBase with
      heap := [⟨"div", [], [1]⟩,
        ⟨"section", [("id", "section_x"), ("class", "level1 t")], []⟩] } : St).heap 0).attrs =
      (hget cxStBase.heap 0).attrs :=
  C4_amended_section_attrs cxStBase cxHdrFull 0
    { cxStBase with
      heap := [⟨"div", [], [1]⟩,
        ⟨"section", [("id", "section_x"), ("class", "level1 t")], []⟩] } 1 1
    (by decide) (by decide) (by decide) (by decide) (by decide)

/-! ## Open-section stack lemmas -/

theorem openSecs_some (st : St) (c : Nat) (hc : st.current_section = some c) :
    openSecs st = (c, st.current_level) :: st.section_stack := by
  unfold openSecs
  rw [hc]
  rfl

theorem openSecs_none (st : St) (hc : st.current_section = none) :
    openSecs st = st.section_stack := by
  unfold openSecs
  rw [hc]
  rfl

theorem end_section_none (st : St) (hc : st.current_section = none) :
    end_section st = st := by
  unfold end_section
  rw [hc]

theorem end_section_pop (st : St) (c : Nat) (hc : st.current_section = some c)
    (p : Nat × Int) (rest : List (Nat × Int)) (hss : st.section_stack = p :: rest) :
    end_section st = { st with
      current_section := some p.1
      current_level := p.2
      section_stack := rest } := by
  unfold end_section
  rw [hc, hss]

theorem end_section_clear (st : St) (c : Nat) (hc : st.current_section = some c)
    (hss : st.section_stack = []) :
    end_section st = { st with
      current_section := none
      current_level := 0 } := by
  unfold end_section
  rw [hc, hss]

theorem end_section_frame (st : St) :
    (end_section st).heap = st.heap ∧ (end_section st).classPfx = st.classPfx ∧
    (end_section st).max_level = st.max_level ∧ (end_section st).headers = st.headers ∧
    (end_section st).allheaders = st.allheaders := by
  cases hc : st.current_section with
  | none => rw [end_section_none st hc]; exact ⟨rfl, rfl, rfl, rfl, rfl⟩
  | some c =>
      cases hss : st.section_stack with
      | nil => rw [end_section_clear st c hc hss]; exact ⟨rfl, rfl, rfl, rfl, rfl⟩
      | cons p rest => rw [end_section_pop st c hc p rest hss]; exact ⟨rfl, rfl, rfl, rfl, rfl⟩

theorem openSecs_end_section (st : St) (c : Nat) (hc : st.current_section = some c) :
    openSecs (end_section st) = (openSecs st).tail := by
  rw [openSecs_some st c hc]
  cases hss : st.section_stack with
  | nil =>
      rw [end_section_clear st c hc hss, openSecs_none _ rfl]
      simp [hss]
  | cons p rest =>
      rw [end_section_pop st c hc p rest hss, openSecs_some _ p.1 rfl]
      simp

theorem StackInv_end_section (st : St) (h : StackInv st) : StackInv (end_section st) := by
  cases hc : st.current_section with
  | none => rw [end_section_none st hc]; exact h
  | some c =>
      have hp : List.Pairwise (fun a b : Nat × Int => a.2 > b.2)
          ((c, st.current_level) :: st.section_stack) := openSecs_some st c hc ▸ h.1
      constructor
      · rw [openSecs_end_section st c hc, openSecs_some st c hc, List.tail_cons]
        exact hp.of_cons
      · intro hnone
        cases hss : st.section_stack with
        | nil => rw [end_section_clear st c hc hss]; exact hss
        | cons p rest =>
            rw [end_section_pop st c hc p rest hss] at hnone
            simp at hnone

theorem popWhileAux_zero (st : St) (L : Int) : popWhileAux 0 st L = st := rfl

theorem popWhileAux_succ (f : Nat) (st : St) (L : Int) :
    popWhileAux (f + 1) st L =
      match st.current_section with
      | none => st
      | some _ =>
          if st.current_level ≥ L then popWhileAux f (end_section st) L else st := rfl

theorem popWhileAux_spec (f : Nat) : ∀ (st : St) (L : Int),
    st.section_stack.length + (if st.current_section.isSome then 1 else 0) ≤ f →
    StackInv st →
    (popWhileAux f st L).heap = st.heap ∧
    (popWhileAux f st L).classPfx = st.classPfx ∧
    (popWhileAux f st L).max_level = st.max_level ∧
    (popWhileAux f st L).headers = st.headers ∧
    (popWhileAux f st L).allheaders = st.allheaders ∧
    openSecs (popWhileAux f st L) = (openSecs st).filter (fun p => decide (p.2 < L)) ∧
    StackInv (popWhileAux f st L) ∧
    (∀ c, (popWhileAux f st L).current_section = some c →
      (popWhileAux f st L).current_level < L) := by
  induction f with
  | zero =>
      intro st L hf hinv
      cases hc : st.current_section with
      | some c => rw [hc] at hf; simp at hf
      | none =>
          rw [hc] at hf
          simp only [Option.isSome_none, Bool.false_eq_true, if_false, Nat.add_zero,
            Nat.le_zero] at hf
          have hss : st.section_stack = [] := List.length_eq_zero.mp hf
          rw [popWhileAux_zero]
          rw [openSecs_none st hc, hss]
          exact ⟨rfl, rfl, rfl, rfl, rfl, rfl, hinv,
            by intro c hcc; rw [hcc] at hc; cases hc⟩
  | succ f ih =>
      intro st L hf hinv
      cases hc : st.current_section with
      | none =>
          have hred : popWhileAux (f + 1) st L = st := by
            rw [popWhileAux_succ, hc]
          rw [hred]
          have hss : st.section_stack = [] := hinv.2 hc
          rw [openSecs_none st hc, hss]
          exact ⟨rfl, rfl, rfl, rfl, rfl, rfl, hinv,
            by intro c hcc; rw [hcc] at hc; cases hc⟩
      | some c =>
          have hf' : st.section_stack.length + 1 ≤ f + 1 := by
            rw [hc] at hf
            simpa using hf
          by_cases hge : st.current_level ≥ L
          · have hred : popWhileAux (f + 1) st L = popWhileAux f (end_section st) L := by
              rw [popWhileAux_succ, hc]
              exact if_pos hge
            rw [hred]
            have hmeas : (end_section st).section_stack.length +
                (if (end_section st).current_section.isSome then 1 else 0) ≤ f := by
              cases hss : st.section_stack with
              | nil => rw [end_section_clear st c hc hss]; simp [hss]
              | cons p rest =>
                  rw [end_section_pop st c hc p rest hss]
                  rw [hss] at hf'
                  simp only [List.length_cons] at hf'
                  simp
                  omega
            obtain ⟨e1, e2, e3, e4, e5⟩ := end_section_frame st
            obtain ⟨g1, g2, g3, g4, g5, g6, g7, g8⟩ :=
              ih (end_section st) L hmeas (StackInv_end_section st hinv)
            refine ⟨e1 ▸ g1, e2 ▸ g2, e3 ▸ g3, e4 ▸ g4, e5 ▸ g5, ?_, g7, g8⟩
            rw [g6, openSecs_end_section st c hc, openSecs_some st c hc, List.tail_cons,
              List.filter_cons]
            have hd : decide ((c, st.current_level).2 < L) = false := by
              simp
              omega
            rw [hd]
            simp
          · have hred : popWhileAux (f + 1) st L = st := by
              rw [popWhileAux_succ, hc]
              exact if_neg hge
            rw [hred]
            have hlt : st.current_level < L := by omega
            refine ⟨rfl, rfl, rfl, rfl, rfl, ?_, hinv, ?_⟩
            · rw [openSecs_some st c hc, List.filter_cons]
              have hd : decide ((c, st.current_level).2 < L) = true := by
                simp
                omega
              rw [hd]
              simp only [if_pos]
              have hall : ∀ p ∈ st.section_stack, (fun p : Nat × Int => decide (p.2 < L)) p = true := by
                intro p hp
                have := (List.pairwise_cons.mp ((openSecs_some st c hc) ▸ hinv.1)).1 p hp
                simp
                omega
              rw [List.filter_eq_self.mpr hall]
            · intro c' hcc
              rw [hc] at hcc
              cases hcc
              exact hlt

theorem popWhile_spec (st : St) (L : Int) (hinv : StackInv st) :
    (popWhile st L).heap = st.heap ∧
    (popWhile st L).classPfx = st.classPfx ∧
    (popWhile st L).max_level = st.max_level ∧
    (popWhile st L).headers = st.headers ∧
    (popWhile st L).allheaders = st.allheaders ∧
    openSecs (popWhile st L) = (openSecs st).filter (fun p => decide (p.2 < L)) ∧
    StackInv (popWhile st L) ∧
    (∀ c, (popWhile st L).current_section = some c → (popWhile st L).current_level < L) := by
  unfold popWhile
  exact popWhileAux_spec (st.section_stack.length + 1) st L
    (by cases st.current_section <;> simp) hinv

/-! ## `begin_section` stack specification -/

theorem except_bind_ok_inv {ε α β : Type} {x : Except ε α} {f : α → Except ε β} {b : β}
    (h : (x >>= f) = Except.ok b) : ∃ a, x = Except.ok a ∧ f a = Except.ok b := by
  cases x with
  | ok a => exact ⟨a, rfl, h⟩
  | error e => exact absurd h (by simp [except_bind_err])

theorem begin_section_stack_spec (st : St) (header : Elem) (parent : Nat) (st' : St)
    (L : Int) (hinv : StackInv st) (hlvl : get_level header = Except.ok L)
    (hok : begin_section st header parent = Except.ok st') :
    st'.current_level = L ∧
    (∃ sid, st'.current_section = some sid) ∧
    st'.section_stack = (openSecs st).filter (fun p => decide (p.2 < L)) ∧
    st'.classPfx = st.classPfx ∧ st'.max_level = st.max_level ∧
    st'.headers = st.headers ∧ st'.allheaders = st.allheaders ∧
    StackInv st' := by
  obtain ⟨p1, p2, p3, p4, p5, p6, p7, p8⟩ := popWhile_spec st L hinv
  unfold begin_section at hok
  rw [hlvl] at hok
  simp only [except_bind_ok] at hok
  cases hpc : (popWhile st L).current_section with
  | none =>
      rw [hpc] at hok
      obtain ⟨pr, hms, hok2⟩ := except_bind_ok_inv hok
      obtain ⟨st1, sid⟩ := pr
      obtain ⟨atts, hatts, hst1, hsid⟩ := make_section_ok _ header parent st1 sid hms
      have hst' := (Except.ok.injEq _ _).mp hok2
      subst hst'
      have hpwstk : (popWhile st L).section_stack = [] := p7.2 hpc
      have hfilter : (openSecs st).filter (fun p => decide (p.2 < L)) = [] := by
        rw [← p6, openSecs_none _ hpc, hpwstk]
      refine ⟨rfl, ⟨sid, rfl⟩, ?_, ?_, ?_, ?_, ?_, ?_⟩
      · show st1.section_stack = _
        rw [hst1]
        show (popWhile st L).section_stack = _
        rw [hpwstk, hfilter]
      · show st1.classPfx = _
        rw [hst1]; exact p2
      · show st1.max_level = _
        rw [hst1]; exact p3
      · show st1.headers = _
        rw [hst1]; exact p4
      · show st1.allheaders = _
        rw [hst1]; exact p5
      · constructor
        · rw [openSecs_some _ sid rfl]
          show List.Pairwise _ ((sid, L) :: st1.section_stack)
          rw [hst1]
          show List.Pairwise _ ((sid, L) :: (popWhile st L).section_stack)
          rw [hpwstk]
          exact List.pairwise_singleton _ _
        · intro hc
          cases hc
  | some cs =>
      rw [hpc] at hok
      obtain ⟨css2, hbump, hok2⟩ := except_bind_ok_inv hok
      obtain ⟨pr, hms, hok3⟩ := except_bind_ok_inv hok2
      obtain ⟨st1, sid⟩ := pr
      obtain ⟨atts, hatts, hst1, hsid⟩ := make_section_ok _ header cs st1 sid hms
      have hst' := (Except.ok.injEq _ _).mp hok3
      subst hst'
      have hpw6 := openSecs_some (popWhile st L) cs hpc
      have hstk1 : st1.section_stack =
          (cs, (popWhile st L).current_level) :: (popWhile st L).section_stack := by
        rw [hst1]
      have hlt : (popWhile st L).current_level < L := p8 cs hpc
      refine ⟨rfl, ⟨sid, rfl⟩, ?_, ?_, ?_, ?_, ?_, ?_⟩
      · show st1.section_stack = _
        rw [hstk1, ← hpw6, p6]
      · show st1.classPfx = _
        rw [hst1]; exact p2
      · show st1.max_level = _
        rw [hst1]; exact p3
      · show st1.headers = _
        rw [hst1]; exact p4
      · show st1.allheaders = _
        rw [hst1]; exact p5
      · constructor
        · rw [openSecs_some _ sid rfl]
          show List.Pairwise _ ((sid, L) :: st1.section_stack)
          rw [hstk1]
          have hppw : List.Pairwise (fun a b : Nat × Int => a.2 > b.2)
              ((cs, (popWhile st L).current_level) :: (popWhile st L).section_stack) :=
            hpw6 ▸ p7.1
          constructor
          · intro p hp
            rcases List.mem_cons.mp hp with rfl | hp
            · show L > (popWhile st L).current_level
              omega
            · have := (List.pairwise_cons.mp hppw).1 p hp
              show L > p.2
              omega
          · exact hppw
        · intro hc
          cases hc

/-! ## Claim C1 -/

/-- C1: when `begin_section` processes a heading at level `L` in a state
satisfying the stack invariant, every open section whose recorded level is
`≥ L` is closed — the surviving stack is exactly the open sections of
level `< L` — and after it returns the current level is `L`. -/
theorem C1_begin_section_closes_ge (st : St) (header : Elem) (parent : Nat) (st' : St)
    (L : Int) (hinv : StackInv st) (hlvl : get_level header = Except.ok L)
    (hok : begin_section st header parent = Except.ok st') :
    st'.section_stack = (openSecs st).filter (fun p => decide (p.2 < L)) ∧
    (∀ p ∈ openSecs st, p.2 ≥ L → p ∉ st'.section_stack) ∧
    (∀ p ∈ st'.section_stack, p.2 < L) ∧
    st'.current_level = L := by
  obtain ⟨b1, b2, b3, b4, b5, b6, b7, b8⟩ :=
    begin_section_stack_spec st header parent st' L hinv hlvl hok
  refine ⟨b3, ?_, ?_, b1⟩
  · intro p hp hge hmem
    rw [b3] at hmem
    have := List.of_mem_filter hmem
    simp at this
    omega
  · intro p hp
    rw [b3] at hp
    have := List.of_mem_filter hp
    simp at this
    exact this

/-! ## Claim C7 -/

/-- C7: the open-section stack invariant — levels strictly increase from
the bottom of the stack to the current section (stated top-down: strictly
decreasing, with the current section's level strictly above the top stack
entry) and no stack entry survives without a current section — holds in
the freshly constructed assembler and is preserved by every successful
`begin_section` and by `end_section`. -/
theorem C7_stack_invariant_preserved :
    (∀ (meta config : List (String × String)) (heap : Heap) (st : St),
      mkAssember meta config heap = Except.ok st → StackInv st) ∧
    (∀ (st : St) (header : Elem) (parent : Nat) (st' : St),
      StackInv st → begin_section st header parent = Except.ok st' → StackInv st') ∧
    (∀ st : St, StackInv st → StackInv (end_section st)) := by
  refine ⟨?_, ?_, ?_⟩
  · intro meta config heap st hmk
    obtain ⟨cp, s, ml, -, -, -, rfl⟩ := mkAssember_ok meta config heap st hmk
    constructor
    · rw [openSecs_none _ rfl]
      exact List.Pairwise.nil
    · intro
      rfl
  · intro st header parent st' hinv hok
    cases hgl : get_level header with
    | error e =>
        unfold begin_section at hok
        rw [hgl] at hok
        simp [except_bind_err] at hok
    | ok L =>
        exact (begin_section_stack_spec st header parent st' L hinv hgl hok).2.2.2.2.2.2.2
  · exact fun st h => StackInv_end_section st h

/-! ## Claim C8 -/

theorem popWhile_none (st : St) (L : Int) (hc : st.current_section = none) :
    popWhile st L = st := by
  unfold popWhile
  rw [popWhileAux_succ, hc]

theorem get_level_h3 (header : Elem) (htag : header.tag = "h3") :
    get_level header = Except.ok 3 := by
  unfold get_level
  rw [htag]
  decide

/-- C8: a heading `h3` arriving with no open section at all (current
section `None`, empty stack) opens a level-3 section directly under the
given tree parent — no error is raised, the new section is appended to
that parent's children, it is nested under no other section (the stack
stays empty), and every other element is untouched. -/
theorem C8_h3_without_ancestors (st : St) (header : Elem) (parent : Nat)
    (hcur : st.current_section = none) (hstk : st.section_stack = [])
    (htag : header.tag = "h3") (hpar : parent < st.heap.length) :
    ∃ st', begin_section st header parent = Except.ok st' ∧
      st'.current_level = 3 ∧
      st'.current_section = some st.heap.length ∧
      st'.section_stack = [] ∧
      (hget st'.heap st.heap.length).tag = "section" ∧
      (hget st'.heap parent).children = (hget st.heap parent).children ++ [st.heap.length] ∧
      (∀ k, k < st.heap.length → k ≠ parent → hget st'.heap k = hget st.heap k) := by
  have hlvl : get_level header = Except.ok 3 := get_level_h3 header htag
  have hatts : ∃ atts, sectionAtts st.classPfx header = Except.ok atts := by
    by_cases hcp : st.classPfx = ""
    · exact ⟨_, sectionAtts_no_pfx st.classPfx header hcp⟩
    · exact ⟨_, sectionAtts_of_pfx st.classPfx header 3 hcp hlvl⟩
  obtain ⟨atts, hatts⟩ := hatts
  have hms : make_section st header parent = Except.ok
      ({ st with heap := (subElement st.heap parent ⟨"section", atts, []⟩).1 },
        (subElement st.heap parent ⟨"section", atts, []⟩).2) := by
    unfold make_section
    rw [hatts]
    rfl
  have hbeg : begin_section st header parent = Except.ok
      { st with
        heap := (subElement st.heap parent ⟨"section", atts, []⟩).1
        current_section := some (subElement st.heap parent ⟨"section", atts, []⟩).2
        current_level := 3 } := by
    unfold begin_section
    rw [hlvl]
    simp only [except_bind_ok]
    rw [popWhile_none st 3 hcur, hcur]
    show (make_section st header parent >>= fun p =>
      match p with
      | (st1, sid) => Except.ok { st1 with current_section := some sid, current_level := 3 }) = _
    rw [hms]
    rfl
  obtain ⟨s1, s2, s3, s4, s5, s6, s7⟩ :=
    subElement_spec st.heap parent (⟨"section", atts, []⟩ : Elem) hpar
  refine ⟨_, hbeg, rfl, ?_, hstk, ?_, ?_, ?_⟩
  · show some (subElement st.heap parent ⟨"section", atts, []⟩).2 = _
    rw [s1]
  · show (hget (subElement st.heap parent ⟨"section", atts, []⟩).1 st.heap.length).tag = _
    rw [s7]
  · exact s6
  · exact s3

/-- Witness for C1: beginning an `h2` section over an open level-1
section pushes the level-1 section (level `1 < 2`) and sets the current
level to 2. -/
theorem C1_begin_section_closes_ge_witness :
    cxStOpenAfter.section_stack =
      (openSecs cxStOpen).filter (fun p => decide (p.2 < 2)) ∧
    (∀ p ∈ openSecs cxStOpen, p.2 ≥ 2 → p ∉ cxStOpenAfter.section_stack) ∧
    (∀ p ∈ cxStOpenAfter.section_stack, p.2 < 2) ∧
    cxStOpenAfter.current_level = 2 :=
  C1_begin_section_closes_ge cxStOpen ⟨"h2", [], []⟩ 0 cxStOpenAfter 2
    (by decide) (by decide) (by decide)

/-- Witness for C7 at concrete states: construction, a `begin_section`
step and an `end_section` step each yield an invariant state. -/
theorem C7_stack_invariant_preserved_witness :
    StackInv cxStDefault ∧ StackInv cxStOpenAfter ∧ StackInv (end_section cxStOpen) :=
  ⟨C7_stack_invariant_preserved.1 [] defaultConfig cxDocH3 cxStDefault (by decide),
   C7_stack_invariant_preserved.2.1 cxStOpen ⟨"h2", [], []⟩ 0 cxStOpenAfter
     (by decide) (by decide),
   C7_stack_invariant_preserved.2.2 cxStOpen (by decide)⟩

/-- Witness for C8: an `h3` heading over `cxStBase` (no open section)
opens a level-3 section under the root. -/
theorem C8_h3_without_ancestors_witness :
    ∃ st', begin_section cxStBase ⟨"h3", [], []⟩ 0 = Except.ok st' ∧
      st'.current_level = 3 ∧
      st'.current_section = some cxStBase.heap.length ∧
      st'.section_stack = [] ∧
      (hget st'.heap cxStBase.heap.length).tag = "section" ∧
      (hget st'.heap 0).children = (hget cxStBase.heap 0).children ++ [cxStBase.heap.length] ∧
      (∀ k, k < cxStBase.heap.length → k ≠ 0 → hget st'.heap k = hget cxStBase.heap k) :=
  C8_h3_without_ancestors cxStBase ⟨"h3", [], []⟩ 0 (by decide) (by decide) (by decide)
    (by decide)

/-! ## Claim C5 -/

/-- C5 counterexample: a heading whose own class is `has7` pollutes the
sibling counter.  After full assembly the level-1 section carries the
token `has8` while it has exactly one direct child section, so the
claimed equality between the `hasN` token and the direct-child-section
count fails on this valid input tree. -/
theorem C5_counterexample :
    runProcessor [] defaultConfig cxDocHas7 0 10 = Except.ok cxHeapHas7After ∧
    ("has" ++ pyStrNat 8) ∈
      pySplit (((hget cxHeapHas7After 3).getAttr "class").getD "has0") ' ' ∧
    secCount cxHeapHas7After 3 = 1 ∧
    (8 : Nat) ≠ 1 := by
  decide

/-! ## Stability helpers for the flat invariant -/

theorem setAttrList_find_self : ∀ (l : List (String × String)) (k v : String),
    (setAttrList l k v).find? (fun p => p.1 = k) = some (k, v) := by
  intro l
  induction l with
  | nil => intro k v; simp [setAttrList, List.find?]
  | cons p rest ih =>
      intro k v
      obtain ⟨k', v'⟩ := p
      unfold setAttrList
      by_cases hk : k' = k
      · rw [if_pos hk]
        simp [List.find?]
      · rw [if_neg hk]
        rw [List.find?_cons_of_neg _ (by simpa using hk)]
        exact ih k v

theorem setAttr_getAttr_self (e : Elem) (k v : String) :
    (e.setAttr k v).getAttr k = some v := by
  unfold Elem.setAttr Elem.getAttr
  show ((setAttrList e.attrs k v).find? (fun p => p.1 = k)).map _ = _
  rw [setAttrList_find_self]
  rfl

theorem setAttr_tag (e : Elem) (k v : String) : (e.setAttr k v).tag = e.tag := rfl

theorem setAttr_children (e : Elem) (k v : String) :
    (e.setAttr k v).children = e.children := rfl

theorem hasToks_stable {h h' : Heap} {j j' : Nat}
    (h1 : (hget h' j').attrs = (hget h j).attrs) : hasToks h' j' = hasToks h j := by
  unfold hasToks Elem.getAttr
  rw [h1]

theorem secCount_stable {h h' : Heap} {j j' : Nat}
    (h1 : (hget h' j').children = (hget h j).children)
    (h2 : ∀ k ∈ (hget h j).children, (hget h' k).tag = (hget h k).tag) :
    secCount h' j' = secCount h j := by
  unfold secCount
  rw [h1]
  congr 1
  exact List.filter_congr (fun k hk => by rw [h2 k hk])

theorem HasProp_stable {h h' : Heap} {j j' : Nat}
    (h1 : (hget h' j').attrs = (hget h j).attrs)
    (h2 : (hget h' j').children = (hget h j).children)
    (h3 : ∀ k ∈ (hget h j).children, (hget h' k).tag = (hget h k).tag)
    (hp : HasProp h j) : HasProp h' j' := by
  unfold HasProp at hp ⊢
  rw [hasToks_stable h1, secCount_stable h2 h3]
  exact hp

theorem secCount_append {h h' : Heap} {j j' : Nat} {sid : Nat}
    (h1 : (hget h' j').children = (hget h j).children ++ [sid])
    (h2 : ∀ k ∈ (hget h j).children, (hget h' k).tag = (hget h k).tag) :
    secCount h' j' =
      secCount h j + (if (hget h' sid).tag = "section" then 1 else 0) := by
  unfold secCount
  rw [h1, List.filter_append]
  have hcongr := List.filter_congr
    (fun k hk => by simp only []; rw [h2 k hk] :
      ∀ k ∈ (hget h j).children,
        (fun k => decide ((hget h' k).tag = "section")) k =
        (fun k => decide ((hget h k).tag = "section")) k)
  rw [List.length_append, hcongr]
  by_cases hs : (hget h' sid).tag = "section"
  · simp [hs]
  · simp [hs]

theorem hasToks_eq_filter (h : Heap) (j : Nat) :
    hasToks h j =
      (pySplit (((hget h j).getAttr "class").getD "has0") ' ').filter startsWithHas := rfl

theorem space_not_mem_hasTok (n : Nat) : ' ' ∉ ("has" ++ pyStrNat n).data := by
  rw [show ("has" ++ pyStrNat n).data = 'h' :: 'a' :: 's' :: natChars n by
    rw [String.data_append]; rfl]
  intro hmem
  simp only [List.mem_cons] at hmem
  rcases hmem with h | h | h | h
  · exact absurd h (by decide)
  · exact absurd h (by decide)
  · exact absurd h (by decide)
  · obtain ⟨d, hd, heq⟩ := natChars_shape n ' ' h
    exact absurd heq.symm (digitChar_props hd).2.2.2.2


/-! ## New-section class tokens -/

theorem sectionAtts_inv (cp : String) (header : Elem) (atts : List (String × String))
    (h : sectionAtts cp header = Except.ok atts) :
    ∃ css, atts =
      (match header.getAttr "id" with
        | some hid => if hid ≠ "" then [("id", "section_" ++ hid)] else []
        | none => []) ++ [("class", css)] ∧
      ((cp ≠ "" ∧ ∃ L, get_level header = Except.ok L ∧
          css = sectionCss cp L (header.getAttr "class")) ∨
       (cp = "" ∧ css = sectionCss cp 0 (header.getAttr "class"))) := by
  by_cases hcp : cp = ""
  · rw [sectionAtts_no_pfx cp header hcp] at h
    exact ⟨_, ((Except.ok.injEq _ _).mp h).symm, Or.inr ⟨hcp, rfl⟩⟩
  · unfold sectionAtts at h
    rw [if_pos hcp] at h
    cases hlv : get_level header with
    | error e => rw [hlv] at h; simp [except_bind_err] at h
    | ok L =>
        rw [hlv] at h
        simp only [except_bind_ok] at h
        exact ⟨_, ((Except.ok.injEq _ _).mp h).symm, Or.inl ⟨hcp, L, rfl, rfl⟩⟩

theorem newSection_tokens_hasfree (cp : String) (header : Elem)
    (atts : List (String × String))
    (hHF : cssHasFreeB cp header = true)
    (hatts : sectionAtts cp header = Except.ok atts) :
    ∀ t ∈ pySplit (((Elem.mk "section" atts []).getAttr "class").getD "has0") ' ',
      startsWithHas t = false := by
  obtain ⟨css, hattseq, hcases⟩ := sectionAtts_inv cp header atts hatts
  subst hattseq
  rw [getAttr_class_of_atts header css]
  intro t ht
  unfold cssHasFreeB at hHF
  rw [Bool.and_eq_true] at hHF
  rcases hcases with ⟨hcp, L, hlv, rfl⟩ | ⟨hcp, rfl⟩
  · have h1 := hHF.1
    rw [hlv] at h1
    have := (List.all_eq_true.mp h1) t ht
    simpa using this
  · have h2 := hHF.2
    rw [if_pos hcp] at h2
    have := (List.all_eq_true.mp h2) t ht
    simpa using this

/-! ## Weak `popWhile` facts (no invariant needed) -/

theorem popWhileAux_weak (f : Nat) : ∀ (st : St) (L : Int),
    (popWhileAux f st L).heap = st.heap ∧
    (popWhileAux f st L).classPfx = st.classPfx ∧
    (popWhileAux f st L).headers = st.headers ∧
    (∀ c, (popWhileAux f st L).current_section = some c →
      (c, (popWhileAux f st L).current_level) ∈ openSecs st) ∧
    (∀ p ∈ (popWhileAux f st L).section_stack, p ∈ openSecs st) := by
  induction f with
  | zero =>
      intro st L
      rw [popWhileAux_zero]
      refine ⟨rfl, rfl, rfl, ?_, ?_⟩
      · intro c hc
        rw [openSecs_some st c hc]
        exact List.mem_cons_self _ _
      · intro p hp
        unfold openSecs
        exact List.mem_append_right _ hp
  | succ f ih =>
      intro st L
      cases hc : st.current_section with
      | none =>
          have hred : popWhileAux (f + 1) st L = st := by rw [popWhileAux_succ, hc]
          rw [hred]
          refine ⟨rfl, rfl, rfl, ?_, ?_⟩
          · intro c hcc
            rw [openSecs_some st c hcc]
            exact List.mem_cons_self _ _
          · intro p hp
            unfold openSecs
            exact List.mem_append_right _ hp
      | some c =>
          by_cases hge : st.current_level ≥ L
          · have hred : popWhileAux (f + 1) st L = popWhileAux f (end_section st) L := by
              rw [popWhileAux_succ, hc]
              exact if_pos hge
            rw [hred]
            obtain ⟨e1, e2, e3, e4, e5⟩ := end_section_frame st
            obtain ⟨g1, g2, g3, g4, g5⟩ := ih (end_section st) L
            have hsub : openSecs (end_section st) ⊆ openSecs st := by
              rw [openSecs_end_section st c hc]
              exact List.tail_subset _
            exact ⟨e1 ▸ g1, e2 ▸ g2, e4 ▸ g3, fun c' hc' => hsub (g4 c' hc'),
              fun p hp => hsub (g5 p hp)⟩
          · have hred : popWhileAux (f + 1) st L = st := by
              rw [popWhileAux_succ, hc]
              exact if_neg hge
            rw [hred]
            refine ⟨rfl, rfl, rfl, ?_, ?_⟩
            · intro c' hcc
              rw [openSecs_some st c' hcc]
              exact List.mem_cons_self _ _
            · intro p hp
              unfold openSecs
              exact List.mem_append_right _ hp

theorem popWhile_weak (st : St) (L : Int) :
    (popWhile st L).heap = st.heap ∧
    (popWhile st L).classPfx = st.classPfx ∧
    (popWhile st L).headers = st.headers ∧
    (∀ c, (popWhile st L).current_section = some c →
      (c, (popWhile st L).current_level) ∈ openSecs st) ∧
    (∀ p ∈ (popWhile st L).section_stack, p ∈ openSecs st) :=
  popWhileAux_weak (st.section_stack.length + 1) st L

theorem FlatInv_openSecs_mem (h0 : Heap) (st : St) (hFI : FlatInv h0 st)
    (p : Nat × Int) (hp : p ∈ openSecs st) :
    h0.length ≤ p.1 ∧ p.1 < st.heap.length := by
  unfold openSecs at hp
  rcases List.mem_append.mp hp with hp | hp
  · cases hc : st.current_section with
    | none => rw [hc] at hp; simp at hp
    | some c =>
        rw [hc] at hp
        simp at hp
        rw [hp]
        exact hFI.hcur c hc
  · exact hFI.hstk p hp

theorem FlatInv_popWhile (h0 : Heap) (st : St) (L : Int) (hFI : FlatInv h0 st) :
    FlatInv h0 (popWhile st L) := by
  obtain ⟨w1, w2, w3, w4, w5⟩ := popWhile_weak st L
  refine ⟨?_, ?_, ?_, ?_, ?_, ?_, ?_, ?_⟩ <;> rw [w1]
  · exact hFI.hlen
  · exact hFI.hroot_tag
  · exact hFI.hroot_attrs
  · exact hFI.hinputs
  · exact hFI.hsecs
  · exact hFI.hkids
  · intro c hc
    exact FlatInv_openSecs_mem h0 st hFI _ (w4 c hc)
  · intro p hp
    exact FlatInv_openSecs_mem h0 st hFI p (w5 p hp)

/-! ## Flat invariant through `make_section` at the root -/

theorem hasToks_of_hget {h : Heap} {j : Nat} {atts : List (String × String)}
    (hj : hget h j = ⟨"section", atts, []⟩) :
    hasToks h j =
      (pySplit (((Elem.mk "section" atts []).getAttr "class").getD "has0") ' ').filter
        startsWithHas := by
  unfold hasToks
  rw [hj]

theorem FlatInv_make_section_root (h0 : Heap) (st : St) (header : Elem) (st2 : St)
    (sid : Nat) (hFI : FlatInv h0 st) (h00 : 0 < h0.length)
    (hHF : cssHasFreeB st.classPfx header = true)
    (hok : make_section st header 0 = Except.ok (st2, sid)) :
    FlatInv h0 st2 ∧ sid = st.heap.length ∧
    st2.section_stack = st.section_stack ∧ st2.current_section = st.current_section ∧
    st2.classPfx = st.classPfx ∧ st2.headers = st.headers ∧
    st2.heap.length = st.heap.length + 1 := by
  have hpar : (0 : Nat) < st.heap.length := lt_of_lt_of_le h00 hFI.hlen
  obtain ⟨atts, hatts, hsid, f1, f2, f3, f4, f5, f6, f7, hlen2, hframe, hptag, hpattrs,
    hpkids, hsec⟩ := make_section_spec st header 0 st2 sid hpar hok
  subst hsid
  refine ⟨⟨?_, ?_, ?_, ?_, ?_, ?_, ?_, ?_⟩, rfl, f1, f2, f4, f6, hlen2⟩
  · rw [hlen2]
    have := hFI.hlen
    omega
  · rw [hptag]
    exact hFI.hroot_tag
  · rw [hpattrs]
    exact hFI.hroot_attrs
  · intro k hk0 hkN
    rw [hframe k (lt_of_lt_of_le hkN hFI.hlen) (by omega)]
    exact hFI.hinputs k hk0 hkN
  · intro j hjN hjlt
    rw [hlen2] at hjlt
    by_cases hj : j = st.heap.length
    · subst hj
      refine ⟨by rw [hsec], Or.inl ⟨?_, ?_⟩⟩
      · rw [hasToks_of_hget hsec]
        exact List.filter_eq_nil_iff.mpr (fun t ht => by
          simp [newSection_tokens_hasfree st.classPfx header atts hHF hatts t ht])
      · unfold secCount
        rw [hsec]
        rfl
    · have hjlt' : j < st.heap.length := by omega
      have hje : hget st2.heap j = hget st.heap j := hframe j hjlt' (by omega)
      obtain ⟨htag, hhp⟩ := hFI.hsecs j hjN hjlt'
      refine ⟨by rw [hje]; exact htag, HasProp_stable (by rw [hje]) (by rw [hje]) ?_ hhp⟩
      intro k hk
      have hklt := hFI.hkids j hjlt' k hk
      by_cases hk0 : k = 0
      · subst hk0
        rw [hptag]
      · rw [hframe k hklt hk0]
  · intro j hjlt k hk
    rw [hlen2] at hjlt ⊢
    by_cases hj : j = st.heap.length
    · subst hj
      rw [hsec] at hk
      simp at hk
    · have hjlt' : j < st.heap.length := by omega
      by_cases hj0 : j = 0
      · subst hj0
        rw [hpkids] at hk
        rcases List.mem_append.mp hk with hk | hk
        · have := hFI.hkids 0 hpar k hk
          omega
        · simp at hk
          omega
      · rw [hframe j hjlt' hj0] at hk
        have := hFI.hkids j hjlt' k hk
        omega
  · intro c hc
    rw [f2] at hc
    have := hFI.hcur c hc
    rw [hlen2]
    omega
  · intro p hp
    rw [f1] at hp
    have := hFI.hstk p hp
    rw [hlen2]
    omega

/-! ## Flat invariant through `add_element` -/

theorem FlatInv_add_element (h0 : Heap) (st : St) (c : Nat) (st1 : St)
    (hFI : FlatInv h0 st) (h00 : 0 < h0.length)
    (hc0 : 0 < c) (hcN : c < h0.length) (hctag : (hget h0 c).tag ≠ "section")
    (hok : add_element st c 0 = Except.ok st1) :
    FlatInv h0 st1 ∧ st1.current_section = st.current_section ∧
    st1.section_stack = st.section_stack ∧ st1.classPfx = st.classPfx ∧
    st1.headers = st.headers ∧ st1.heap.length = st.heap.length ∧
    st1.current_level = st.current_level := by
  unfold add_element at hok
  by_cases hne : (hget st.heap 0).children ≠ []
  · rw [if_pos hne] at hok
    by_cases hmem : c ∈ (hget st.heap 0).children
    · rw [if_pos hmem] at hok
      cases hcs : st.current_section with
      | none => rw [hcs] at hok; simp at hok
      | some cs =>
          rw [hcs] at hok
          have hst1 := ((Except.ok.injEq _ _).mp hok).symm
          subst hst1
          obtain ⟨hcsN, hcslt⟩ := hFI.hcur cs hcs
          have h0lt : (0 : Nat) < st.heap.length := lt_of_lt_of_le h00 hFI.hlen
          have hcs0 : cs ≠ 0 := by omega
          have hccs : c ≠ cs := by omega
          have hclt : c < st.heap.length := by
            have := hFI.hlen; omega
          set E0 := hget st.heap 0 with hE0
          set heap1 := hset st.heap 0 { E0 with children := E0.children.erase c } with hheap1
          have hlen1 : heap1.length = st.heap.length := length_hset _ _ _
          have hg1_0 : hget heap1 0 = { E0 with children := E0.children.erase c } :=
            hget_hset_self _ _ _ h0lt
          have hg1 : ∀ k, k ≠ 0 → hget heap1 k = hget st.heap k := by
            intro k hk
            exact hget_hset_ne _ _ _ _ (fun hh => hk hh.symm)
          set csE := hget heap1 cs with hcsE
          set heap2 := hset heap1 cs { csE with children := csE.children ++ [c] } with hheap2
          have hlen2 : heap2.length = st.heap.length := by
            rw [hheap2, length_hset, hlen1]
          have hg2_cs : hget heap2 cs = { csE with children := csE.children ++ [c] } :=
            hget_hset_self _ _ _ (by rw [hlen1]; exact hcslt)
          have hg2_0 : hget heap2 0 = { E0 with children := E0.children.erase c } := by
            rw [hheap2, hget_hset_ne _ _ _ _ hcs0, hg1_0]
          have hg2 : ∀ k, k ≠ 0 → k ≠ cs → hget heap2 k = hget st.heap k := by
            intro k hk0 hkcs
            rw [hheap2, hget_hset_ne _ _ _ _ (fun hh => hkcs hh.symm), hg1 k hk0]
          have hcse : csE = hget st.heap cs := by rw [hcsE, hg1 cs hcs0]
          have htags : ∀ j, j < st.heap.length → ∀ k ∈ (hget st.heap j).children,
              (hget heap2 k).tag = (hget st.heap k).tag := by
            intro j hj k hk
            by_cases hk0 : k = 0
            · subst hk0
              rw [hg2_0]
            · by_cases hkcs : k = cs
              · subst hkcs
                rw [hg2_cs, hcse]
              · rw [hg2 k hk0 hkcs]
          refine ⟨⟨?_, ?_, ?_, ?_, ?_, ?_, ?_, ?_⟩, rfl, rfl, rfl, rfl, hlen2, rfl⟩
          · rw [hlen2]; exact hFI.hlen
          · rw [hg2_0]; exact hFI.hroot_tag
          · rw [hg2_0]; exact hFI.hroot_attrs
          · intro k hk0 hkN
            rw [hg2 k (by omega) (by omega)]
            exact hFI.hinputs k hk0 hkN
          · intro j hjN hjlt
            rw [hlen2] at hjlt
            obtain ⟨htag, hhp⟩ := hFI.hsecs j hjN hjlt
            by_cases hjcs : j = cs
            · subst hjcs
              refine ⟨by rw [hg2_cs, hcse]; exact htag, ?_⟩
              have hattrs : (hget heap2 j).attrs = (hget st.heap j).attrs := by
                rw [hg2_cs, hcse]
              have hkidseq : (hget heap2 j).children = (hget st.heap j).children ++ [c] := by
                rw [hg2_cs, hcse]
              have hcount := secCount_append hkidseq (htags j hjlt)
              have hctag2 : (hget heap2 c).tag ≠ "section" := by
                rw [hg2 c (by omega) hccs, hFI.hinputs c hc0 hcN]
                exact hctag
              rw [if_neg hctag2] at hcount
              unfold HasProp at hhp ⊢
              rw [hasToks_stable hattrs, hcount]
              simpa using hhp
            · have helem : hget heap2 j = hget st.heap j := hg2 j (by omega) hjcs
              exact ⟨by rw [helem]; exact htag,
                HasProp_stable (by rw [helem]) (by rw [helem]) (htags j hjlt) hhp⟩
          · intro j hjlt k hk
            rw [hlen2] at hjlt ⊢
            by_cases hj0 : j = 0
            · subst hj0
              rw [hg2_0] at hk
              exact hFI.hkids 0 h0lt k (List.mem_of_mem_erase hk)
            · by_cases hjcs : j = cs
              · subst hjcs
                rw [hg2_cs] at hk
                rcases List.mem_append.mp hk with hk | hk
                · rw [hcse] at hk
                  exact hFI.hkids j hcslt k hk
                · simp at hk
                  omega
              · rw [hg2 j hj0 hjcs] at hk
                exact hFI.hkids j hjlt k hk
          · intro c' hc'
            have hcc : some cs = some c' := hc'
            cases hcc
            have := hFI.hcur cs hcs
            rw [hlen2]
            exact this
          · intro p hp
            have := hFI.hstk p hp
            rw [hlen2]
            exact this
    · rw [if_neg hmem] at hok
      simp at hok
  · rw [if_neg hne] at hok
    have hst1 := ((Except.ok.injEq _ _).mp hok).symm
    subst hst1
    exact ⟨hFI, rfl, rfl, rfl, rfl, rfl, rfl⟩

/-! ## The sibling-count bump -/

theorem bump_step (h : Heap) (cs : Nat) (css2 : List String)
    (hhp : HasProp h cs)
    (hbump : bumpHas (pySplit (((hget h cs).getAttr "class").getD "has0") ' ') =
      Except.ok css2) :
    ∃ n : Nat, secCount h cs = n ∧
      css2.filter startsWithHas = ["has" ++ pyStrNat (n + 1)] ∧
      css2 ≠ [] ∧ (∀ t ∈ css2, ' ' ∉ t.data) := by
  have hXs : ∀ t ∈ pySplit (((hget h cs).getAttr "class").getD "has0") ' ', ' ' ∉ t.data :=
    fun t ht => mem_pySplit_no_space _ t ht
  rcases hhp with ⟨hft, hcnt⟩ | ⟨n, hft, hcnt⟩
  · rw [bumpHas_empty _ hft] at hbump
    have := (Except.ok.injEq _ _).mp hbump
    subst this
    refine ⟨0, hcnt, ?_, by simp, ?_⟩
    · rw [List.filter_append, ← hasToks_eq_filter h cs, hft]
      simp [startsWithHas_has_append]
    · intro t ht
      rcases List.mem_append.mp ht with ht | ht
      · exact hXs t ht
      · rw [List.mem_singleton.mp ht]
        exact space_not_mem_hasTok 1
  · rw [bumpHas_single _ n hft] at hbump
    have := (Except.ok.injEq _ _).mp hbump
    subst this
    refine ⟨n, hcnt, ?_, by simp, ?_⟩
    · rw [List.filter_append, ← List.erase_filter, ← hasToks_eq_filter h cs, hft]
      simp [startsWithHas_has_append]
    · intro t ht
      rcases List.mem_append.mp ht with ht | ht
      · exact hXs t (List.mem_of_mem_erase ht)
      · rw [List.mem_singleton.mp ht]
        exact space_not_mem_hasTok (n + 1)

theorem hasToks_set_class {h : Heap} {cs : Nat} (hlt : cs < h.length) (css2 : List String)
    (hne : css2 ≠ []) (hnospace : ∀ t ∈ css2, ' ' ∉ t.data) :
    hasToks (hset h cs ((hget h cs).setAttr "class" (pyJoin ' ' css2))) cs =
      css2.filter startsWithHas := by
  unfold hasToks
  rw [hget_hset_self _ _ _ hlt, setAttr_getAttr_self, Option.getD_some,
    pySplit_pyJoin css2 hne hnospace]

/-! ## Flat invariant through `begin_section` -/

theorem FlatInv_begin_section (h0 : Heap) (st : St) (header : Elem) (st' : St)
    (hFI : FlatInv h0 st) (h00 : 0 < h0.length)
    (hHF : cssHasFreeB st.classPfx header = true)
    (hok : begin_section st header 0 = Except.ok st') :
    FlatInv h0 st' ∧ st'.classPfx = st.classPfx ∧ st'.headers = st.headers ∧
    st'.current_section.isSome = true := by
  cases hgl : get_level header with
  | error e =>
      unfold begin_section at hok
      rw [hgl] at hok
      simp [except_bind_err] at hok
  | ok L =>
      unfold begin_section at hok
      rw [hgl] at hok
      simp only [except_bind_ok] at hok
      obtain ⟨w1, w2, w3, w4, w5⟩ := popWhile_weak st L
      have hFIpw : FlatInv h0 (popWhile st L) := FlatInv_popWhile h0 st L hFI
      set pw := popWhile st L with hpwdef
      have hHFpw : cssHasFreeB pw.classPfx header = true := by rw [w2]; exact hHF
      cases hpc : pw.current_section with
      | none =>
          rw [hpc] at hok
          obtain ⟨pr, hms, hok2⟩ := except_bind_ok_inv hok
          obtain ⟨st1, sid⟩ := pr
          obtain ⟨hFI1, hsid, g3, g4, g5, g6, hlen1⟩ :=
            FlatInv_make_section_root h0 pw header st1 sid hFIpw h00 hHFpw hms
          have hst' := ((Except.ok.injEq _ _).mp hok2).symm
          subst hst'
          refine ⟨⟨hFI1.hlen, hFI1.hroot_tag, hFI1.hroot_attrs, hFI1.hinputs, hFI1.hsecs,
            hFI1.hkids, ?_, hFI1.hstk⟩, ?_, ?_, rfl⟩
          · intro c hc
            have hcc : some sid = some c := hc
            cases hcc
            subst hsid
            constructor
            · exact hFIpw.hlen
            · rw [hlen1]
              omega
          · show st1.classPfx = _
            rw [g5, w2]
          · show st1.headers = _
            rw [g6, w3]
      | some cs =>
          rw [hpc] at hok
          obtain ⟨hcsN, hcslt⟩ := hFIpw.hcur cs hpc
          have hcs0 : cs ≠ 0 := by omega
          obtain ⟨css2, hbump, hok2⟩ := except_bind_ok_inv hok
          obtain ⟨pr, hms, hok3⟩ := except_bind_ok_inv hok2
          obtain ⟨st1, sid⟩ := pr
          have hst' := ((Except.ok.injEq _ _).mp hok3).symm
          subst hst'
          show FlatInv h0
              { heap := st1.heap
                section_stack := st1.section_stack
                current_section := some sid
                current_level := L
                classPfx := st1.classPfx
                max_level := st1.max_level
                allheaders := st1.allheaders
                headers := st1.headers } ∧
            st1.classPfx = st.classPfx ∧ st1.headers = st.headers ∧
            (some sid).isSome = true
          obtain ⟨hcstag, hcshp⟩ := hFIpw.hsecs cs hcsN hcslt
          obtain ⟨n, hcnt, hfilt, hcne, hcns⟩ := bump_step pw.heap cs css2 hcshp hbump
          -- the updated heap before the new section is allocated
          set csE2 : Elem := (hget pw.heap cs).setAttr "class" (pyJoin ' ' css2) with hcsE2
          set hu : Heap := hset pw.heap cs csE2 with hhu
          have hlenu : hu.length = pw.heap.length := length_hset _ _ _
          have hguc : hget hu cs = csE2 := hget_hset_self _ _ _ hcslt
          have hgu : ∀ k, k ≠ cs → hget hu k = hget pw.heap k := by
            intro k hk
            exact hget_hset_ne _ _ _ _ (fun hh => hk hh.symm)
          have hutoks : hasToks hu cs = ["has" ++ pyStrNat (n + 1)] := by
            rw [hhu, hcsE2, hasToks_set_class hcslt css2 hcne hcns, hfilt]
          have hutag : (hget hu cs).tag = (hget pw.heap cs).tag := by
            rw [hguc, hcsE2, setAttr_tag]
          have hukids : (hget hu cs).children = (hget pw.heap cs).children := by
            rw [hguc, hcsE2, setAttr_children]
          have hucnt : secCount hu cs = n := by
            rw [← hcnt]
            refine secCount_stable hukids ?_
            intro k hk
            by_cases hkcs : k = cs
            · subst hkcs
              exact hutag
            · rw [hgu k hkcs]
          -- now the new section under cs
          have hpar2 : cs < (hu : Heap).length := by rw [hlenu]; exact hcslt
          obtain ⟨atts, hatts, hsid, m3, m4, m5, m6, m7, m8, m9, hlenm, hframe, hptag,
            hpattrs, hpkids, hsec⟩ := make_section_spec _ header cs st1 sid hpar2 hms
          rw [hlenu] at hlenm
          have hsid' : sid = pw.heap.length := by rw [hsid, hlenu]
          have hcs_lt1 : cs < st1.heap.length := by rw [hlenm]; omega
          have hattscp : sectionAtts pw.classPfx header = Except.ok atts := hatts
          refine ⟨⟨?_, ?_, ?_, ?_, ?_, ?_, ?_, ?_⟩, ?_, ?_, rfl⟩
          · rw [hlenm]
            have := hFIpw.hlen
            omega
          · show (hget st1.heap 0).tag = _
            rw [hframe 0 (by rw [hlenu]; omega) (Ne.symm hcs0), hgu 0 (Ne.symm hcs0)]
            exact hFIpw.hroot_tag
          · show (hget st1.heap 0).attrs = _
            rw [hframe 0 (by rw [hlenu]; omega) (Ne.symm hcs0), hgu 0 (Ne.symm hcs0)]
            exact hFIpw.hroot_attrs
          · intro k hk0 hkN
            have hkcs : k ≠ cs := by omega
            have hklt : k < hu.length := by
              rw [hlenu]
              have := hFIpw.hlen
              omega
            rw [hframe k hklt hkcs, hgu k hkcs]
            exact hFIpw.hinputs k hk0 hkN
          · intro j hjN hjlt
            rw [hlenm] at hjlt
            have htagsu : ∀ j', j' < pw.heap.length →
                ∀ k ∈ (hget hu j').children, (hget st1.heap k).tag = (hget hu k).tag := by
              intro j' hj' k hk
              have hkmem : k ∈ (hget pw.heap j').children := by
                by_cases hjcs : j' = cs
                · subst hjcs
                  rw [← hukids]
                  exact hk
                · rw [← hgu j' hjcs]
                  exact hk
              have hklt : k < pw.heap.length := hFIpw.hkids j' hj' k hkmem
              have hkltu : k < hu.length := by rw [hlenu]; exact hklt
              by_cases hkcs : k = cs
              · subst hkcs
                exact hptag
              · rw [hframe k hkltu hkcs]
            by_cases hjsid : j = pw.heap.length
            · subst hjsid
              rw [← hsid']
              refine ⟨by rw [hsec], Or.inl ⟨?_, ?_⟩⟩
              · rw [hasToks_of_hget hsec]
                exact List.filter_eq_nil_iff.mpr (fun t ht => by
                  simp [newSection_tokens_hasfree pw.classPfx header atts hHFpw hattscp t ht])
              · unfold secCount
                rw [hsec]
                rfl
            · have hjlt' : j < pw.heap.length := by omega
              have hjltu : j < hu.length := by rw [hlenu]; exact hjlt'
              by_cases hjcs : j = cs
              · subst hjcs
                have hjattrs : (hget st1.heap j).attrs = (hget hu j).attrs := hpattrs
                have hjkids : (hget st1.heap j).children = (hget hu j).children ++ [sid] :=
                  hpkids
                refine ⟨by rw [hptag, hutag]; exact hcstag, Or.inr ⟨n + 1, ?_, ?_⟩⟩
                · rw [hasToks_stable hjattrs, hutoks]
                · have := secCount_append hjkids (htagsu j hcslt)
                  rw [this, hucnt, hsec]
                  simp
              · have helem : hget st1.heap j = hget hu j :=
                  hframe j hjltu hjcs
                have helem2 : hget hu j = hget pw.heap j := hgu j hjcs
                obtain ⟨htagj, hhpj⟩ := hFIpw.hsecs j hjN hjlt'
                refine ⟨by rw [helem, helem2]; exact htagj, ?_⟩
                refine HasProp_stable (by rw [helem, helem2]) (by rw [helem, helem2]) ?_ hhpj
                intro k hk
                have hklt := hFIpw.hkids j hjlt' k hk
                have hkltu : k < hu.length := by rw [hlenu]; exact hklt
                by_cases hkcs : k = cs
                · subst hkcs
                  exact hptag.trans hutag
                · rw [hframe k hkltu hkcs, hgu k hkcs]
          · intro j hjlt k hk
            rw [hlenm] at hjlt ⊢
            by_cases hjsid : j = pw.heap.length
            · subst hjsid
              rw [← hsid', hsec] at hk
              simp at hk
            · have hjlt' : j < pw.heap.length := by omega
              have hjltu : j < hu.length := by rw [hlenu]; exact hjlt'
              by_cases hjcs : j = cs
              · subst hjcs
                rw [hpkids] at hk
                rcases List.mem_append.mp hk with hk | hk
                · rw [hukids] at hk
                  have := hFIpw.hkids j hcslt k hk
                  omega
                · simp at hk
                  omega
              · rw [hframe j hjltu hjcs, hgu j hjcs] at hk
                have := hFIpw.hkids j hjlt' k hk
                omega
          · intro c hc
            have hcc : some sid = some c := hc
            cases hcc
            rw [hsid', hlenm]
            exact ⟨hFIpw.hlen, by omega⟩
          · intro p hp
            have hps : p ∈ (cs, pw.current_level) :: pw.section_stack := by
              have : st1.section_stack =
                  (cs, pw.current_level) :: pw.section_stack := m3
              rw [← this]
              exact hp
            rw [hlenm]
            rcases List.mem_cons.mp hps with rfl | hps
            · exact ⟨hcsN, by omega⟩
            · obtain ⟨hn, hl⟩ := hFIpw.hstk p hps
              exact ⟨hn, by omega⟩
          · show st1.classPfx = _
            rw [m6]
            exact w2
          · show st1.headers = _
            rw [m8]
            exact w3

/-! ## Flat invariant through the `assemble` loop -/

theorem FlatInv_assembleLoop (h0 : Heap) (cp : String)
    (rec' : St → Nat → Except PyErr St) (hFD : FlatDoc h0)
    (hHF : ∀ i ∈ (hget h0 0).children, cssHasFreeB cp (hget h0 i) = true) :
    ∀ (snapshot : List Nat) (sv : Option Nat) (st st' : St),
    (∀ i ∈ snapshot, i ∈ (hget h0 0).children) →
    FlatInv h0 st → st.classPfx = cp →
    assembleLoop rec' 0 snapshot sv st = Except.ok st' →
    FlatInv h0 st' := by
  intro snapshot
  induction snapshot with
  | nil =>
      intro sv st st' _ hFI _ hok
      unfold assembleLoop at hok
      have := (Except.ok.injEq _ _).mp hok
      exact this ▸ hFI
  | cons c cs ih =>
      intro sv st st' hsnap hFI hcp hok
      have hcmem : c ∈ (hget h0 0).children := hsnap c (by simp)
      obtain ⟨hc0, hcN⟩ := hFD.2.1 c hcmem
      have hchild : hget st.heap c = hget h0 c := hFI.hinputs c hc0 hcN
      have hctag : (hget h0 c).tag ≠ "section" := hFD.2.2.2 c hcN
      have hcleaf : (hget h0 c).children = [] := hFD.2.2.1 c hcN hc0
      unfold assembleLoop at hok
      by_cases htag : (hget st.heap c).tag ∈ st.headers
      · rw [if_pos htag] at hok
        obtain ⟨stb, hbeg, hok2⟩ := except_bind_ok_inv hok
        have hHFc : cssHasFreeB st.classPfx (hget st.heap c) = true := by
          rw [hchild, hcp]
          exact hHF c hcmem
        obtain ⟨hFIb, hcpb, hhdb, hsb⟩ :=
          FlatInv_begin_section h0 st _ stb hFI hFD.1 hHFc hbeg
        simp only [except_bind_ok] at hok2
        rw [if_pos hsb] at hok2
        obtain ⟨st3, hadd, hok3⟩ := except_bind_ok_inv hok2
        obtain ⟨hFI3, a2, a3, a4, a5, a6, a7⟩ :=
          FlatInv_add_element h0 stb c st3 hFIb hFD.1 hc0 hcN hctag hadd
        have hch3 : (hget st3.heap c).children = [] := by
          rw [hFI3.hinputs c hc0 hcN]
          exact hcleaf
        rw [if_neg (by rw [hch3]; simp)] at hok3
        exact ih stb.current_section st3 st'
          (fun i hi => hsnap i (by simp [hi])) hFI3 (by rw [a4, hcpb]; exact hcp) hok3
      · rw [if_neg htag] at hok
        simp only [except_bind_ok] at hok
        by_cases hsv : sv.isSome = true
        · rw [if_pos hsv] at hok
          obtain ⟨st3, hadd, hok3⟩ := except_bind_ok_inv hok
          obtain ⟨hFI3, a2, a3, a4, a5, a6, a7⟩ :=
            FlatInv_add_element h0 st c st3 hFI hFD.1 hc0 hcN hctag hadd
          have hch3 : (hget st3.heap c).children = [] := by
            rw [hFI3.hinputs c hc0 hcN]
            exact hcleaf
          rw [if_neg (by rw [hch3]; simp)] at hok3
          exact ih sv st3 st' (fun i hi => hsnap i (by simp [hi])) hFI3
            (by rw [a4]; exact hcp) hok3
        · rw [if_neg hsv] at hok
          have hch : (hget st.heap c).children = [] := by
            rw [hchild]
            exact hcleaf
          rw [if_neg (by rw [hch]; simp)] at hok
          exact ih sv st st' (fun i hi => hsnap i (by simp [hi])) hFI hcp hok

/-! ## Occurrence-count algebra for the movement analysis (claim C3) -/

theorem occTotal_cons (a : Elem) (t : Heap) (i : Nat) :
    occTotal (a :: t) i = a.children.count i + occTotal t i := by
  unfold occTotal
  simp

theorem occTotal_append_single (h : Heap) (e : Elem) (i : Nat) :
    occTotal (h ++ [e]) i = occTotal h i + e.children.count i := by
  unfold occTotal
  rw [List.map_append, List.sum_append]
  simp

theorem occTotal_hset (h : Heap) (k : Nat) (e : Elem) (hk : k < h.length) (i : Nat) :
    occTotal (hset h k e) i + (hget h k).children.count i =
      occTotal h i + e.children.count i := by
  induction h generalizing k with
  | nil => simp at hk
  | cons a t ih =>
      cases k with
      | zero =>
          have h1 : hset (a :: t) 0 e = e :: t := rfl
          have h2 : hget (a :: t) 0 = a := rfl
          rw [h1, h2, occTotal_cons, occTotal_cons]
          omega
      | succ m =>
          have h1 : hset (a :: t) (m + 1) e = a :: hset t m e := rfl
          have h2 : hget (a :: t) (m + 1) = hget t m := rfl
          have hm : m < t.length := by
            have := hk
            simp at this
            omega
          have := ih m hm
          rw [h1, h2, occTotal_cons, occTotal_cons]
          omega

theorem occTotal_subElement (h : Heap) (p : Nat) (e : Elem) (hp : p < h.length)
    (he : e.children = []) (i : Nat) (hi : i ≠ h.length) :
    occTotal (subElement h p e).1 i = occTotal h i := by
  show occTotal (hset (h ++ [e]) p
    { hget (h ++ [e]) p with
      children := (hget (h ++ [e]) p).children ++ [h.length] }) i = occTotal h i
  have hp' : p < (h ++ [e]).length := by
    rw [List.length_append]
    omega
  have hkey := occTotal_hset (h ++ [e]) p
    { hget (h ++ [e]) p with
      children := (hget (h ++ [e]) p).children ++ [h.length] } hp' i
  rw [occTotal_append_single] at hkey
  have hcnt : ({ hget (h ++ [e]) p with
      children := (hget (h ++ [e]) p).children ++ [h.length] } : Elem).children.count i =
      (hget (h ++ [e]) p).children.count i := by
    show ((hget (h ++ [e]) p).children ++ [h.length]).count i = _
    rw [List.count_append]
    have : ([h.length] : List Nat).count i = 0 := by
      rw [List.count_eq_zero]
      simp
      omega
    omega
  have hce : e.children.count i = 0 := by
    rw [he]
    rfl
  rw [hcnt, hce] at hkey
  omega

theorem occTotal_flat_one (h0 : Heap) (hFD : FlatDoc h0)
    (hND : (hget h0 0).children.Nodup) {i : Nat} (hi : i ∈ (hget h0 0).children) :
    occTotal h0 i = 1 := by
  obtain ⟨e0, t, hh⟩ : ∃ e0 t, h0 = e0 :: t := by
    cases h0 with
    | nil =>
        have := hFD.1
        simp at this
    | cons a t => exact ⟨a, t, rfl⟩
  have hg0 : hget h0 0 = e0 := by rw [hh]; rfl
  rw [hg0] at hND hi
  have hcount : e0.children.count i = 1 := List.count_eq_one_of_mem hND hi
  have hrest : occTotal t i = 0 := by
    unfold occTotal
    apply List.sum_eq_zero
    intro x hx
    obtain ⟨e', he', hfx⟩ := List.mem_map.mp hx
    obtain ⟨idx, hidx, hidxe⟩ := List.mem_iff_getElem.mp he'
    have hch : e'.children = [] := by
      have hkey := hFD.2.2.1 (idx + 1) (by rw [hh]; simp; omega) (by omega)
      have : hget h0 (idx + 1) = e' := by
        rw [hh]
        show t.getD idx ⟨"", [], []⟩ = e'
        rw [List.getD_eq_getElem _ _ hidx, hidxe]
      rw [this] at hkey
      exact hkey
    rw [← hfx, hch]
    rfl
  rw [hh, occTotal_cons] at *
  have : hget (e0 :: t) 0 = e0 := rfl
  omega

/-- The exact effect of `add_element` when it actually moves a child:
the child is erased from the root's child list and appended to the
innermost open (current) section's child list; every other element and
the total occurrence count of every id are unchanged. -/
theorem add_element_move (st : St) (c cs : Nat) (st1 : St)
    (hcs : st.current_section = some cs) (hcs0 : cs ≠ 0) (hccs : c ≠ cs)
    (hcslt : cs < st.heap.length) (h0lt : 0 < st.heap.length)
    (hmem : c ∈ (hget st.heap 0).children)
    (hok : add_element st c 0 = Except.ok st1) :
    st1.heap.length = st.heap.length ∧
    (hget st1.heap 0).children = (hget st.heap 0).children.erase c ∧
    (hget st1.heap 0).tag = (hget st.heap 0).tag ∧
    (hget st1.heap cs).children = (hget st.heap cs).children ++ [c] ∧
    (hget st1.heap cs).tag = (hget st.heap cs).tag ∧
    (∀ k, k ≠ 0 → k ≠ cs → hget st1.heap k = hget st.heap k) ∧
    (∀ i, occTotal st1.heap i = occTotal st.heap i) ∧
    st1.current_section = st.current_section ∧
    st1.section_stack = st.section_stack ∧
    st1.headers = st.headers ∧ st1.classPfx = st.classPfx := by
  unfold add_element at hok
  have hne : (hget st.heap 0).children ≠ [] := List.ne_nil_of_mem hmem
  rw [if_pos hne, if_pos hmem, hcs] at hok
  have hst1 := ((Except.ok.injEq _ _).mp hok).symm
  subst hst1
  set E0 := hget st.heap 0 with hE0
  set heap1 := hset st.heap 0 { E0 with children := E0.children.erase c } with hheap1
  have hlen1 : heap1.length = st.heap.length := length_hset _ _ _
  have hg1_0 : hget heap1 0 = { E0 with children := E0.children.erase c } :=
    hget_hset_self _ _ _ h0lt
  have hg1 : ∀ k, k ≠ 0 → hget heap1 k = hget st.heap k := by
    intro k hk
    exact hget_hset_ne _ _ _ _ (fun hh => hk hh.symm)
  set csE := hget heap1 cs with hcsE
  have hcsE' : csE = hget st.heap cs := hg1 cs hcs0
  set heap2 := hset heap1 cs { csE with children := csE.children ++ [c] } with hheap2
  have hcslt1 : cs < heap1.length := by rw [hlen1]; exact hcslt
  have hlen2 : heap2.length = st.heap.length := by
    rw [hheap2, length_hset, hlen1]
  have hg2_cs : hget heap2 cs = { csE with children := csE.children ++ [c] } :=
    hget_hset_self _ _ _ hcslt1
  have hg2_0 : hget heap2 0 = { E0 with children := E0.children.erase c } := by
    rw [hheap2, hget_hset_ne _ _ _ _ hcs0, hg1_0]
  have hg2 : ∀ k, k ≠ 0 → k ≠ cs → hget heap2 k = hget st.heap k := by
    intro k hk0 hkcs
    rw [hheap2, hget_hset_ne _ _ _ _ (fun hh => hkcs hh.symm), hg1 k hk0]
  refine ⟨hlen2, ?_, ?_, ?_, ?_, hg2, ?_, hcs.symm, rfl, rfl, rfl⟩
  · rw [hg2_0]
  · rw [hg2_0]
  · rw [hg2_cs]
    show csE.children ++ [c] = _
    rw [hcsE']
  · rw [hg2_cs]
    show csE.tag = _
    rw [hcsE']
  · intro i
    show occTotal heap2 i = occTotal st.heap i
    rw [hheap2]
    have hkey2 := occTotal_hset heap1 cs { csE with children := csE.children ++ [c] } hcslt1 i
    have hkey1 := occTotal_hset st.heap 0 { E0 with children := E0.children.erase c } h0lt i
    have hproj2 : ({ csE with children := csE.children ++ [c] } : Elem).children =
        csE.children ++ [c] := rfl
    have hproj1 : ({ E0 with children := E0.children.erase c } : Elem).children =
        E0.children.erase c := rfl
    rw [hproj2, List.count_append, ← hcsE] at hkey2
    rw [hproj1, ← hE0, ← hheap1] at hkey1
    by_cases hic : i = c
    · subst hic
      have hpos : E0.children.count i ≠ 0 := fun hz => (List.count_eq_zero.mp hz) hmem
      have herase : (E0.children.erase i).count i = E0.children.count i - 1 :=
        List.count_erase_self i E0.children
      have hone : ([i] : List Nat).count i = 1 := by simp
      rw [herase] at hkey1
      rw [hone] at hkey2
      omega
    · have herase : (E0.children.erase c).count i = E0.children.count i :=
        List.count_erase_of_ne hic E0.children
      have hzero : ([c] : List Nat).count i = 0 := by
        rw [List.count_eq_zero]
        simp
        omega
      rw [herase] at hkey1
      rw [hzero] at hkey2
      omega

/-- The heap-shape effect of `begin_section` on a flat document: a fresh
`section` element with no children is allocated at the old heap end; the
root's child list either gets it appended (top-level section) or is left
unchanged (nested section); every other element's child list is unchanged
except that one may get the new id appended; occurrence counts of all
input ids are unchanged. -/
theorem begin_section_flat_effect (h0 : Heap) (st : St) (header : Elem) (st' : St)
    (hFI : FlatInv h0 st) (h00 : 0 < h0.length)
    (hok : begin_section st header 0 = Except.ok st') :
    ∃ sid, st'.current_section = some sid ∧ sid = st.heap.length ∧
      st'.heap.length = st.heap.length + 1 ∧
      (hget st'.heap sid).children = [] ∧ (hget st'.heap sid).tag = "section" ∧
      (∀ i, i < h0.length → occTotal st'.heap i = occTotal st.heap i) ∧
      ((hget st'.heap 0).children = (hget st.heap 0).children ++ [sid] ∨
        (hget st'.heap 0).children = (hget st.heap 0).children) ∧
      (∀ j, 0 < j → j < st.heap.length →
        (hget st'.heap j).children = (hget st.heap j).children ∨
        (hget st'.heap j).children = (hget st.heap j).children ++ [sid]) := by
  cases hgl : get_level header with
  | error e =>
      unfold begin_section at hok
      rw [hgl] at hok
      simp [except_bind_err] at hok
  | ok L =>
      unfold begin_section at hok
      rw [hgl] at hok
      simp only [except_bind_ok] at hok
      obtain ⟨w1, w2, w3, w4, w5⟩ := popWhile_weak st L
      have hFIpw : FlatInv h0 (popWhile st L) := FlatInv_popWhile h0 st L hFI
      set pw := popWhile st L with hpwdef
      have h0pw : (0 : Nat) < pw.heap.length := by
        rw [w1]
        exact lt_of_lt_of_le h00 hFI.hlen
      cases hpc : pw.current_section with
      | none =>
          rw [hpc] at hok
          obtain ⟨pr, hms, hok2⟩ := except_bind_ok_inv hok
          obtain ⟨st1, sid⟩ := pr
          obtain ⟨atts, hatts, hsid, f1, f2, f3, f4, f5, f6, f7, hlenm, hframe, hptag,
            hpattrs, hpkids, hsec⟩ := make_section_spec pw header 0 st1 sid h0pw hms
          obtain ⟨atts2, hatts2, hrep, hsid2⟩ := make_section_ok pw header 0 st1 sid hms
          have hst' := ((Except.ok.injEq _ _).mp hok2).symm
          subst hst'
          have hsid' : sid = st.heap.length := by
            rw [hsid, w1]
          refine ⟨sid, rfl, hsid', ?_, ?_, ?_, ?_, ?_, ?_⟩
          · show st1.heap.length = _
            rw [hlenm, w1]
          · show (hget st1.heap sid).children = []
            rw [hsec]
          · show (hget st1.heap sid).tag = "section"
            rw [hsec]
          · intro i hi
            show occTotal st1.heap i = occTotal st.heap i
            have hh1 : st1.heap = (subElement pw.heap 0 ⟨"section", atts2, []⟩).1 := by
              rw [hrep]
            have hine : i ≠ pw.heap.length := by
              rw [w1]
              have := hFI.hlen
              omega
            rw [hh1, occTotal_subElement pw.heap 0 _ h0pw rfl i hine, w1]
          · left
            show (hget st1.heap 0).children = _
            rw [hpkids, hsid, w1]
          · intro j hj0 hjlt
            left
            show (hget st1.heap j).children = _
            have hjpw : j < pw.heap.length := by rw [w1]; exact hjlt
            rw [hframe j hjpw (by omega), w1]
      | some cs =>
          rw [hpc] at hok
          obtain ⟨hcsN, hcslt⟩ := hFIpw.hcur cs hpc
          have hcs0 : cs ≠ 0 := by omega
          obtain ⟨css2, hbump, hok2⟩ := except_bind_ok_inv hok
          obtain ⟨pr, hms, hok3⟩ := except_bind_ok_inv hok2
          obtain ⟨st1, sid⟩ := pr
          have hst' := ((Except.ok.injEq _ _).mp hok3).symm
          subst hst'
          set csE2 : Elem := (hget pw.heap cs).setAttr "class" (pyJoin ' ' css2) with hcsE2
          set hu : Heap := hset pw.heap cs csE2 with hhu
          have hlenu : hu.length = pw.heap.length := length_hset _ _ _
          have hguc : hget hu cs = csE2 := hget_hset_self _ _ _ hcslt
          have hgu : ∀ k, k ≠ cs → hget hu k = hget pw.heap k := by
            intro k hk
            exact hget_hset_ne _ _ _ _ (fun hh => hk hh.symm)
          have hpar2 : cs < (hu : Heap).length := by rw [hlenu]; exact hcslt
          obtain ⟨atts, hatts, hsid, m3, m4, m5, m6, m7, m8, m9, hlenm, hframe, hptag,
            hpattrs, hpkids, hsec⟩ := make_section_spec _ header cs st1 sid hpar2 hms
          obtain ⟨atts2, hatts2, hrep, hsid2⟩ := make_section_ok _ header cs st1 sid hms
          have hsid' : sid = st.heap.length := by
            rw [hsid]
            show hu.length = _
            rw [hlenu, w1]
          refine ⟨sid, rfl, hsid', ?_, ?_, ?_, ?_, ?_, ?_⟩
          · show st1.heap.length = _
            rw [hlenm]
            show hu.length + 1 = _
            rw [hlenu, w1]
          · show (hget st1.heap sid).children = []
            rw [hsec]
          · show (hget st1.heap sid).tag = "section"
            rw [hsec]
          · intro i hi
            show occTotal st1.heap i = occTotal st.heap i
            have hh1 : st1.heap = (subElement hu cs ⟨"section", atts2, []⟩).1 := by
              rw [hrep]
            have hine : i ≠ hu.length := by
              rw [hlenu, w1]
              have := hFI.hlen
              omega
            have hocc_u : occTotal hu i = occTotal pw.heap i := by
              have hkey := occTotal_hset pw.heap cs csE2 hcslt i
              have hch : csE2.children = (hget pw.heap cs).children := by
                rw [hcsE2, setAttr_children]
              rw [hch, ← hhu] at hkey
              omega
            rw [hh1, occTotal_subElement hu cs _ hpar2 rfl i hine, hocc_u, w1]
          · right
            show (hget st1.heap 0).children = _
            have h0u : (0 : Nat) < hu.length := by rw [hlenu]; exact h0pw
            rw [hframe 0 h0u (by omega), hgu 0 (by omega), w1]
          · intro j hj0 hjlt
            have hjpw : j < pw.heap.length := by rw [w1]; exact hjlt
            have hju : j < hu.length := by rw [hlenu]; exact hjpw
            by_cases hjcs : j = cs
            · subst hjcs
              right
              show (hget st1.heap j).children = _
              rw [hpkids, hguc, hcsE2, setAttr_children, w1]
            · left
              show (hget st1.heap j).children = _
              rw [hframe j hju hjcs, hgu j hjcs, w1]

theorem filter_mem_singleton {p : Nat → Bool} {c : Nat} (hc : p c = true) :
    List.filter p [c] = [c] := by
  simp [List.filter_cons, hc]

theorem filter_not_singleton {p : Nat → Bool} {c : Nat} (hc : p c = false) :
    List.filter p [c] = [] := by
  simp [List.filter_cons, hc]

theorem erase_keep_cons (keep rest : List Nat) (c : Nat) (hc : c ∉ keep) :
    (keep ++ c :: rest).erase c = keep ++ rest := by
  rw [List.erase_append_right _ hc, List.erase_cons_head]

/-- One full pass of the flat assemble loop preserves the movement/order
invariant `C3Inv`, accumulating the processed prefix. -/
theorem C3_loop (h0 : Heap) (cp : String) (hdrs : List String)
    (rec' : St → Nat → Except PyErr St) (hFD : FlatDoc h0)
    (hND : (hget h0 0).children.Nodup)
    (hHF : ∀ i ∈ (hget h0 0).children, cssHasFreeB cp (hget h0 i) = true) :
    ∀ (remaining processed : List Nat) (sv : Option Nat) (st st' : St),
    (hget h0 0).children = processed ++ remaining →
    C3Inv h0 cp hdrs processed remaining sv st →
    assembleLoop rec' 0 remaining sv st = Except.ok st' →
    ∃ sv2, C3Inv h0 cp hdrs (processed ++ remaining) [] sv2 st' := by
  intro remaining
  induction remaining with
  | nil =>
      intro processed sv st st' hsplit hInv hok
      unfold assembleLoop at hok
      have hst := (Except.ok.injEq _ _).mp hok
      subst hst
      refine ⟨sv, ?_⟩
      rw [List.append_nil]
      exact hInv
  | cons c rest ih =>
      intro processed sv st st' hsplit hInv hok
      obtain ⟨hFI, hcp, hhdrs, hocc, hfilt, keep, tops, hroot, htops, hcase⟩ := hInv
      have h00 : 0 < h0.length := hFD.1
      have hcmem : c ∈ (hget h0 0).children := by
        rw [hsplit]
        simp
      obtain ⟨hc0, hcN⟩ := hFD.2.1 c hcmem
      have hchild : hget st.heap c = hget h0 c := hFI.hinputs c hc0 hcN
      have hctag : (hget h0 c).tag ≠ "section" := hFD.2.2.2 c hcN
      have hcleaf : (hget h0 c).children = [] := hFD.2.2.1 c hcN hc0
      have hcnotproc : c ∉ processed := by
        have hnd := hND
        rw [hsplit] at hnd
        have hdisj := List.disjoint_of_nodup_append hnd
        intro hcp2
        exact hdisj hcp2 (by simp)
      have hcnotkeep : c ∉ keep := by
        intro hk
        apply hcnotproc
        rcases hcase with ⟨_, _, hkeq, _, _⟩ | ⟨hd, post, hpeq, _, _, _, _, _⟩
        · rw [← hkeq]
          exact hk
        · rw [hpeq]
          exact List.mem_append.mpr (Or.inl hk)
      have hsidnotin : ∀ x : Nat, h0.length ≤ x → x ∉ (hget h0 0).children := by
        intro x hx hmem2
        have := (hFD.2.1 x hmem2).2
        omega
      unfold assembleLoop at hok
      by_cases htag : (hget st.heap c).tag ∈ st.headers
      · -- the child is a recognized heading
        rw [if_pos htag] at hok
        rw [hchild, hhdrs] at htag
        obtain ⟨stb, hbeg, hok2⟩ := except_bind_ok_inv hok
        have hHFc : cssHasFreeB st.classPfx (hget st.heap c) = true := by
          rw [hchild, hcp]
          exact hHF c hcmem
        obtain ⟨hFIb, hcpb, hhdb, hsb⟩ :=
          FlatInv_begin_section h0 st _ stb hFI h00 hHFc hbeg
        obtain ⟨sid, hbcur, hsidlen, hblen, hsidkids, hsidtag, hbocc, hbroot, hbkids⟩ :=
          begin_section_flat_effect h0 st _ stb hFI h00 hbeg
        simp only [except_bind_ok] at hok2
        rw [if_pos hsb] at hok2
        obtain ⟨st3, hadd, hok3⟩ := except_bind_ok_inv hok2
        have hlenle := hFI.hlen
        have hsid0 : sid ≠ 0 := by rw [hsidlen]; omega
        have hccsid : c ≠ sid := by rw [hsidlen]; omega
        have hsidltb : sid < stb.heap.length := by rw [hblen, hsidlen]; omega
        have h0ltb : 0 < stb.heap.length := by rw [hblen]; omega
        have hcmem_st : c ∈ (hget st.heap 0).children := by
          rw [hroot]
          simp
        have hcmemb : c ∈ (hget stb.heap 0).children := by
          rcases hbroot with hb | hb
          · rw [hb]
            exact List.mem_append.mpr (Or.inl hcmem_st)
          · rw [hb]
            exact hcmem_st
        obtain ⟨hlen3, hroot3, hroottag3, hcs3, hcstag3, hframe3, hocc3, hcur3, hstk3,
          hhd3, hcp3⟩ :=
          add_element_move stb c sid st3 hbcur hsid0 hccsid hsidltb h0ltb hcmemb hadd
        obtain ⟨hFI3, a2, a3, a4, a5, a6, a7⟩ :=
          FlatInv_add_element h0 stb c st3 hFIb h00 hc0 hcN hctag hadd
        have hch3 : (hget st3.heap c).children = [] := by
          rw [hFI3.hinputs c hc0 hcN]
          exact hcleaf
        rw [if_neg (by rw [hch3]; simp)] at hok3
        have hsidN : h0.length ≤ sid := by rw [hsidlen]; omega
        have hsidlt3 : sid < st3.heap.length := by rw [hlen3, hblen, hsidlen]; omega
        have hkc3 : (hget st3.heap sid).children = [c] := by
          rw [hcs3, hsidkids]
          rfl
        obtain ⟨tops2, hroot3'', htops2⟩ :
            ∃ tops2, (hget st3.heap 0).children = keep ++ rest ++ tops2 ∧
              ∀ t ∈ tops2, h0.length ≤ t := by
          rcases hbroot with hb | hb
          · refine ⟨tops ++ [sid], ?_, ?_⟩
            · rw [hroot3, hb, hroot]
              have h1 : ((keep ++ (c :: rest) ++ tops) ++ [sid] : List Nat) =
                  keep ++ c :: (rest ++ (tops ++ [sid])) := by simp
              rw [h1, erase_keep_cons keep _ c hcnotkeep]
              simp
            · intro t ht
              rcases List.mem_append.mp ht with ht | ht
              · exact htops t ht
              · simp at ht
                subst ht
                exact hsidN
          · refine ⟨tops, ?_, htops⟩
            rw [hroot3, hb, hroot]
            have h1 : ((keep ++ (c :: rest) ++ tops) : List Nat) =
                keep ++ c :: (rest ++ tops) := by simp
            rw [h1, erase_keep_cons keep _ c hcnotkeep]
            simp
        have htransH : ∀ i, (∃ j, h0.length ≤ j ∧ j < st.heap.length ∧
            i ∈ (hget st.heap j).children) →
            ∃ j, h0.length ≤ j ∧ j < st3.heap.length ∧ i ∈ (hget st3.heap j).children := by
          rintro i ⟨j, hjN, hjlt, hm⟩
          have hj0 : j ≠ 0 := by omega
          have hjsid : j ≠ sid := by rw [hsidlen]; omega
          refine ⟨j, hjN, by rw [hlen3, hblen]; omega, ?_⟩
          rw [hframe3 j hj0 hjsid]
          rcases hbkids j (by omega) hjlt with hb2 | hb2
          · rw [hb2]
            exact hm
          · rw [hb2]
            exact List.mem_append.mpr (Or.inl hm)
        have hinv3 : C3Inv h0 cp hdrs (processed ++ [c]) rest stb.current_section st3 := by
          refine ⟨hFI3, by rw [a4, hcpb]; exact hcp, by rw [a5, hhdb]; exact hhdrs,
            ?_, ?_, keep, tops2, hroot3'', htops2, Or.inr ?_⟩
          · intro i hi
            rw [hocc3 i, hbocc i (hFD.2.1 i hi).2, hocc i hi]
          · intro j hjN hjlt
            by_cases hjsid : j = sid
            · subst hjsid
              rw [hkc3, filter_mem_singleton (by simp [hcmem])]
              exact (List.nil_sublist processed).append (List.Sublist.refl [c])
            · have hjlt' : j < st.heap.length := by
                rw [hlen3, hblen] at hjlt
                have hne : j ≠ st.heap.length := by rw [← hsidlen]; exact hjsid
                omega
              have hj0 : j ≠ 0 := by omega
              rw [hframe3 j hj0 hjsid]
              rcases hbkids j (by omega) hjlt' with hb2 | hb2
              · rw [hb2]
                exact (hfilt j hjN hjlt').trans (List.sublist_append_left _ _)
              · rw [hb2, List.filter_append,
                  filter_not_singleton (by simp; exact hsidnotin sid hsidN), List.append_nil]
                exact (hfilt j hjN hjlt').trans (List.sublist_append_left _ _)
          · rcases hcase with ⟨hsvn, hcurn, hkeq, htn, hprop⟩ |
              ⟨hd, post, hpeq, hkprop, hhdt, hsve, hcsome, hmoved⟩
            · refine ⟨c, [], by rw [hkeq], by rw [hkeq]; exact hprop, htag,
                a2.symm, by rw [a2, hbcur]; rfl, ?_⟩
              intro i hi
              simp at hi
              subst hi
              exact ⟨sid, hsidN, hsidlt3, by rw [hkc3]; simp⟩
            · refine ⟨hd, post ++ [c], by rw [hpeq]; simp, hkprop, hhdt,
                a2.symm, by rw [a2, hbcur]; rfl, ?_⟩
              intro i hi
              rcases List.mem_cons.mp hi with rfl | hi2
              · exact htransH i (hmoved i (by simp))
              rcases List.mem_append.mp hi2 with hi3 | hi3
              · exact htransH i (hmoved i (by simp [hi3]))
              · simp at hi3
                subst hi3
                exact ⟨sid, hsidN, hsidlt3, by rw [hkc3]; simp⟩
        obtain ⟨sv2, hInv'⟩ := ih (processed ++ [c]) stb.current_section st3 st'
          (by rw [hsplit]; simp) hinv3 hok3
        have heq : (processed ++ [c]) ++ rest = processed ++ c :: rest := by simp
        rw [heq] at hInv'
        exact ⟨sv2, hInv'⟩
      · -- not a recognized heading
        rw [if_neg htag] at hok
        rw [hchild, hhdrs] at htag
        simp only [except_bind_ok] at hok
        by_cases hsv : sv.isSome = true
        · rw [if_pos hsv] at hok
          obtain ⟨st3, hadd, hok3⟩ := except_bind_ok_inv hok
          rcases hcase with ⟨hsvn, _, _, _, _⟩ |
            ⟨hd, post, hpeq, hkprop, hhdt, hsve, hcsome, hmoved⟩
          · rw [hsvn] at hsv
            simp at hsv
          obtain ⟨curId, hcur⟩ := Option.isSome_iff_exists.mp hcsome
          obtain ⟨hcurN, hcurlt⟩ := hFI.hcur curId hcur
          have hcur0 : curId ≠ 0 := by omega
          have hccur : c ≠ curId := by
            have := hFI.hlen
            omega
          have h0lt : 0 < st.heap.length := by
            have := hFI.hlen
            omega
          have hcmemr : c ∈ (hget st.heap 0).children := by
            rw [hroot]
            simp
          obtain ⟨hlen3, hroot3, hroottag3, hcs3, hcstag3, hframe3, hocc3, hcur3, hstk3,
            hhd3, hcp3⟩ :=
            add_element_move st c curId st3 hcur hcur0 hccur hcurlt h0lt hcmemr hadd
          obtain ⟨hFI3, a2, a3, a4, a5, a6, a7⟩ :=
            FlatInv_add_element h0 st c st3 hFI h00 hc0 hcN hctag hadd
          have hch3 : (hget st3.heap c).children = [] := by
            rw [hFI3.hinputs c hc0 hcN]
            exact hcleaf
          rw [if_neg (by rw [hch3]; simp)] at hok3
          have hroot3' : (hget st3.heap 0).children = keep ++ rest ++ tops := by
            rw [hroot3, hroot]
            have h1 : ((keep ++ (c :: rest) ++ tops) : List Nat) =
                keep ++ c :: (rest ++ tops) := by simp
            rw [h1, erase_keep_cons keep _ c hcnotkeep]
            simp
          have htrans : ∀ i, (∃ j, h0.length ≤ j ∧ j < st.heap.length ∧
              i ∈ (hget st.heap j).children) →
              ∃ j, h0.length ≤ j ∧ j < st3.heap.length ∧ i ∈ (hget st3.heap j).children := by
            rintro i ⟨j, hjN, hjlt, hm⟩
            refine ⟨j, hjN, by rw [hlen3]; exact hjlt, ?_⟩
            by_cases hjcur : j = curId
            · subst hjcur
              rw [hcs3]
              exact List.mem_append.mpr (Or.inl hm)
            · have hj0 : j ≠ 0 := by omega
              rw [hframe3 j hj0 hjcur]
              exact hm
          have hinv3 : C3Inv h0 cp hdrs (processed ++ [c]) rest sv st3 := by
            refine ⟨hFI3, by rw [a4]; exact hcp, by rw [a5]; exact hhdrs, ?_, ?_,
              keep, tops, hroot3', htops,
              Or.inr ⟨hd, post ++ [c], by rw [hpeq]; simp, hkprop, hhdt, ?_, ?_, ?_⟩⟩
            · intro i hi
              rw [hocc3 i, hocc i hi]
            · intro j hjN hjlt
              have hjlt' : j < st.heap.length := by rw [hlen3] at hjlt; exact hjlt
              by_cases hjcur : j = curId
              · subst hjcur
                rw [hcs3, List.filter_append, filter_mem_singleton (by simp [hcmem])]
                exact List.Sublist.append (hfilt j hjN hjlt') (List.Sublist.refl [c])
              · have hj0 : j ≠ 0 := by omega
                rw [hframe3 j hj0 hjcur]
                exact (hfilt j hjN hjlt').trans (List.sublist_append_left _ _)
            · rw [a2]
              exact hsve
            · rw [a2]
              exact hcsome
            · intro i hi
              rcases List.mem_cons.mp hi with rfl | hi2
              · exact htrans i (hmoved i (by simp))
              rcases List.mem_append.mp hi2 with hi3 | hi3
              · exact htrans i (hmoved i (by simp [hi3]))
              · simp at hi3
                subst hi3
                refine ⟨curId, hcurN, by rw [hlen3]; exact hcurlt, ?_⟩
                rw [hcs3]
                simp
          obtain ⟨sv2, hInv'⟩ := ih (processed ++ [c]) sv st3 st'
            (by rw [hsplit]; simp) hinv3 hok3
          have heq : (processed ++ [c]) ++ rest = processed ++ c :: rest := by simp
          rw [heq] at hInv'
          exact ⟨sv2, hInv'⟩
        · rw [if_neg hsv] at hok
          have hch : (hget st.heap c).children = [] := by
            rw [hchild]
            exact hcleaf
          rw [if_neg (by rw [hch]; simp)] at hok
          rcases hcase with ⟨hsvn, hcurn, hkeq, htn, hprop⟩ |
            ⟨hd, post, hpeq, hkprop, hhdt, hsve, hcsome, hmoved⟩
          · have hinv3 : C3Inv h0 cp hdrs (processed ++ [c]) rest sv st := by
              refine ⟨hFI, hcp, hhdrs, hocc, ?_, processed ++ [c], tops,
                ?_, htops, Or.inl ⟨hsvn, hcurn, rfl, htn, ?_⟩⟩
              · intro j hjN hjlt
                exact (hfilt j hjN hjlt).trans (List.sublist_append_left _ _)
              · rw [hroot, hkeq]
                simp
              · intro x hx
                rcases List.mem_append.mp hx with hx | hx
                · exact hprop x hx
                · simp at hx
                  subst hx
                  exact htag
            obtain ⟨sv2, hInv'⟩ := ih (processed ++ [c]) sv st st'
              (by rw [hsplit]; simp) hinv3 hok
            have heq : (processed ++ [c]) ++ rest = processed ++ c :: rest := by simp
            rw [heq] at hInv'
            exact ⟨sv2, hInv'⟩
          · rw [hsve] at hsv
            exact absurd hcsome hsv

/-! ## Parent uniqueness and the descendant relation of a document heap -/

theorem occTotal_ge_count : ∀ (h : Heap) (p : Nat), p < h.length → ∀ i,
    (hget h p).children.count i ≤ occTotal h i := by
  intro h
  induction h with
  | nil =>
      intro p hp
      simp at hp
  | cons a t ih =>
      intro p hp i
      cases p with
      | zero =>
          have e0 : hget (a :: t) 0 = a := rfl
          rw [e0, occTotal_cons]
          omega
      | succ q =>
          have e1 : hget (a :: t) (q + 1) = hget t q := rfl
          rw [e1, occTotal_cons]
          have hq : q < t.length := by
            simp at hp
            omega
          have := ih q hq i
          omega

theorem count_one_le_of_mem {x : Nat} {l : List Nat} (hx : x ∈ l) : 1 ≤ l.count x := by
  have : l.count x ≠ 0 := fun hz => (List.count_eq_zero.mp hz) hx
  omega

theorem occTotal_ge_two : ∀ (h : Heap) (i p q : Nat), p < h.length → q < h.length →
    p ≠ q → i ∈ (hget h p).children → i ∈ (hget h q).children → 2 ≤ occTotal h i := by
  intro h
  induction h with
  | nil =>
      intro i p q hp
      simp at hp
  | cons a t ih =>
      intro i p q hp hq hpq hip hiq
      cases p with
      | zero =>
          cases q with
          | zero => exact absurd rfl hpq
          | succ q2 =>
              have e0 : hget (a :: t) 0 = a := rfl
              have e1 : hget (a :: t) (q2 + 1) = hget t q2 := rfl
              rw [e0] at hip
              rw [e1] at hiq
              have hq2 : q2 < t.length := by
                simp at hq
                omega
              have c1 := count_one_le_of_mem hip
              have c2 := count_one_le_of_mem hiq
              have c3 := occTotal_ge_count t q2 hq2 i
              rw [occTotal_cons]
              omega
      | succ p2 =>
          cases q with
          | zero =>
              have e0 : hget (a :: t) 0 = a := rfl
              have e1 : hget (a :: t) (p2 + 1) = hget t p2 := rfl
              rw [e1] at hip
              rw [e0] at hiq
              have hp2 : p2 < t.length := by
                simp at hp
                omega
              have c1 := count_one_le_of_mem hip
              have c2 := count_one_le_of_mem hiq
              have c3 := occTotal_ge_count t p2 hp2 i
              rw [occTotal_cons]
              omega
          | succ q2 =>
              have e1 : hget (a :: t) (p2 + 1) = hget t p2 := rfl
              have e2 : hget (a :: t) (q2 + 1) = hget t q2 := rfl
              rw [e1] at hip
              rw [e2] at hiq
              have hp2 : p2 < t.length := by
                simp at hp
                omega
              have hq2 : q2 < t.length := by
                simp at hq
                omega
              have := ih i p2 q2 hp2 hq2 (fun hh => hpq (by rw [hh])) hip hiq
              rw [occTotal_cons]
              omega

theorem unique_parent (h : Heap) (i p q : Nat) (hu : occTotal h i ≤ 1)
    (hp : p < h.length) (hq : q < h.length)
    (hip : i ∈ (hget h p).children) (hiq : i ∈ (hget h q).children) : p = q := by
  by_contra hne
  have h2 := occTotal_ge_two h i p q hp hq hne hip hiq
  omega

theorem children_nodup (h : Heap) (p : Nat) (hp : p < h.length)
    (hu : ∀ x ∈ (hget h p).children, occTotal h x ≤ 1) :
    (hget h p).children.Nodup := by
  rw [List.nodup_iff_count_le_one]
  intro a
  by_cases ha : a ∈ (hget h p).children
  · have h1 := occTotal_ge_count h p hp a
    have h2 := hu a ha
    omega
  · have : (hget h p).children.count a = 0 := List.count_eq_zero.mpr ha
    omega

theorem Desc_child {h0 : Heap} {a j : Nat} (hj : j ∈ (hget h0 a).children) :
    Desc h0 a j :=
  Desc.step a j j hj (Desc.refl j)

theorem Desc_trans {h0 : Heap} : ∀ {a b c : Nat},
    Desc h0 a b → Desc h0 b c → Desc h0 a c := by
  intro a b c hab
  induction hab with
  | refl k => exact fun h => h
  | step k j m hj hjm ih =>
      intro hbc
      exact Desc.step k j c hj (ih hbc)

theorem Desc_le {h0 : Heap}
    (hfwd : ∀ k, k < h0.length → ∀ j ∈ (hget h0 k).children, k < j ∧ j < h0.length) :
    ∀ {a b : Nat}, Desc h0 a b → a < h0.length → a ≤ b ∧ b < h0.length := by
  intro a b hd
  induction hd with
  | refl k => exact fun hk => ⟨le_refl k, hk⟩
  | step k j m hj hjm ih =>
      intro hk
      have hkj := hfwd k hk j hj
      have := ih hkj.2
      omega

theorem Desc_parent_split {h0 : Heap} : ∀ {a b : Nat}, Desc h0 a b → a ≠ b →
    ∃ p, Desc h0 a p ∧ b ∈ (hget h0 p).children := by
  intro a b hd
  induction hd with
  | refl k =>
      intro h
      exact absurd rfl h
  | step k j m hj hjm ih =>
      intro _
      by_cases hjm2 : j = m
      · subst hjm2
        exact ⟨k, Desc.refl k, hj⟩
      · obtain ⟨p, hp1, hp2⟩ := ih hjm2
        exact ⟨p, Desc.step k j p hj hp1, hp2⟩

theorem Desc_chain {h0 : Heap}
    (hfwd : ∀ k, k < h0.length → ∀ j ∈ (hget h0 k).children, k < j ∧ j < h0.length)
    (huniq : ∀ i, i < h0.length → occTotal h0 i ≤ 1) :
    ∀ {x k : Nat}, Desc h0 x k → x < h0.length →
      ∀ {y : Nat}, Desc h0 y k → y < h0.length → Desc h0 x y ∨ Desc h0 y x := by
  intro x k hdx
  induction hdx with
  | refl a =>
      intro _ y hdy _
      exact Or.inr hdy
  | step a j m hj hjm ih =>
      intro ha y hdy hy
      have hjlen : j < h0.length := (hfwd a ha j hj).2
      cases hdy with
      | refl => exact Or.inl (Desc.step a j _ hj hjm)
      | step _ j2 _ hj2 hj2m =>
          have hj2len : j2 < h0.length := (hfwd y hy j2 hj2).2
          rcases ih hjlen hj2m hj2len with hc | hc
          · by_cases hjj : j = j2
            · subst hjj
              have hay : a = y :=
                unique_parent h0 j a y (huniq j hjlen) ha hy hj hj2
              subst hay
              exact Or.inl (Desc.refl a)
            · obtain ⟨p, hdp, hmem⟩ := Desc_parent_split hc hjj
              have hplen : p < h0.length := (Desc_le hfwd hdp hjlen).2
              have hpy : p = y :=
                unique_parent h0 j2 p y (huniq j2 hj2len) hplen hy hmem hj2
              subst hpy
              exact Or.inl (Desc.step a j p hj hdp)
          · by_cases hjj : j2 = j
            · subst hjj
              have hay : y = a :=
                unique_parent h0 j2 y a (huniq j2 hj2len) hy ha hj2 hj
              subst hay
              exact Or.inl (Desc.refl y)
            · obtain ⟨p, hdp, hmem⟩ := Desc_parent_split hc hjj
              have hplen : p < h0.length := (Desc_le hfwd hdp hj2len).2
              have hpa : p = a :=
                unique_parent h0 j p a (huniq j hjlen) hplen ha hmem hj
              subst hpa
              exact Or.inr (Desc.step y j2 p hj2 hdp)

theorem Desc_sibling_disjoint {h0 : Heap}
    (hfwd : ∀ k, k < h0.length → ∀ j ∈ (hget h0 k).children, k < j ∧ j < h0.length)
    (huniq : ∀ i, i < h0.length → occTotal h0 i ≤ 1)
    {e x y k : Nat} (he : e < h0.length)
    (hx : x ∈ (hget h0 e).children) (hy : y ∈ (hget h0 e).children)
    (hxy : x ≠ y) (hdx : Desc h0 x k) (hdy : Desc h0 y k) : False := by
  have hxlen := (hfwd e he x hx).2
  have hylen := (hfwd e he y hy).2
  have hstep : ∀ {u v : Nat}, u ∈ (hget h0 e).children → v ∈ (hget h0 e).children →
      u ≠ v → Desc h0 u v → False := by
    intro u v hu hv huv hduv
    have hulen := (hfwd e he u hu).2
    obtain ⟨p, hdp, hmem⟩ := Desc_parent_split hduv huv
    have hplen : p < h0.length := (Desc_le hfwd hdp hulen).2
    have hvlen := (hfwd e he v hv).2
    have hpe : p = e :=
      unique_parent h0 v p e (huniq v hvlen) hplen he hmem hv
    rw [hpe] at hdp
    have h1 := (Desc_le hfwd hdp hulen).1
    have h2 := (hfwd e he u hu).1
    omega
  rcases Desc_chain hfwd huniq hdx hxlen hdy hylen with hc | hc
  · exact hstep hx hy hxy hc
  · exact hstep hy hx (fun h => hxy h.symm) hc

theorem pdesc_not_mem_children {h0 : Heap}
    (hfwd : ∀ k, k < h0.length → ∀ j ∈ (hget h0 k).children, k < j ∧ j < h0.length)
    (huniq : ∀ i, i < h0.length → occTotal h0 i ≤ 1)
    {e c i : Nat} (he : e < h0.length) (hc : c ∈ (hget h0 e).children)
    (hdi : Desc h0 c i) (hne : i ≠ c) : i ∉ (hget h0 e).children := by
  intro hmem
  have hclen := (hfwd e he c hc).2
  obtain ⟨p, hdp, hpm⟩ := Desc_parent_split hdi (fun h => hne h.symm)
  have hilen : i < h0.length := (Desc_le hfwd hdi hclen).2
  have hplen : p < h0.length := (Desc_le hfwd hdp hclen).2
  have hpe : p = e :=
    unique_parent h0 i p e (huniq i hilen) hplen he hpm hmem
  rw [hpe] at hdp
  have h1 := (Desc_le hfwd hdp hclen).1
  have h2 := (hfwd e he c hc).1
  omega

/-! ## Composition laws for `StepRel` -/

theorem StepRel_refl (h0 : Heap) (elemId : Nat) (st : St) : StepRel h0 elemId st st :=
  ⟨le_refl _, fun _ _ _ => rfl,
    fun j _ _ => ⟨[], by simp, by simp⟩, fun _ _ => rfl⟩

theorem StepRel_trans {h0 : Heap} {elemId : Nat} {s1 s2 s3 : St}
    (h12 : StepRel h0 elemId s1 s2) (h23 : StepRel h0 elemId s2 s3) :
    StepRel h0 elemId s1 s3 := by
  obtain ⟨l12, f12, d12, o12⟩ := h12
  obtain ⟨l23, f23, d23, o23⟩ := h23
  refine ⟨le_trans l12 l23, ?_, ?_, ?_⟩
  · intro k hk hd
    rw [f23 k hk hd, f12 k hk hd]
  · intro j hjN hjlt
    obtain ⟨e2, he2, hm2⟩ := d23 j hjN hjlt
    by_cases hj2 : j < s2.heap.length
    · obtain ⟨e1, he1, hm1⟩ := d12 j hjN hj2
      refine ⟨e1 ++ e2, by rw [he2, he1, List.append_assoc], ?_⟩
      intro i hi
      rcases List.mem_append.mp hi with h | h
      · exact hm1 i h
      · exact hm2 i h
    · have h1 : (hget s1.heap j).children = [] := by
        rw [hget_oob _ _ (by omega)]
      have h2 : (hget s2.heap j).children = [] := by
        rw [hget_oob _ _ (by omega)]
      refine ⟨e2, ?_, hm2⟩
      rw [he2, h2, h1]
  · intro i hi
    rw [o23 i (lt_of_lt_of_le hi l12), o12 i hi]

theorem StepRel_of_child {h0 : Heap}
    (hfwd : ∀ k, k < h0.length → ∀ j ∈ (hget h0 k).children, k < j ∧ j < h0.length)
    {elemId c : Nat} (helem : elemId < h0.length)
    (hc : c ∈ (hget h0 elemId).children) {s1 s2 : St}
    (h : StepRel h0 c s1 s2) : StepRel h0 elemId s1 s2 := by
  obtain ⟨l, f, d, o⟩ := h
  have hcb := hfwd elemId helem c hc
  refine ⟨l, ?_, ?_, o⟩
  · intro k hk hd
    exact f k hk (fun hdc => hd (Desc.step elemId c k hc hdc))
  · intro j hjN hjlt
    obtain ⟨e, he, hm⟩ := d j hjN hjlt
    refine ⟨e, he, ?_⟩
    intro i hi
    rcases hm i hi with h | ⟨hdi, _⟩
    · exact Or.inl h
    · refine Or.inr ⟨Desc.step elemId c i hc hdi, ?_⟩
      have := (Desc_le hfwd hdi hcb.2).1
      omega

/-! ## The general invariant through the primitive operations -/

theorem GenInv_openSecs_mem (h0 : Heap) (cp : String) (hdrs : List String) (st : St)
    (hGI : GenInv h0 cp hdrs st) (p : Nat × Int) (hp : p ∈ openSecs st) :
    h0.length ≤ p.1 ∧ p.1 < st.heap.length := by
  obtain ⟨_, _, _, _, _, _, _, _, hcur, hstk⟩ := hGI
  unfold openSecs at hp
  rcases List.mem_append.mp hp with hp | hp
  · cases hc : st.current_section with
    | none =>
        rw [hc] at hp
        simp at hp
    | some c =>
        rw [hc] at hp
        simp at hp
        rw [hp]
        exact hcur c hc
  · exact hstk p hp

theorem GenInv_popWhile (h0 : Heap) (cp : String) (hdrs : List String) (st : St)
    (L : Int) (hGI : GenInv h0 cp hdrs st) :
    GenInv h0 cp hdrs (popWhile st L) := by
  obtain ⟨w1, w2, w3, w4, w5⟩ := popWhile_weak st L
  obtain ⟨hlen, hcp, hhdrs, hnosec, htag, hattrs, hsecs, hkids, hcur, hstk⟩ := hGI
  refine ⟨?_, ?_, ?_, hnosec, ?_, ?_, ?_, ?_, ?_, ?_⟩
  · rw [w1]
    exact hlen
  · rw [w2]
    exact hcp
  · rw [w3]
    exact hhdrs
  · rw [w1]
    exact htag
  · rw [w1]
    exact hattrs
  · rw [w1]
    exact hsecs
  · rw [w1]
    exact hkids
  · intro c hc
    rw [w1]
    exact GenInv_openSecs_mem h0 cp hdrs st
      ⟨hlen, hcp, hhdrs, hnosec, htag, hattrs, hsecs, hkids, hcur, hstk⟩ _ (w4 c hc)
  · intro p hp
    rw [w1]
    exact GenInv_openSecs_mem h0 cp hdrs st
      ⟨hlen, hcp, hhdrs, hnosec, htag, hattrs, hsecs, hkids, hcur, hstk⟩ p (w5 p hp)

theorem GenInv_make_section (h0 : Heap) (cp : String) (hdrs : List String)
    (st : St) (header : Elem) (parent : Nat) (st2 : St) (sid : Nat)
    (hGI : GenInv h0 cp hdrs st) (hparN : parent < h0.length)
    (hHF : cssHasFreeB cp header = true)
    (hok : make_section st header parent = Except.ok (st2, sid)) :
    GenInv h0 cp hdrs st2 ∧ sid = st.heap.length ∧
    st2.section_stack = st.section_stack ∧ st2.current_section = st.current_section ∧
    st2.classPfx = st.classPfx ∧ st2.headers = st.headers ∧
    st2.heap.length = st.heap.length + 1 ∧
    (∀ k, k < st.heap.length → k ≠ parent → hget st2.heap k = hget st.heap k) ∧
    (hget st2.heap parent).children = (hget st.heap parent).children ++ [sid] ∧
    (hget st2.heap sid).children = [] ∧ (hget st2.heap sid).tag = "section" ∧
    (∀ i, i < st.heap.length → occTotal st2.heap i = occTotal st.heap i) := by
  obtain ⟨hlen, hcp, hhdrs, hnosec, htag, hattrs, hsecs, hkids, hcur, hstk⟩ := hGI
  have hpar : parent < st.heap.length := lt_of_lt_of_le hparN hlen
  obtain ⟨atts, hatts, hsid, f1, f2, f3, f4, f5, f6, f7, hlen2, hframe, hptag, hpattrs,
    hpkids, hsec⟩ := make_section_spec st header parent st2 sid hpar hok
  obtain ⟨atts2, hatts2, hrep, hsid2⟩ := make_section_ok st header parent st2 sid hok
  have hHF' : cssHasFreeB st.classPfx header = true := by
    rw [hcp]
    exact hHF
  subst hsid
  refine ⟨⟨?_, ?_, ?_, hnosec, ?_, ?_, ?_, ?_, ?_, ?_⟩, rfl, f1, f2, f4, f6, hlen2,
    hframe, hpkids, by rw [hsec], by rw [hsec], ?_⟩
  · rw [hlen2]
    omega
  · rw [f4]
    exact hcp
  · rw [f6]
    exact hhdrs
  · intro k hkN
    by_cases hkp : k = parent
    · subst hkp
      rw [hptag]
      exact htag k hkN
    · rw [hframe k (lt_of_lt_of_le hkN hlen) hkp]
      exact htag k hkN
  · intro k hkN
    by_cases hkp : k = parent
    · subst hkp
      rw [hpattrs]
      exact hattrs k hkN
    · rw [hframe k (lt_of_lt_of_le hkN hlen) hkp]
      exact hattrs k hkN
  · intro j hjN hjlt
    rw [hlen2] at hjlt
    by_cases hj : j = st.heap.length
    · subst hj
      refine ⟨by rw [hsec], Or.inl ⟨?_, ?_⟩⟩
      · rw [hasToks_of_hget hsec]
        exact List.filter_eq_nil_iff.mpr (fun t ht => by
          simp [newSection_tokens_hasfree st.classPfx header atts hHF' hatts t ht])
      · unfold secCount
        rw [hsec]
        rfl
    · have hjlt' : j < st.heap.length := by omega
      have hjp : j ≠ parent := by omega
      have hje : hget st2.heap j = hget st.heap j := hframe j hjlt' hjp
      obtain ⟨htagj, hhp⟩ := hsecs j hjN hjlt'
      refine ⟨by rw [hje]; exact htagj, HasProp_stable (by rw [hje]) (by rw [hje]) ?_ hhp⟩
      intro k hk
      have hklt := hkids j hjlt' k hk
      by_cases hkp : k = parent
      · subst hkp
        rw [hptag]
      · rw [hframe k hklt hkp]
  · intro j hjlt k hk
    rw [hlen2] at hjlt ⊢
    by_cases hj : j = st.heap.length
    · subst hj
      rw [hsec] at hk
      simp at hk
    · have hjlt' : j < st.heap.length := by omega
      by_cases hjp : j = parent
      · subst hjp
        rw [hpkids] at hk
        rcases List.mem_append.mp hk with hk | hk
        · have := hkids j hpar k hk
          omega
        · simp at hk
          omega
      · rw [hframe j hjlt' hjp] at hk
        have := hkids j hjlt' k hk
        omega
  · intro c hc
    rw [f2] at hc
    have := hcur c hc
    rw [hlen2]
    omega
  · intro p hp
    rw [f1] at hp
    have := hstk p hp
    rw [hlen2]
    omega
  · intro i hi
    have hh1 : st2.heap = (subElement st.heap parent ⟨"section", atts2, []⟩).1 := by
      rw [hrep]
    rw [hh1, occTotal_subElement st.heap parent _ hpar rfl i (by omega)]

/-- The exact effect of `add_element` with an arbitrary parent node when
it actually moves a child: the child is erased from the parent's child
list and appended to the innermost open (current) section's child list;
every other element and the total occurrence count of every id are
unchanged. -/
theorem add_element_move_gen (st : St) (c cs parentId : Nat) (st1 : St)
    (hcs : st.current_section = some cs) (hcsp : cs ≠ parentId) (hccs : c ≠ cs)
    (hcslt : cs < st.heap.length) (hplt : parentId < st.heap.length)
    (hmem : c ∈ (hget st.heap parentId).children)
    (hok : add_element st c parentId = Except.ok st1) :
    st1.heap.length = st.heap.length ∧
    (hget st1.heap parentId).children = (hget st.heap parentId).children.erase c ∧
    (hget st1.heap parentId).tag = (hget st.heap parentId).tag ∧
    (hget st1.heap parentId).attrs = (hget st.heap parentId).attrs ∧
    (hget st1.heap cs).children = (hget st.heap cs).children ++ [c] ∧
    (hget st1.heap cs).tag = (hget st.heap cs).tag ∧
    (hget st1.heap cs).attrs = (hget st.heap cs).attrs ∧
    (∀ k, k ≠ parentId → k ≠ cs → hget st1.heap k = hget st.heap k) ∧
    (∀ i, occTotal st1.heap i = occTotal st.heap i) ∧
    st1.current_section = st.current_section ∧
    st1.section_stack = st.section_stack ∧
    st1.headers = st.headers ∧ st1.classPfx = st.classPfx := by
  unfold add_element at hok
  have hne : (hget st.heap parentId).children ≠ [] := List.ne_nil_of_mem hmem
  rw [if_pos hne, if_pos hmem, hcs] at hok
  have hst1 := ((Except.ok.injEq _ _).mp hok).symm
  subst hst1
  set E0 := hget st.heap parentId with hE0
  set heap1 := hset st.heap parentId { E0 with children := E0.children.erase c } with hheap1
  have hlen1 : heap1.length = st.heap.length := length_hset _ _ _
  have hg1_0 : hget heap1 parentId = { E0 with children := E0.children.erase c } :=
    hget_hset_self _ _ _ hplt
  have hg1 : ∀ k, k ≠ parentId → hget heap1 k = hget st.heap k := by
    intro k hk
    exact hget_hset_ne _ _ _ _ (fun hh => hk hh.symm)
  set csE := hget heap1 cs with hcsE
  have hcsE' : csE = hget st.heap cs := hg1 cs hcsp
  set heap2 := hset heap1 cs { csE with children := csE.children ++ [c] } with hheap2
  have hcslt1 : cs < heap1.length := by rw [hlen1]; exact hcslt
  have hlen2 : heap2.length = st.heap.length := by
    rw [hheap2, length_hset, hlen1]
  have hg2_cs : hget heap2 cs = { csE with children := csE.children ++ [c] } :=
    hget_hset_self _ _ _ hcslt1
  have hg2_0 : hget heap2 parentId = { E0 with children := E0.children.erase c } := by
    rw [hheap2, hget_hset_ne _ _ _ _ hcsp, hg1_0]
  have hg2 : ∀ k, k ≠ parentId → k ≠ cs → hget heap2 k = hget st.heap k := by
    intro k hk0 hkcs
    rw [hheap2, hget_hset_ne _ _ _ _ (fun hh => hkcs hh.symm), hg1 k hk0]
  refine ⟨hlen2, ?_, ?_, ?_, ?_, ?_, ?_, hg2, ?_, hcs.symm, rfl, rfl, rfl⟩
  · rw [hg2_0]
  · rw [hg2_0]
  · rw [hg2_0]
  · rw [hg2_cs]
    show csE.children ++ [c] = _
    rw [hcsE']
  · rw [hg2_cs]
    show csE.tag = _
    rw [hcsE']
  · rw [hg2_cs]
    show csE.attrs = _
    rw [hcsE']
  · intro i
    show occTotal heap2 i = occTotal st.heap i
    rw [hheap2]
    have hkey2 := occTotal_hset heap1 cs { csE with children := csE.children ++ [c] } hcslt1 i
    have hkey1 := occTotal_hset st.heap parentId
      { E0 with children := E0.children.erase c } hplt i
    have hproj2 : ({ csE with children := csE.children ++ [c] } : Elem).children =
        csE.children ++ [c] := rfl
    have hproj1 : ({ E0 with children := E0.children.erase c } : Elem).children =
        E0.children.erase c := rfl
    rw [hproj2, List.count_append, ← hcsE] at hkey2
    rw [hproj1, ← hE0, ← hheap1] at hkey1
    by_cases hic : i = c
    · subst hic
      have hpos : E0.children.count i ≠ 0 := fun hz => (List.count_eq_zero.mp hz) hmem
      have herase : (E0.children.erase i).count i = E0.children.count i - 1 :=
        List.count_erase_self i E0.children
      have hone : ([i] : List Nat).count i = 1 := by simp
      rw [herase] at hkey1
      rw [hone] at hkey2
      omega
    · have herase : (E0.children.erase c).count i = E0.children.count i :=
        List.count_erase_of_ne hic E0.children
      have hzero : ([c] : List Nat).count i = 0 := by
        rw [List.count_eq_zero]
        simp
        omega
      rw [herase] at hkey1
      rw [hzero] at hkey2
      omega

theorem GenInv_add_element (h0 : Heap) (cp : String) (hdrs : List String)
    (st : St) (c cs parentId : Nat) (st1 : St)
    (hGI : GenInv h0 cp hdrs st)
    (hcs : st.current_section = some cs)
    (hcN : c < h0.length) (hparN : parentId < h0.length)
    (hctag : (hget h0 c).tag ≠ "section")
    (hmem : c ∈ (hget st.heap parentId).children)
    (hok : add_element st c parentId = Except.ok st1) :
    GenInv h0 cp hdrs st1 := by
  obtain ⟨hlen, hcp, hhdrs, hnosec, htag, hattrs, hsecs, hkids, hcur, hstk⟩ := hGI
  obtain ⟨hcsN, hcslt⟩ := hcur cs hcs
  have hcsp : cs ≠ parentId := by omega
  have hccs : c ≠ cs := by omega
  have hplt : parentId < st.heap.length := lt_of_lt_of_le hparN hlen
  obtain ⟨hlen1, hpk, hpt, hpa, hck, hct, hca, hframe, hocc, m1, m2, m3, m4⟩ :=
    add_element_move_gen st c cs parentId st1 hcs hcsp hccs hcslt hplt hmem hok
  have hctag' : (hget st1.heap c).tag ≠ "section" := by
    have hcp2 : c ≠ parentId ∨ c = parentId := by omega
    by_cases hcpar : c = parentId
    · rw [hcpar, hpt, ← hcpar]
      rw [htag c hcN]
      exact hctag
    · rw [hframe c hcpar hccs, htag c hcN]
      exact hctag
  have htagsame : ∀ k, k < st.heap.length →
      (hget st1.heap k).tag = (hget st.heap k).tag := by
    intro k _
    by_cases hk1 : k = parentId
    · rw [hk1, hpt]
    · by_cases hk2 : k = cs
      · rw [hk2, hct]
      · rw [hframe k hk1 hk2]
  refine ⟨?_, ?_, ?_, hnosec, ?_, ?_, ?_, ?_, ?_, ?_⟩
  · rw [hlen1]
    exact hlen
  · rw [m4]
    exact hcp
  · rw [m3]
    exact hhdrs
  · intro k hkN
    rw [htagsame k (lt_of_lt_of_le hkN hlen)]
    exact htag k hkN
  · intro k hkN
    by_cases hk1 : k = parentId
    · rw [hk1, hpa, ← hk1]
      exact hattrs k hkN
    · have hk2 : k ≠ cs := by omega
      rw [hframe k hk1 hk2]
      exact hattrs k hkN
  · intro j hjN hjlt
    rw [hlen1] at hjlt
    have hjp : j ≠ parentId := by omega
    obtain ⟨htagj, hhp⟩ := hsecs j hjN hjlt
    by_cases hjcs : j = cs
    · subst hjcs
      refine ⟨by rw [hct]; exact htagj, ?_⟩
      have htoks : hasToks st1.heap j = hasToks st.heap j := hasToks_stable hca
      have htags2 : ∀ k ∈ (hget st.heap j).children,
          (hget st1.heap k).tag = (hget st.heap k).tag := by
        intro k hk
        exact htagsame k (hkids j hjlt k hk)
      have hcnt : secCount st1.heap j = secCount st.heap j := by
        have := secCount_append hck htags2
        rw [this, if_neg hctag']
        omega
      unfold HasProp at hhp ⊢
      rw [htoks, hcnt]
      exact hhp
    · have hje : hget st1.heap j = hget st.heap j := hframe j hjp hjcs
      refine ⟨by rw [hje]; exact htagj,
        HasProp_stable (by rw [hje]) (by rw [hje]) ?_ hhp⟩
      intro k hk
      exact htagsame k (hkids j hjlt k hk)
  · intro j hjlt k hk
    rw [hlen1] at hjlt ⊢
    by_cases hj1 : j = parentId
    · rw [hj1, hpk] at hk
      have := hkids parentId hplt k (List.mem_of_mem_erase hk)
      omega
    · by_cases hj2 : j = cs
      · rw [hj2, hck] at hk
        rcases List.mem_append.mp hk with hk | hk
        · exact hkids cs hcslt k hk
        · simp at hk
          omega
      · rw [hframe j hj1 hj2] at hk
        exact hkids j hjlt k hk
  · intro c2 hc2
    rw [m1] at hc2
    have := hcur c2 hc2
    rw [hlen1]
    omega
  · intro p hp
    rw [m2] at hp
    have := hstk p hp
    rw [hlen1]
    omega

/-- The general invariant and heap-shape effect of `begin_section` with
an arbitrary input parent: a fresh childless `section` is allocated at
the old heap end and becomes current; it is appended either to the
parent's child list (top-level branch) or to the still-open section's
child list together with the `hasN` bump (nested branch); inputs other
than the parent are untouched and occurrence counts of old ids are
unchanged. -/
theorem GenInv_begin_section (h0 : Heap) (cp : String) (hdrs : List String)
    (st : St) (header : Elem) (parent : Nat) (st' : St)
    (hGI : GenInv h0 cp hdrs st) (hparN : parent < h0.length)
    (hHF : cssHasFreeB cp header = true)
    (hok : begin_section st header parent = Except.ok st') :
    GenInv h0 cp hdrs st' ∧
    ∃ sid, st'.current_section = some sid ∧ sid = st.heap.length ∧
      st'.heap.length = st.heap.length + 1 ∧
      (hget st'.heap sid).children = [] ∧ (hget st'.heap sid).tag = "section" ∧
      (∀ i, i < st.heap.length → occTotal st'.heap i = occTotal st.heap i) ∧
      (∀ k, k < h0.length → k ≠ parent → hget st'.heap k = hget st.heap k) ∧
      ((hget st'.heap parent).children = (hget st.heap parent).children ++ [sid] ∨
        (hget st'.heap parent).children = (hget st.heap parent).children) ∧
      (∀ j, h0.length ≤ j → j < st.heap.length →
        (hget st'.heap j).children = (hget st.heap j).children ∨
        (hget st'.heap j).children = (hget st.heap j).children ++ [sid]) := by
  cases hgl : get_level header with
  | error e =>
      unfold begin_section at hok
      rw [hgl] at hok
      simp [except_bind_err] at hok
  | ok L =>
      unfold begin_section at hok
      rw [hgl] at hok
      simp only [except_bind_ok] at hok
      obtain ⟨w1, w2, w3, w4, w5⟩ := popWhile_weak st L
      have hGIpw : GenInv h0 cp hdrs (popWhile st L) :=
        GenInv_popWhile h0 cp hdrs st L hGI
      set pw := popWhile st L with hpwdef
      cases hpc : pw.current_section with
      | none =>
          rw [hpc] at hok
          obtain ⟨pr, hms, hok2⟩ := except_bind_ok_inv hok
          obtain ⟨st1, sid⟩ := pr
          obtain ⟨hGI1, hsid, g3, g4, g5, g6, hlen1, hframe1, hpkids1, hsidk, hsidt,
            hocc1⟩ := GenInv_make_section h0 cp hdrs pw header parent st1 sid
              hGIpw hparN hHF hms
          have hst' := ((Except.ok.injEq _ _).mp hok2).symm
          subst hst'
          obtain ⟨hlen1', hcp1, hhdrs1, hnosec1, htag1, hattrs1, hsecs1, hkids1,
            hcur1, hstk1⟩ := hGI1
          have hsid' : sid = st.heap.length := by
            rw [hsid, w1]
          refine ⟨⟨hlen1', hcp1, hhdrs1, hnosec1, htag1, hattrs1, hsecs1, hkids1,
            ?_, ?_⟩, sid, rfl, hsid', ?_, ?_, ?_, ?_, ?_, ?_, ?_⟩
          · intro c2 hc2
            have hcc : some sid = some c2 := hc2
            cases hcc
            constructor
            · rw [hsid]
              exact hGIpw.1
            · rw [hsid, hlen1]
              omega
          · intro p hp
            have hp2 : p ∈ pw.section_stack := by
              rw [← g3]
              exact hp
            have := hGIpw.2.2.2.2.2.2.2.2.2 p hp2
            rw [hlen1] at *
            constructor
            · exact this.1
            · have := this.2
              rw [w1] at *
              omega
          · show st1.heap.length = _
            rw [hlen1, w1]
          · show (hget st1.heap sid).children = []
            exact hsidk
          · show (hget st1.heap sid).tag = "section"
            exact hsidt
          · intro i hi
            show occTotal st1.heap i = occTotal st.heap i
            rw [hocc1 i (by rw [w1]; exact hi), w1]
          · intro k hkN hkp
            show hget st1.heap k = hget st.heap k
            have hklt : k < pw.heap.length := by
              rw [w1]
              exact lt_of_lt_of_le hkN hGI.1
            rw [hframe1 k hklt hkp, w1]
          · left
            show (hget st1.heap parent).children = _
            rw [hpkids1, hsid, w1]
          · intro j hjN hjlt
            left
            show (hget st1.heap j).children = _
            have hjpw : j < pw.heap.length := by rw [w1]; exact hjlt
            have hjp : j ≠ parent := by omega
            rw [hframe1 j hjpw hjp, w1]
      | some cs =>
          rw [hpc] at hok
          obtain ⟨hcsN, hcslt⟩ := hGIpw.2.2.2.2.2.2.2.2.1 cs hpc
          have hcsp : cs ≠ parent := by omega
          obtain ⟨css2, hbump, hok2⟩ := except_bind_ok_inv hok
          obtain ⟨pr, hms, hok3⟩ := except_bind_ok_inv hok2
          obtain ⟨st1, sid⟩ := pr
          have hst' := ((Except.ok.injEq _ _).mp hok3).symm
          subst hst'
          obtain ⟨hlenp, hcpp, hhdrsp, hnosecp, htagp, hattrsp, hsecsp, hkidsp,
            hcurp, hstkp⟩ := hGIpw
          have hHFpw : cssHasFreeB pw.classPfx header = true := by
            rw [hcpp]
            exact hHF
          obtain ⟨hcstag, hcshp⟩ := hsecsp cs hcsN hcslt
          obtain ⟨n, hcnt, hfilt, hcne, hcns⟩ := bump_step pw.heap cs css2 hcshp hbump
          set csE2 : Elem := (hget pw.heap cs).setAttr "class" (pyJoin ' ' css2) with hcsE2
          set hu : Heap := hset pw.heap cs csE2 with hhu
          have hlenu : hu.length = pw.heap.length := length_hset _ _ _
          have hguc : hget hu cs = csE2 := hget_hset_self _ _ _ hcslt
          have hgu : ∀ k, k ≠ cs → hget hu k = hget pw.heap k := by
            intro k hk
            exact hget_hset_ne _ _ _ _ (fun hh => hk hh.symm)
          have hutoks : hasToks hu cs = ["has" ++ pyStrNat (n + 1)] := by
            rw [hhu, hcsE2, hasToks_set_class hcslt css2 hcne hcns, hfilt]
          have hutag : (hget hu cs).tag = (hget pw.heap cs).tag := by
            rw [hguc, hcsE2, setAttr_tag]
          have hukids : (hget hu cs).children = (hget pw.heap cs).children := by
            rw [hguc, hcsE2, setAttr_children]
          have hucnt : secCount hu cs = n := by
            rw [← hcnt]
            refine secCount_stable hukids ?_
            intro k hk
            by_cases hkcs : k = cs
            · subst hkcs
              exact hutag
            · rw [hgu k hkcs]
          have hpar2 : cs < (hu : Heap).length := by rw [hlenu]; exact hcslt
          obtain ⟨atts, hatts, hsid, m3, m4, m5, m6, m7, m8, m9, hlenm, hframe, hptag,
            hpattrs, hpkids, hsec⟩ := make_section_spec _ header cs st1 sid hpar2 hms
          obtain ⟨atts2, hatts2, hrep, hsid2⟩ := make_section_ok _ header cs st1 sid hms
          rw [hlenu] at hlenm
          have hsid' : sid = pw.heap.length := by rw [hsid, hlenu]
          have hattscp : sectionAtts pw.classPfx header = Except.ok atts := hatts
          have hinframe : ∀ k, k < h0.length → hget st1.heap k = hget pw.heap k := by
            intro k hkN
            have hkcs : k ≠ cs := by omega
            have hklt : k < hu.length := by
              rw [hlenu]
              exact lt_of_lt_of_le hkN hlenp
            rw [hframe k hklt hkcs, hgu k hkcs]
          refine ⟨⟨?_, ?_, ?_, hnosecp, ?_, ?_, ?_, ?_, ?_, ?_⟩,
            sid, rfl, by rw [hsid', w1], by show st1.heap.length = _; rw [hlenm, w1],
            by show (hget st1.heap sid).children = []; rw [hsec],
            by show (hget st1.heap sid).tag = "section"; rw [hsec], ?_, ?_, ?_, ?_⟩
          · show h0.length ≤ st1.heap.length
            rw [hlenm]
            omega
          · show st1.classPfx = cp
            rw [m6, hcpp]
          · show st1.headers = hdrs
            rw [m8, hhdrsp]
          · intro k hkN
            show (hget st1.heap k).tag = _
            rw [hinframe k hkN]
            exact htagp k hkN
          · intro k hkN
            show (hget st1.heap k).attrs = _
            rw [hinframe k hkN]
            exact hattrsp k hkN
          · intro j hjN hjlt
            show (hget st1.heap j).tag = "section" ∧ HasProp st1.heap j
            rw [hlenm] at hjlt
            have htagsu : ∀ j', j' < pw.heap.length →
                ∀ k ∈ (hget hu j').children, (hget st1.heap k).tag = (hget hu k).tag := by
              intro j' hj' k hk
              have hkmem : k ∈ (hget pw.heap j').children := by
                by_cases hjcs : j' = cs
                · subst hjcs
                  rw [← hukids]
                  exact hk
                · rw [← hgu j' hjcs]
                  exact hk
              have hklt : k < pw.heap.length := hkidsp j' hj' k hkmem
              have hkltu : k < hu.length := by rw [hlenu]; exact hklt
              by_cases hkcs : k = cs
              · subst hkcs
                exact hptag
              · rw [hframe k hkltu hkcs]
            by_cases hjsid : j = pw.heap.length
            · subst hjsid
              rw [← hsid']
              refine ⟨by rw [hsec], Or.inl ⟨?_, ?_⟩⟩
              · rw [hasToks_of_hget hsec]
                exact List.filter_eq_nil_iff.mpr (fun t ht => by
                  simp [newSection_tokens_hasfree pw.classPfx header atts hHFpw hattscp t ht])
              · unfold secCount
                rw [hsec]
                rfl
            · have hjlt' : j < pw.heap.length := by omega
              have hjltu : j < hu.length := by rw [hlenu]; exact hjlt'
              by_cases hjcs : j = cs
              · subst hjcs
                have hjattrs : (hget st1.heap j).attrs = (hget hu j).attrs := hpattrs
                have hjkids : (hget st1.heap j).children = (hget hu j).children ++ [sid] :=
                  hpkids
                refine ⟨by rw [hptag, hutag]; exact hcstag, Or.inr ⟨n + 1, ?_, ?_⟩⟩
                · rw [hasToks_stable hjattrs, hutoks]
                · have := secCount_append hjkids (htagsu j hcslt)
                  rw [this, hucnt, hsec]
                  simp
              · have helem : hget st1.heap j = hget hu j :=
                  hframe j hjltu hjcs
                have helem2 : hget hu j = hget pw.heap j := hgu j hjcs
                obtain ⟨htagj, hhpj⟩ := hsecsp j hjN hjlt'
                refine ⟨by rw [helem, helem2]; exact htagj, ?_⟩
                refine HasProp_stable (by rw [helem, helem2]) (by rw [helem, helem2]) ?_ hhpj
                intro k hk
                have hklt := hkidsp j hjlt' k hk
                have hkltu : k < hu.length := by rw [hlenu]; exact hklt
                by_cases hkcs : k = cs
                · subst hkcs
                  exact hptag.trans hutag
                · rw [hframe k hkltu hkcs, hgu k hkcs]
          · intro j hjlt k hk
            show k < st1.heap.length
            have hjlt2 : j < st1.heap.length := hjlt
            rw [hlenm] at hjlt2 ⊢
            by_cases hjsid : j = pw.heap.length
            · subst hjsid
              rw [← hsid', hsec] at hk
              simp at hk
            · have hjlt' : j < pw.heap.length := by omega
              have hjltu : j < hu.length := by rw [hlenu]; exact hjlt'
              by_cases hjcs : j = cs
              · subst hjcs
                rw [hpkids] at hk
                rcases List.mem_append.mp hk with hk | hk
                · rw [hukids] at hk
                  have := hkidsp j hcslt k hk
                  omega
                · simp at hk
                  omega
              · rw [hframe j hjltu hjcs, hgu j hjcs] at hk
                have := hkidsp j hjlt' k hk
                omega
          · intro c2 hc2
            have hcc : some sid = some c2 := hc2
            cases hcc
            rw [hsid', hlenm]
            exact ⟨hlenp, by omega⟩
          · intro p hp
            have hps : p ∈ (cs, pw.current_level) :: pw.section_stack := by
              have hm3 : st1.section_stack =
                  (cs, pw.current_level) :: pw.section_stack := m3
              rw [← hm3]
              exact hp
            show h0.length ≤ p.1 ∧ p.1 < st1.heap.length
            rw [hlenm]
            rcases List.mem_cons.mp hps with rfl | hps
            · exact ⟨hcsN, by omega⟩
            · obtain ⟨hn, hl⟩ := hstkp p hps
              exact ⟨hn, by omega⟩
          · intro i hi
            show occTotal st1.heap i = occTotal st.heap i
            have hh1 : st1.heap = (subElement hu cs ⟨"section", atts2, []⟩).1 := by
              rw [hrep]
            have hine : i ≠ hu.length := by
              rw [hlenu, w1]
              omega
            have hocc_u : occTotal hu i = occTotal pw.heap i := by
              have hkey := occTotal_hset pw.heap cs csE2 hcslt i
              have hch : csE2.children = (hget pw.heap cs).children := by
                rw [hcsE2, setAttr_children]
              rw [hch, ← hhu] at hkey
              omega
            rw [hh1, occTotal_subElement hu cs _ hpar2 rfl i hine, hocc_u, w1]
          · intro k hkN _
            show hget st1.heap k = hget st.heap k
            rw [hinframe k hkN, w1]
          · right
            show (hget st1.heap parent).children = _
            have hparpwN : parent < h0.length := hparN
            rw [hinframe parent hparpwN, w1]
          · intro j hjN hjlt
            have hjpw : j < pw.heap.length := by rw [w1]; exact hjlt
            have hju : j < hu.length := by rw [hlenu]; exact hjpw
            by_cases hjcs : j = cs
            · subst hjcs
              right
              show (hget st1.heap j).children = _
              rw [hpkids, hguc, hcsE2, setAttr_children, w1]
            · left
              show (hget st1.heap j).children = _
              rw [hframe j hju hjcs, hgu j hjcs, w1]

/-! ## Helpers for the general assemble induction -/

theorem filter_extra_nil (h0 : Heap)
    (hfwd : ∀ k, k < h0.length → ∀ j ∈ (hget h0 k).children, k < j ∧ j < h0.length)
    (huniq : ∀ i, i < h0.length → occTotal h0 i ≤ 1)
    (elemId c : Nat) (helem : elemId < h0.length) (hc : c ∈ (hget h0 elemId).children)
    (extra : List Nat)
    (hcls : ∀ i ∈ extra, h0.length ≤ i ∨ (Desc h0 c i ∧ i ≠ c)) :
    extra.filter (fun k => decide (k ∈ (hget h0 elemId).children)) = [] := by
  rw [List.filter_eq_nil_iff]
  intro a ha
  simp only [decide_eq_true_eq]
  intro hmem
  rcases hcls a ha with h | ⟨hd, hne⟩
  · have := (hfwd elemId helem a hmem).2
    omega
  · exact pdesc_not_mem_children hfwd huniq helem hc hd hne hmem

theorem StepRel_mem_children {h0 : Heap} {elemId : Nat} {s1 s2 : St}
    (h : StepRel h0 elemId s1 s2) {j i : Nat} (hjN : h0.length ≤ j)
    (hjlt2 : j < s2.heap.length)
    (hm : i ∈ (hget s1.heap j).children) : i ∈ (hget s2.heap j).children := by
  obtain ⟨_, _, d, _⟩ := h
  obtain ⟨e, he, _⟩ := d j hjN hjlt2
  rw [he]
  exact List.mem_append.mpr (Or.inl hm)

theorem add_element_none_error (st : St) (c parentId : Nat) (st1 : St)
    (hmem : c ∈ (hget st.heap parentId).children)
    (hcs : st.current_section = none) :
    add_element st c parentId ≠ Except.ok st1 := by
  intro hok
  unfold add_element at hok
  rw [if_pos (List.ne_nil_of_mem hmem), if_pos hmem, hcs] at hok
  simp at hok

theorem StepRel_begin (h0 : Heap) (elemId : Nat) (st stb : St) (sid : Nat)
    (helem0 : h0.length ≤ st.heap.length)
    (hsidlen : sid = st.heap.length)
    (hblen : stb.heap.length = st.heap.length + 1)
    (hbocc : ∀ i, i < st.heap.length → occTotal stb.heap i = occTotal st.heap i)
    (hbframe : ∀ k, k < h0.length → k ≠ elemId → hget stb.heap k = hget st.heap k)
    (hbkids : ∀ j, h0.length ≤ j → j < st.heap.length →
      (hget stb.heap j).children = (hget st.heap j).children ∨
      (hget stb.heap j).children = (hget st.heap j).children ++ [sid])
    (hsidk : (hget stb.heap sid).children = []) :
    StepRel h0 elemId st stb := by
  refine ⟨by omega, ?_, ?_, hbocc⟩
  · intro k hk hd
    refine hbframe k hk ?_
    intro heq
    subst heq
    exact hd (Desc.refl k)
  · intro j hjN hjlt
    by_cases hjlt' : j < st.heap.length
    · rcases hbkids j hjN hjlt' with h | h
      · exact ⟨[], by rw [h, List.append_nil], by simp⟩
      · refine ⟨[sid], h, ?_⟩
        intro i hi
        simp at hi
        subst hi
        left
        omega
    · have hj : j = sid := by
        rw [hblen] at hjlt
        omega
      rw [hj]
      refine ⟨[], ?_, by simp⟩
      rw [hsidk, hget_oob st.heap sid (by omega), List.append_nil]

theorem StepRel_add (h0 : Heap) (elemId : Nat) (st st1 : St) (c cs : Nat)
    (hcmem : c ∈ (hget h0 elemId).children) (hcne : c ≠ elemId)
    (helem : elemId < h0.length)
    (hlen1 : st1.heap.length = st.heap.length)
    (hocc : ∀ i, occTotal st1.heap i = occTotal st.heap i)
    (hframe : ∀ k, k ≠ elemId → k ≠ cs → hget st1.heap k = hget st.heap k)
    (hcsN : h0.length ≤ cs)
    (hck : (hget st1.heap cs).children = (hget st.heap cs).children ++ [c]) :
    StepRel h0 elemId st st1 := by
  refine ⟨by omega, ?_, ?_, fun i _ => hocc i⟩
  · intro k hk hd
    refine hframe k ?_ (by omega)
    intro heq
    subst heq
    exact hd (Desc.refl k)
  · intro j hjN hjlt
    rw [hlen1] at hjlt
    by_cases hjcs : j = cs
    · subst hjcs
      refine ⟨[c], hck, ?_⟩
      intro i hi
      simp at hi
      subst hi
      exact Or.inr ⟨Desc_child hcmem, hcne⟩
    · have hje : hget st1.heap j = hget st.heap j := by
        refine hframe j (by omega) hjcs
      exact ⟨[], by rw [hje, List.append_nil], by simp⟩

/-- One pass of the assemble loop on an arbitrary node of a well-formed
document preserves the loop invariant and realizes `StepRel`, given that
the recursive calls do so (`hrec`). -/
theorem assembleLoop_gen (h0 : Heap) (cp : String) (hdrs : List String) (f : Nat)
    (hfwd : ∀ k, k < h0.length → ∀ j ∈ (hget h0 k).children, k < j ∧ j < h0.length)
    (huniq : ∀ i, i < h0.length → occTotal h0 i ≤ 1)
    (hnosecdoc : ∀ k, k < h0.length → (hget h0 k).tag ≠ "section")
    (hHF : ∀ k, k < h0.length → (hget h0 k).tag ∈ hdrs →
      cssHasFreeB cp (hget h0 k) = true)
    (hrec : ∀ st2 c st3, GenInv h0 cp hdrs st2 → c < h0.length →
      (∀ k, k < h0.length → Desc h0 c k → hget st2.heap k = hget h0 k) →
      (∀ i, i < h0.length → occTotal st2.heap i = occTotal h0 i) →
      assembleF f st2 c = Except.ok st3 →
      GenInv h0 cp hdrs st3 ∧ StepRel h0 c st2 st3) :
    ∀ (remaining processed : List Nat) (sv : Option Nat) (st st' : St) (elemId : Nat),
    elemId < h0.length →
    (hget h0 elemId).children = processed ++ remaining →
    GLoopInv h0 cp hdrs elemId processed remaining sv st →
    assembleLoop (fun st2 c => assembleF f st2 c) elemId remaining sv st =
      Except.ok st' →
    ∃ sv2, GLoopInv h0 cp hdrs elemId (processed ++ remaining) [] sv2 st' ∧
      StepRel h0 elemId st st' := by
  intro remaining
  induction remaining with
  | nil =>
      intro processed sv st st' elemId helem hsplit hInv hok
      unfold assembleLoop at hok
      have hst := (Except.ok.injEq _ _).mp hok
      subst hst
      refine ⟨sv, ?_, StepRel_refl h0 elemId st⟩
      rw [List.append_nil]
      exact hInv
  | cons c rest ih =>
      intro processed sv st st' elemId helem hsplit hInv hok
      obtain ⟨hGI, hocc, hfilt, hunt, hnd, hmemI, keep, tops, hroot, htops, hcase⟩ := hInv
      have hlenG : h0.length ≤ st.heap.length := hGI.1
      have hhdrsG : st.headers = hdrs := hGI.2.2.1
      have hcurG := hGI.2.2.2.2.2.2.2.2.1
      have hcmem : c ∈ (hget h0 elemId).children := hmemI c (by simp)
      obtain ⟨helc, hclen⟩ := hfwd elemId helem c hcmem
      have huntc : hget st.heap c = hget h0 c :=
        hunt c hclen ⟨c, by simp, Desc.refl c⟩
      have hctagd : (hget h0 c).tag ≠ "section" := hnosecdoc c hclen
      have hcne : c ≠ elemId := by omega
      have hndall : (hget h0 elemId).children.Nodup :=
        children_nodup h0 elemId helem
          (fun x hx => huniq x (hfwd elemId helem x hx).2)
      have hcnotproc : c ∉ processed := by
        have hnd2 := hndall
        rw [hsplit] at hnd2
        have hdisj := List.disjoint_of_nodup_append hnd2
        intro hcp2
        exact hdisj hcp2 (by simp)
      have hcnotkeep : c ∉ keep := by
        intro hk
        apply hcnotproc
        rcases hcase with ⟨_, hkeq, _, _⟩ | ⟨hd, post, hpeq, _, _, _, _⟩
        · rw [← hkeq]
          exact hk
        · rw [hpeq]
          exact List.mem_append.mpr (Or.inl hk)
      have hcnotrest : c ∉ rest := (List.nodup_cons.mp hnd).1
      have hndrest : rest.Nodup := (List.nodup_cons.mp hnd).2
      have hmemrest : ∀ x ∈ rest, x ∈ (hget h0 elemId).children :=
        fun x hx => hmemI x (by simp [hx])
      have hsib : ∀ c2 ∈ rest, ∀ k, Desc h0 c2 k → ¬ Desc h0 c k := by
        intro c2 hc2 k hd2 hdc
        have hcc2 : c ≠ c2 := by
          intro h
          rw [← h] at hc2
          exact hcnotrest hc2
        exact Desc_sibling_disjoint hfwd huniq helem hcmem (hmemrest c2 hc2) hcc2 hdc hd2
      have hnotdesc_elem : ¬ Desc h0 c elemId := by
        intro hd
        have := (Desc_le hfwd hd hclen).1
        omega
      have hcmem_st : c ∈ (hget st.heap elemId).children := by
        rw [hroot]
        simp
      unfold assembleLoop at hok
      by_cases htagc : (hget st.heap c).tag ∈ st.headers
      · -- recognized heading: begin_section, then move the heading itself
        rw [if_pos htagc] at hok
        have htagh : (hget h0 c).tag ∈ hdrs := by
          rw [← huntc, ← hhdrsG]
          exact htagc
        obtain ⟨stb, hbeg, hok2⟩ := except_bind_ok_inv hok
        have hHFc : cssHasFreeB cp (hget st.heap c) = true := by
          rw [huntc]
          exact hHF c hclen htagh
        obtain ⟨hGIb, sid, hbcur, hsidlen, hblen, hsidk, hsidt, hbocc, hbframe, hbpar,
          hbkids⟩ := GenInv_begin_section h0 cp hdrs st _ elemId stb hGI helem hHFc hbeg
        have hsb : stb.current_section.isSome = true := by
          rw [hbcur]
          rfl
        simp only [except_bind_ok] at hok2
        rw [if_pos hsb] at hok2
        obtain ⟨st3, hadd, hok3⟩ := except_bind_ok_inv hok2
        have hsidN : h0.length ≤ sid := by omega
        have hsidne : sid ≠ elemId := by omega
        have hcneSid : c ≠ sid := by omega
        have hsidltb : sid < stb.heap.length := by omega
        have helemltb : elemId < stb.heap.length := by omega
        have hcmemb : c ∈ (hget stb.heap elemId).children := by
          rcases hbpar with hb | hb
          · rw [hb]
            exact List.mem_append.mpr (Or.inl hcmem_st)
          · rw [hb]
            exact hcmem_st
        obtain ⟨hlen3, hpk3, hpt3, hpa3, hck3, hct3, hca3, hframe3, hocc3, m1, m2, m3,
          m4⟩ := add_element_move_gen stb c sid elemId st3 hbcur hsidne hcneSid hsidltb
            helemltb hcmemb hadd
        have hGI3 : GenInv h0 cp hdrs st3 :=
          GenInv_add_element h0 cp hdrs stb c sid elemId st3 hGIb hbcur hclen helem
            hctagd hcmemb hadd
        have huntc3 : hget st3.heap c = hget h0 c := by
          rw [hframe3 c hcne hcneSid, hbframe c hclen hcne, huntc]
        have hrel1 : StepRel h0 elemId st stb :=
          StepRel_begin h0 elemId st stb sid hlenG hsidlen hblen hbocc hbframe hbkids hsidk
        have hrel2 : StepRel h0 elemId stb st3 :=
          StepRel_add h0 elemId stb st3 c sid hcmem hcne helem hlen3 hocc3 hframe3
            hsidN hck3
        have hrel12 := StepRel_trans hrel1 hrel2
        have hocc3' : ∀ i, i < h0.length → occTotal st3.heap i = occTotal h0 i := by
          intro i hi
          rw [hocc3 i, hbocc i (by omega), hocc i hi]
        have hunt3 : ∀ k, k < h0.length → (∃ c2 ∈ c :: rest, Desc h0 c2 k) →
            hget st3.heap k = hget h0 k := by
          rintro k hk ⟨c2, hc2, hd2⟩
          have helk : elemId < c2 := (hfwd elemId helem c2 (hmemI c2 hc2)).1
          have hkge := Desc_le hfwd hd2 (hfwd elemId helem c2 (hmemI c2 hc2)).2
          have hkne : k ≠ elemId := by omega
          have hknesid : k ≠ sid := by omega
          rw [hframe3 k hkne hknesid, hbframe k hk hkne]
          exact hunt k hk ⟨c2, hc2, hd2⟩
        have hkc3 : (hget st3.heap sid).children = [c] := by
          rw [hck3, hsidk]
          rfl
        have hstep : ∃ st4, GenInv h0 cp hdrs st4 ∧ StepRel h0 c st3 st4 ∧
            assembleLoop (fun st2 c2 => assembleF f st2 c2) elemId rest
              stb.current_section st4 = Except.ok st' := by
          by_cases hne4 : (hget st3.heap c).children.length ≠ 0
          · rw [if_pos hne4] at hok3
            obtain ⟨st4, hrec4, hok4⟩ := except_bind_ok_inv hok3
            obtain ⟨hGI4, hrel4⟩ := hrec st3 c st4 hGI3 hclen
              (fun k hk hd => hunt3 k hk ⟨c, by simp, hd⟩) hocc3' hrec4
            exact ⟨st4, hGI4, hrel4, hok4⟩
          · rw [if_neg hne4] at hok3
            exact ⟨st3, hGI3, StepRel_refl h0 c st3, hok3⟩
        obtain ⟨st4, hGI4, hrel4, hok4⟩ := hstep
        have hrelc4 : StepRel h0 elemId st3 st4 := StepRel_of_child hfwd helem hcmem hrel4
        have hrelTot : StepRel h0 elemId st st4 := StepRel_trans hrel12 hrelc4
        obtain ⟨l4, f4frame, d4, o4⟩ := hrel4
        have hsidlt4 : sid < st4.heap.length := by omega
        have helem4 : hget st4.heap elemId = hget st3.heap elemId :=
          f4frame elemId helem hnotdesc_elem
        obtain ⟨tops2, hroot3, htops2⟩ :
            ∃ tops2, (hget st3.heap elemId).children = keep ++ rest ++ tops2 ∧
              ∀ t ∈ tops2, h0.length ≤ t := by
          rcases hbpar with hb | hb
          · refine ⟨tops ++ [sid], ?_, ?_⟩
            · rw [hpk3, hb, hroot]
              have h1 : ((keep ++ (c :: rest) ++ tops) ++ [sid] : List Nat) =
                  keep ++ c :: (rest ++ (tops ++ [sid])) := by simp
              rw [h1, erase_keep_cons keep _ c hcnotkeep]
              simp
            · intro t ht
              rcases List.mem_append.mp ht with ht | ht
              · exact htops t ht
              · simp at ht
                rw [ht]
                omega
          · refine ⟨tops, ?_, htops⟩
            rw [hpk3, hb, hroot]
            have h1 : ((keep ++ (c :: rest) ++ tops) : List Nat) =
                keep ++ c :: (rest ++ tops) := by simp
            rw [h1, erase_keep_cons keep _ c hcnotkeep]
            simp
        have htransport : ∀ i j, h0.length ≤ j → j < st.heap.length →
            i ∈ (hget st.heap j).children → i ∈ (hget st4.heap j).children := by
          intro i j hjN hjlt hm
          have hjsid : j ≠ sid := by omega
          have hj0 : j ≠ elemId := by omega
          have hm3 : i ∈ (hget st3.heap j).children := by
            rw [hframe3 j hj0 hjsid]
            rcases hbkids j hjN hjlt with hb2 | hb2
            · rw [hb2]
              exact hm
            · rw [hb2]
              exact List.mem_append.mpr (Or.inl hm)
          obtain ⟨extra, hx, _⟩ := d4 j hjN (by omega)
          rw [hx]
          exact List.mem_append.mpr (Or.inl hm3)
        have hcsid4 : c ∈ (hget st4.heap sid).children := by
          obtain ⟨extra, hx, _⟩ := d4 sid hsidN hsidlt4
          rw [hx, hkc3]
          simp
        have hInv4 : GLoopInv h0 cp hdrs elemId (processed ++ [c]) rest
            stb.current_section st4 := by
          refine ⟨hGI4, ?_, ?_, ?_, hndrest, hmemrest, keep, tops2, ?_, htops2,
            Or.inr ?_⟩
          · intro i hi
            rw [o4 i (by omega), hocc3' i hi]
          · intro j hjN hjlt4
            obtain ⟨extra, hx, hxcls⟩ := d4 j hjN hjlt4
            rw [hx, List.filter_append,
              filter_extra_nil h0 hfwd huniq elemId c helem hcmem extra hxcls,
              List.append_nil]
            by_cases hjlt3 : j < st3.heap.length
            · by_cases hjsid : j = sid
              · rw [hjsid, hkc3, filter_mem_singleton (by simp [hcmem])]
                exact (List.nil_sublist processed).append (List.Sublist.refl [c])
              · have hjne : j ≠ st.heap.length := by
                  rw [← hsidlen]
                  exact hjsid
                have hjlt' : j < st.heap.length := by
                  rw [hlen3, hblen] at hjlt3
                  omega
                have hj0 : j ≠ elemId := by omega
                rw [hframe3 j hj0 hjsid]
                rcases hbkids j hjN hjlt' with hb2 | hb2
                · rw [hb2]
                  exact (hfilt j hjN hjlt').trans (List.sublist_append_left _ _)
                · rw [hb2, List.filter_append,
                    filter_not_singleton (by
                      simp only [decide_eq_false_iff_not]
                      intro hm
                      have := (hfwd elemId helem sid hm).2
                      omega),
                    List.append_nil]
                  exact (hfilt j hjN hjlt').trans (List.sublist_append_left _ _)
            · have hempty : (hget st3.heap j).children = [] := by
                rw [hget_oob st3.heap j (by omega)]
              rw [hempty, List.filter_nil]
              exact List.nil_sublist _
          · rintro k hk ⟨c2, hc2, hd2⟩
            have h4 : hget st4.heap k = hget st3.heap k :=
              f4frame k hk (hsib c2 hc2 k hd2)
            rw [h4]
            exact hunt3 k hk ⟨c2, by simp [hc2], hd2⟩
          · rw [helem4]
            exact hroot3
          · rcases hcase with ⟨hsvn, hkeq, htn, hprop⟩ |
              ⟨hd, post, hpeq, hkprop, hhdt, hsvs, hmoved⟩
            · refine ⟨c, [], by rw [hkeq], by rw [hkeq]; exact hprop, htagh, hsb, ?_⟩
              intro i hi
              simp at hi
              rw [hi]
              exact ⟨sid, hsidN, hsidlt4, hcsid4⟩
            · refine ⟨hd, post ++ [c], by rw [hpeq]; simp, hkprop, hhdt, hsb, ?_⟩
              intro i hi
              rcases List.mem_cons.mp hi with rfl | hi2
              · obtain ⟨j, hjN, hjlt, hm⟩ := hmoved i (by simp)
                exact ⟨j, hjN, by omega, htransport i j hjN hjlt hm⟩
              rcases List.mem_append.mp hi2 with hi3 | hi3
              · obtain ⟨j, hjN, hjlt, hm⟩ := hmoved i (by simp [hi3])
                exact ⟨j, hjN, by omega, htransport i j hjN hjlt hm⟩
              · simp at hi3
                rw [hi3]
                exact ⟨sid, hsidN, hsidlt4, hcsid4⟩
        obtain ⟨sv2, hInv', hrelLoop⟩ := ih (processed ++ [c]) stb.current_section st4
          st' elemId helem (by rw [hsplit]; simp) hInv4 hok4
        have heq : (processed ++ [c]) ++ rest = processed ++ c :: rest := by simp
        rw [heq] at hInv'
        exact ⟨sv2, hInv', StepRel_trans hrelTot hrelLoop⟩
      · -- not a recognized heading
        rw [if_neg htagc] at hok
        have htagh : (hget h0 c).tag ∉ hdrs := by
          rw [← huntc, ← hhdrsG]
          exact htagc
        simp only [except_bind_ok] at hok
        by_cases hsv : sv.isSome = true
        · rw [if_pos hsv] at hok
          obtain ⟨st3, hadd, hok3⟩ := except_bind_ok_inv hok
          rcases hcase with ⟨hsvn, _, _, _⟩ |
            ⟨hd, post, hpeq, hkprop, hhdt, hsvs, hmoved⟩
          · rw [hsvn] at hsv
            simp at hsv
          cases hcs : st.current_section with
          | none =>
              exact absurd hadd (add_element_none_error st c elemId st3 hcmem_st hcs)
          | some curId =>
              obtain ⟨hcurN, hcurlt⟩ := hcurG curId hcs
              have hcurne : curId ≠ elemId := by omega
              have hcneCur : c ≠ curId := by omega
              have helemlt : elemId < st.heap.length := by omega
              obtain ⟨hlen3, hpk3, hpt3, hpa3, hck3, hct3, hca3, hframe3, hocc3, m1, m2,
                m3, m4⟩ := add_element_move_gen st c curId elemId st3 hcs hcurne hcneCur
                  hcurlt helemlt hcmem_st hadd
              have hGI3 : GenInv h0 cp hdrs st3 :=
                GenInv_add_element h0 cp hdrs st c curId elemId st3 hGI hcs hclen helem
                  hctagd hcmem_st hadd
              have hrel12 : StepRel h0 elemId st st3 :=
                StepRel_add h0 elemId st st3 c curId hcmem hcne helem hlen3 hocc3
                  hframe3 hcurN hck3
              have hocc3' : ∀ i, i < h0.length → occTotal st3.heap i = occTotal h0 i := by
                intro i hi
                rw [hocc3 i, hocc i hi]
              have hunt3 : ∀ k, k < h0.length → (∃ c2 ∈ c :: rest, Desc h0 c2 k) →
                  hget st3.heap k = hget h0 k := by
                rintro k hk ⟨c2, hc2, hd2⟩
                have helk : elemId < c2 := (hfwd elemId helem c2 (hmemI c2 hc2)).1
                have hkge := Desc_le hfwd hd2 (hfwd elemId helem c2 (hmemI c2 hc2)).2
                have hkne : k ≠ elemId := by omega
                have hknecur : k ≠ curId := by omega
                rw [hframe3 k hkne hknecur]
                exact hunt k hk ⟨c2, hc2, hd2⟩
              have huntc3 : hget st3.heap c = hget h0 c := by
                rw [hframe3 c hcne hcneCur, huntc]
              have hstep : ∃ st4, GenInv h0 cp hdrs st4 ∧ StepRel h0 c st3 st4 ∧
                  assembleLoop (fun st2 c2 => assembleF f st2 c2) elemId rest sv st4 =
                    Except.ok st' := by
                by_cases hne4 : (hget st3.heap c).children.length ≠ 0
                · rw [if_pos hne4] at hok3
                  obtain ⟨st4, hrec4, hok4⟩ := except_bind_ok_inv hok3
                  obtain ⟨hGI4, hrel4⟩ := hrec st3 c st4 hGI3 hclen
                    (fun k hk hd => hunt3 k hk ⟨c, by simp, hd⟩) hocc3' hrec4
                  exact ⟨st4, hGI4, hrel4, hok4⟩
                · rw [if_neg hne4] at hok3
                  exact ⟨st3, hGI3, StepRel_refl h0 c st3, hok3⟩
              obtain ⟨st4, hGI4, hrel4, hok4⟩ := hstep
              have hrelc4 : StepRel h0 elemId st3 st4 :=
                StepRel_of_child hfwd helem hcmem hrel4
              have hrelTot : StepRel h0 elemId st st4 := StepRel_trans hrel12 hrelc4
              obtain ⟨l4, f4frame, d4, o4⟩ := hrel4
              have hcurlt4 : curId < st4.heap.length := by omega
              have helem4 : hget st4.heap elemId = hget st3.heap elemId :=
                f4frame elemId helem hnotdesc_elem
              have hroot3 : (hget st3.heap elemId).children = keep ++ rest ++ tops := by
                rw [hpk3, hroot]
                have h1 : ((keep ++ (c :: rest) ++ tops) : List Nat) =
                    keep ++ c :: (rest ++ tops) := by simp
                rw [h1, erase_keep_cons keep _ c hcnotkeep]
                simp
              have htransport : ∀ i j, h0.length ≤ j → j < st.heap.length →
                  i ∈ (hget st.heap j).children → i ∈ (hget st4.heap j).children := by
                intro i j hjN hjlt hm
                have hm3 : i ∈ (hget st3.heap j).children := by
                  by_cases hjcur : j = curId
                  · rw [hjcur, hck3]
                    rw [hjcur] at hm
                    exact List.mem_append.mpr (Or.inl hm)
                  · have hj0 : j ≠ elemId := by omega
                    rw [hframe3 j hj0 hjcur]
                    exact hm
                obtain ⟨extra, hx, _⟩ := d4 j hjN (by omega)
                rw [hx]
                exact List.mem_append.mpr (Or.inl hm3)
              have hccur4 : c ∈ (hget st4.heap curId).children := by
                obtain ⟨extra, hx, _⟩ := d4 curId hcurN hcurlt4
                rw [hx, hck3]
                simp
              have hInv4 : GLoopInv h0 cp hdrs elemId (processed ++ [c]) rest sv st4 := by
                refine ⟨hGI4, ?_, ?_, ?_, hndrest, hmemrest, keep, tops, ?_, htops,
                  Or.inr ⟨hd, post ++ [c], by rw [hpeq]; simp, hkprop, hhdt, hsvs, ?_⟩⟩
                · intro i hi
                  rw [o4 i (by omega), hocc3' i hi]
                · intro j hjN hjlt4
                  obtain ⟨extra, hx, hxcls⟩ := d4 j hjN hjlt4
                  rw [hx, List.filter_append,
                    filter_extra_nil h0 hfwd huniq elemId c helem hcmem extra hxcls,
                    List.append_nil]
                  by_cases hjlt3 : j < st3.heap.length
                  · have hjlt' : j < st.heap.length := by omega
                    by_cases hjcur : j = curId
                    · rw [hjcur, hck3, List.filter_append,
                        filter_mem_singleton (by simp [hcmem])]
                      exact List.Sublist.append
                        (by rw [← hjcur]; exact hfilt j hjN hjlt')
                        (List.Sublist.refl [c])
                    · have hj0 : j ≠ elemId := by omega
                      rw [hframe3 j hj0 hjcur]
                      exact (hfilt j hjN hjlt').trans (List.sublist_append_left _ _)
                  · have hempty : (hget st3.heap j).children = [] := by
                      rw [hget_oob st3.heap j (by omega)]
                    rw [hempty, List.filter_nil]
                    exact List.nil_sublist _
                · rintro k hk ⟨c2, hc2, hd2⟩
                  have h4 : hget st4.heap k = hget st3.heap k :=
                    f4frame k hk (hsib c2 hc2 k hd2)
                  rw [h4]
                  exact hunt3 k hk ⟨c2, by simp [hc2], hd2⟩
                · rw [helem4]
                  exact hroot3
                · intro i hi
                  rcases List.mem_cons.mp hi with rfl | hi2
                  · obtain ⟨j, hjN, hjlt, hm⟩ := hmoved i (by simp)
                    exact ⟨j, hjN, by omega, htransport i j hjN hjlt hm⟩
                  rcases List.mem_append.mp hi2 with hi3 | hi3
                  · obtain ⟨j, hjN, hjlt, hm⟩ := hmoved i (by simp [hi3])
                    exact ⟨j, hjN, by omega, htransport i j hjN hjlt hm⟩
                  · simp at hi3
                    rw [hi3]
                    exact ⟨curId, hcurN, hcurlt4, hccur4⟩
              obtain ⟨sv2, hInv', hrelLoop⟩ := ih (processed ++ [c]) sv st4 st' elemId
                helem (by rw [hsplit]; simp) hInv4 hok4
              have heq : (processed ++ [c]) ++ rest = processed ++ c :: rest := by simp
              rw [heq] at hInv'
              exact ⟨sv2, hInv', StepRel_trans hrelTot hrelLoop⟩
        · rw [if_neg hsv] at hok
          rcases hcase with ⟨hsvn, hkeq, htn, hprop⟩ |
            ⟨hd, post, hpeq, hkprop, hhdt, hsvs, hmoved⟩
          · -- nothing moves; possibly recurse into c
            have hstep : ∃ st4, GenInv h0 cp hdrs st4 ∧ StepRel h0 c st st4 ∧
                assembleLoop (fun st2 c2 => assembleF f st2 c2) elemId rest sv st4 =
                  Except.ok st' := by
              by_cases hne4 : (hget st.heap c).children.length ≠ 0
              · rw [if_pos hne4] at hok
                obtain ⟨st4, hrec4, hok4⟩ := except_bind_ok_inv hok
                obtain ⟨hGI4, hrel4⟩ := hrec st c st4 hGI hclen
                  (fun k hk hd => hunt k hk ⟨c, by simp, hd⟩) hocc hrec4
                exact ⟨st4, hGI4, hrel4, hok4⟩
              · rw [if_neg hne4] at hok
                exact ⟨st, hGI, StepRel_refl h0 c st, hok⟩
            obtain ⟨st4, hGI4, hrel4, hok4⟩ := hstep
            have hrelc4 : StepRel h0 elemId st st4 :=
              StepRel_of_child hfwd helem hcmem hrel4
            obtain ⟨l4, f4frame, d4, o4⟩ := hrel4
            have helem4 : hget st4.heap elemId = hget st.heap elemId :=
              f4frame elemId helem hnotdesc_elem
            have hInv4 : GLoopInv h0 cp hdrs elemId (processed ++ [c]) rest sv st4 := by
              refine ⟨hGI4, ?_, ?_, ?_, hndrest, hmemrest, processed ++ [c], tops, ?_,
                htops, Or.inl ⟨hsvn, rfl, htn, ?_⟩⟩
              · intro i hi
                rw [o4 i (by omega), hocc i hi]
              · intro j hjN hjlt4
                obtain ⟨extra, hx, hxcls⟩ := d4 j hjN hjlt4
                rw [hx, List.filter_append,
                  filter_extra_nil h0 hfwd huniq elemId c helem hcmem extra hxcls,
                  List.append_nil]
                by_cases hjlt3 : j < st.heap.length
                · exact (hfilt j hjN hjlt3).trans (List.sublist_append_left _ _)
                · have hempty : (hget st.heap j).children = [] := by
                    rw [hget_oob st.heap j (by omega)]
                  rw [hempty, List.filter_nil]
                  exact List.nil_sublist _
              · rintro k hk ⟨c2, hc2, hd2⟩
                have h4 : hget st4.heap k = hget st.heap k :=
                  f4frame k hk (hsib c2 hc2 k hd2)
                rw [h4]
                exact hunt k hk ⟨c2, by simp [hc2], hd2⟩
              · rw [helem4, hroot, hkeq, htn]
                simp
              · intro x hx
                rcases List.mem_append.mp hx with hx | hx
                · exact hprop x hx
                · simp at hx
                  rw [hx]
                  exact htagh
            obtain ⟨sv2, hInv', hrelLoop⟩ := ih (processed ++ [c]) sv st4 st' elemId
              helem (by rw [hsplit]; simp) hInv4 hok4
            have heq : (processed ++ [c]) ++ rest = processed ++ c :: rest := by simp
            rw [heq] at hInv'
            exact ⟨sv2, hInv', StepRel_trans hrelc4 hrelLoop⟩
          · rw [hsvs] at hsv
            simp at hsv

/-- The master theorem about one assemble call on any node `elemId` of a
well-formed document whose subtree is still untouched: the invariant is
preserved, `StepRel` holds (frame, append-only sections, occurrence
preservation), `elemId`'s children split into the kept prefix before the
first recognized heading followed by top-level sections with everything
from the first heading onwards re-parented into sections, and every
section's children restricted to `elemId`'s original children are in
original order. -/
theorem assembleF_gen (h0 : Heap) (cp : String) (hdrs : List String)
    (hfwd : ∀ k, k < h0.length → ∀ j ∈ (hget h0 k).children, k < j ∧ j < h0.length)
    (huniq : ∀ i, i < h0.length → occTotal h0 i ≤ 1)
    (hnosecdoc : ∀ k, k < h0.length → (hget h0 k).tag ≠ "section")
    (hHF : ∀ k, k < h0.length → (hget h0 k).tag ∈ hdrs →
      cssHasFreeB cp (hget h0 k) = true) :
    ∀ (fuel : Nat) (st : St) (elemId : Nat) (st' : St),
    GenInv h0 cp hdrs st →
    elemId < h0.length →
    (∀ k, k < h0.length → Desc h0 elemId k → hget st.heap k = hget h0 k) →
    (∀ i, i < h0.length → occTotal st.heap i = occTotal h0 i) →
    assembleF fuel st elemId = Except.ok st' →
    GenInv h0 cp hdrs st' ∧ StepRel h0 elemId st st' ∧
    (∃ keep rest tops,
      (hget h0 elemId).children = keep ++ rest ∧
      (hget st'.heap elemId).children = keep ++ tops ∧
      (∀ x ∈ keep, (hget h0 x).tag ∉ hdrs) ∧
      (∀ t ∈ tops, h0.length ≤ t ∧ t < st'.heap.length ∧
        (hget st'.heap t).tag = "section") ∧
      (∀ i ∈ rest, ∃ j, h0.length ≤ j ∧ j < st'.heap.length ∧
        (hget st'.heap j).tag = "section" ∧ i ∈ (hget st'.heap j).children) ∧
      (rest ≠ [] → ∃ hd tl, rest = hd :: tl ∧ (hget h0 hd).tag ∈ hdrs)) ∧
    (∀ j, h0.length ≤ j → j < st'.heap.length →
      List.Sublist
        ((hget st'.heap j).children.filter
          (fun k => decide (k ∈ (hget h0 elemId).children)))
        (hget h0 elemId).children) := by
  intro fuel
  induction fuel with
  | zero =>
      intro st elemId st' _ _ _ _ hok
      unfold assembleF at hok
      simp at hok
  | succ f ihf =>
      intro st elemId st' hGI helem hunt hocc hok
      unfold assembleF at hok
      have hsnap : (hget st.heap elemId).children = (hget h0 elemId).children := by
        rw [hunt elemId helem (Desc.refl elemId)]
      rw [hsnap] at hok
      have hrec : ∀ st2 c st3, GenInv h0 cp hdrs st2 → c < h0.length →
          (∀ k, k < h0.length → Desc h0 c k → hget st2.heap k = hget h0 k) →
          (∀ i, i < h0.length → occTotal st2.heap i = occTotal h0 i) →
          assembleF f st2 c = Except.ok st3 →
          GenInv h0 cp hdrs st3 ∧ StepRel h0 c st2 st3 :=
        fun st2 c st3 hg hc hu ho hk =>
          ⟨(ihf st2 c st3 hg hc hu ho hk).1, (ihf st2 c st3 hg hc hu ho hk).2.1⟩
      have hndall : (hget h0 elemId).children.Nodup :=
        children_nodup h0 elemId helem
          (fun x hx => huniq x (hfwd elemId helem x hx).2)
      have hmemocc : ∀ i ∈ (hget h0 elemId).children, occTotal st.heap i = 1 := by
        intro i hi
        obtain ⟨_, hilen⟩ := hfwd elemId helem i hi
        have h1 : 1 ≤ occTotal h0 i := by
          have h2 := occTotal_ge_count h0 elemId helem i
          have h3 := count_one_le_of_mem hi
          omega
        have h2 := huniq i hilen
        rw [hocc i hilen]
        omega
      have hfilt0 : ∀ j, h0.length ≤ j → j < st.heap.length →
          List.filter (fun k => decide (k ∈ (hget h0 elemId).children))
            (hget st.heap j).children = [] := by
        intro j hjN hjlt
        rw [List.filter_eq_nil_iff]
        intro a ha
        simp only [decide_eq_true_eq]
        intro hmem
        have hane : elemId ≠ j := by omega
        have helemlt : elemId < st.heap.length := by
          have := hGI.1
          omega
        have hmem_st : a ∈ (hget st.heap elemId).children := by
          rw [hsnap]
          exact hmem
        have h2 := occTotal_ge_two st.heap a elemId j helemlt hjlt hane hmem_st ha
        have := hmemocc a hmem
        omega
      have hInv0 : GLoopInv h0 cp hdrs elemId [] ((hget h0 elemId).children) none st := by
        refine ⟨hGI, hocc, ?_, ?_, hndall, fun c hc => hc, [], [], ?_, by simp,
          Or.inl ⟨rfl, rfl, rfl, by simp⟩⟩
        · intro j hjN hjlt
          rw [hfilt0 j hjN hjlt]
        · rintro k hk ⟨c2, hc2, hd2⟩
          exact hunt k hk (Desc.step elemId c2 k hc2 hd2)
        · rw [hsnap]
          simp
      obtain ⟨sv2, hInvF, hrel⟩ := assembleLoop_gen h0 cp hdrs f hfwd huniq hnosecdoc
        hHF hrec ((hget h0 elemId).children) [] none st st' elemId helem (by simp)
        hInv0 hok
      rw [List.nil_append] at hInvF
      obtain ⟨hGIF, hoccF, hfiltF, _, _, _, keep, tops, hrootF, htopsF, hcaseF⟩ := hInvF
      have helemlt' : elemId < st'.heap.length := by
        have := hGIF.1
        omega
      have htopsFull : ∀ t ∈ tops, h0.length ≤ t ∧ t < st'.heap.length ∧
          (hget st'.heap t).tag = "section" := by
        intro t ht
        have htN := htopsF t ht
        have htmem : t ∈ (hget st'.heap elemId).children := by
          rw [hrootF]
          simp [ht]
        have htlt := hGIF.2.2.2.2.2.2.2.1 elemId helemlt' t htmem
        exact ⟨htN, htlt, (hGIF.2.2.2.2.2.2.1 t htN htlt).1⟩
      refine ⟨hGIF, hrel, ?_, hfiltF⟩
      rcases hcaseF with ⟨_, hkeq, htn, hprop⟩ |
        ⟨hd, post, hpeq, hkprop, hhdt, _, hmoved⟩
      · refine ⟨keep, [], tops, by rw [hkeq, List.append_nil], ?_, ?_, htopsFull,
          by simp, fun h => absurd rfl h⟩
        · rw [hrootF]
          simp
        · intro x hx
          exact hprop x (by rw [← hkeq]; exact hx)
      · refine ⟨keep, hd :: post, tops, hpeq, ?_, hkprop, htopsFull, ?_, ?_⟩
        · rw [hrootF]
          simp
        · intro i hi
          obtain ⟨j, hjN, hjlt, hm⟩ := hmoved i hi
          exact ⟨j, hjN, hjlt, (hGIF.2.2.2.2.2.2.1 j hjN hjlt).1, hm⟩
        · intro _
          exact ⟨hd, post, rfl, hhdt⟩

/-! ## The claims C3 and C5 for arbitrary well-formed documents -/

theorem h_append_ne_section (s : String) : "h" ++ s ≠ "section" := by
  intro h
  have h1 : ("h" ++ s).data = "section".data := congrArg String.data h
  rw [String.data_append] at h1
  have h2 : "h".data = ['h'] := rfl
  have h3 : "section".data = ['s', 'e', 'c', 't', 'i', 'o', 'n'] := rfl
  rw [h2, h3] at h1
  simp at h1

theorem headers_no_section (ml : Int) :
    "section" ∉ (List.range' 1 ml.toNat).map (fun level => "h" ++ pyStrNat level) := by
  intro h
  obtain ⟨l, _, hl⟩ := List.mem_map.mp h
  exact h_append_ne_section (pyStrNat l) hl

/-- Constructing the assembler on a well-formed document establishes the
general invariant in the fresh state. -/
theorem GenInv_init (meta config : List (String × String)) (h0 : Heap) (st0 : St)
    (hDoc : DocOK h0) (hmk : mkAssember meta config h0 = Except.ok st0) :
    GenInv h0 st0.classPfx st0.headers st0 ∧ st0.heap = h0 ∧
    st0.current_section = none ∧ st0.section_stack = [] := by
  obtain ⟨cp, s2, ml, h1, h2, h3, hst⟩ := mkAssember_ok meta config h0 st0 hmk
  subst hst
  refine ⟨⟨le_refl _, rfl, rfl, ?_, ?_, ?_, ?_, ?_, ?_, ?_⟩, rfl, rfl, rfl⟩
  · exact headers_no_section ml
  · intro k _
    rfl
  · intro k _
    rfl
  · intro j hjN hjlt
    have hjlt' : j < h0.length := hjlt
    omega
  · intro j hjlt k hk
    have hjlt' : j < h0.length := hjlt
    have hk' : k ∈ (hget h0 j).children := hk
    exact (hDoc.2.1 j hjlt' k hk').2
  · intro c hc
    cases hc
  · intro p hp
    simp at hp

/-- C5 (amended): after full assembly of a well-formed document (a tree
with forward-pointing child edges and at most one parent per id) that
contains no `section` elements and whose headings contribute no
`has`-prefixed class token to the generated section classes, every
section that carries a `hasN` class token has `N` equal to its number of
direct child `section` elements, each section carries at most one `hasN`
token, and no input element becomes a section. -/
theorem C5_amended_has_count (meta config : List (String × String)) (h0 : Heap)
    (st0 : St) (fuel : Nat) (st' : St)
    (hDoc : DocOK h0)
    (hmk : mkAssember meta config h0 = Except.ok st0)
    (hHF : ∀ k, k < h0.length → (hget h0 k).tag ∈ st0.headers →
      cssHasFreeB st0.classPfx (hget h0 k) = true)
    (hok : assembleF fuel st0 0 = Except.ok st') :
    (∀ k, k < h0.length → (hget st'.heap k).tag ≠ "section") ∧
    (∀ j, h0.length ≤ j → j < st'.heap.length →
      (hget st'.heap j).tag = "section" ∧
      (∀ n : Nat, ("has" ++ pyStrNat n) ∈
          pySplit (((hget st'.heap j).getAttr "class").getD "has0") ' ' →
        n = secCount st'.heap j) ∧
      (hasToks st'.heap j).length ≤ 1) := by
  obtain ⟨hGI0, hheap, hcur, hstk⟩ := GenInv_init meta config h0 st0 hDoc hmk
  obtain ⟨h00, hfwd, huniq, hnosecdoc⟩ := hDoc
  obtain ⟨hGIF, _, _, _⟩ := assembleF_gen h0 st0.classPfx st0.headers hfwd huniq
    hnosecdoc hHF fuel st0 0 st' hGI0 h00 (fun k _ _ => by rw [hheap])
    (fun i _ => by rw [hheap]) hok
  constructor
  · intro k hk
    rw [hGIF.2.2.2.2.1 k hk]
    exact hnosecdoc k hk
  · intro j hjN hjlt
    obtain ⟨htagj, hhp⟩ := hGIF.2.2.2.2.2.2.1 j hjN hjlt
    refine ⟨htagj, ?_, ?_⟩
    · intro n hmem
      have hmemf : ("has" ++ pyStrNat n) ∈ hasToks st'.heap j :=
        List.mem_filter.mpr ⟨hmem, startsWithHas_has_append _⟩
      rcases hhp with ⟨hft, hcnt⟩ | ⟨m, hft, hcnt⟩
      · rw [hft] at hmemf
        simp at hmemf
      · rw [hft] at hmemf
        have heq : "has" ++ pyStrNat n = "has" ++ pyStrNat m :=
          List.mem_singleton.mp hmemf
        have heq2 : pyStrNat n = pyStrNat m := by
          have := congrArg String.data heq
          rw [String.data_append, String.data_append] at this
          exact congrArg String.mk (List.append_cancel_left this)
        rw [hcnt, pyStrNat_inj heq2]
    · rcases hhp with ⟨hft, _⟩ | ⟨m, hft, _⟩ <;> rw [hft] <;> simp

/-- Witness for the amended C5 on the two-heading document with the
default configuration. -/
theorem C5_amended_has_count_witness :
    (∀ k, k < cxDocTwo.length → (hget cxStTwoAfter.heap k).tag ≠ "section") ∧
    (∀ j, cxDocTwo.length ≤ j → j < cxStTwoAfter.heap.length →
      (hget cxStTwoAfter.heap j).tag = "section" ∧
      (∀ n : Nat, ("has" ++ pyStrNat n) ∈
          pySplit (((hget cxStTwoAfter.heap j).getAttr "class").getD "has0") ' ' →
        n = secCount cxStTwoAfter.heap j) ∧
      (hasToks cxStTwoAfter.heap j).length ≤ 1) :=
  C5_amended_has_count [] defaultConfig cxDocTwo cxStTwo 10 cxStTwoAfter
    (by decide) (by decide) (by decide) (by decide)

end SectionsExt
